import Mathlib

/-!
Memory (card-matching game): embedding of `Memory/Main.cpp`.

Modelling conventions.

* `float`/`double` values are exact rationals (`ℚ`): rounding is not modelled and a
  literal such as `1.2f` is read as the decimal it is written as.
* `int` counters (`round_number`, `turn_number`, `score`, the selection indices) are
  mathematical integers; signed overflow (undefined in C++) is outside the model.
* `std::vector<Card>` is `List Card`.  An out-of-range `operator[]`/`erase`, a failed
  `map::at`, an impossible random outcome and a loop that does not terminate have no
  result: the function returns `none`.
* Calls that only draw (`FillRectDecal`, `DrawStringDecal`, ...) have no effect on the
  game state and are left out.
* `std::cos`/`std::sqrtf` on non-integers are library functions: they are parameters
  (`Libm`).  `floor`/`ceil` of the square root of an `int` is computed with `Nat.sqrt`,
  which is what the correctly rounded library square root gives on the `int` range.
* Random draws are inputs: the outcome of `std::shuffle` is the list of source indices,
  `RandFloat()` is a function of the call number, `uniform_int_distribution` draws are
  listed in order.
-/

namespace Memory

/-! Geometry and timing utilities -/

/-- The library type `olc::vf2d`. -/
structure Vf2d where
  x : ℚ
  y : ℚ
deriving DecidableEq

/-- The library type `olc::Pixel` (red, green, blue, alpha bytes). -/
structure Pixel where
  r : Nat
  g : Nat
  b : Nat
  a : Nat
deriving DecidableEq

/-- Library functions on floats that the program calls. -/
structure Libm where
  cos : ℚ → ℚ
  sqrtf : ℚ → ℚ

def Vf2d.add (u v : Vf2d) : Vf2d := ⟨u.x + v.x, u.y + v.y⟩

def Vf2d.sub (u v : Vf2d) : Vf2d := ⟨u.x - v.x, u.y - v.y⟩

def Vf2d.mul (u v : Vf2d) : Vf2d := ⟨u.x * v.x, u.y * v.y⟩

def Vf2d.div (u v : Vf2d) : Vf2d := ⟨u.x / v.x, u.y / v.y⟩

def Vf2d.smul (t : ℚ) (v : Vf2d) : Vf2d := ⟨t * v.x, t * v.y⟩

/-- `lerp(v0, v1, t) = (1 - t) * v0 + t * v1`, instantiated at `olc::vf2d`. -/
def lerp (v0 v1 : Vf2d) (t : ℚ) : Vf2d :=
  Vf2d.add (Vf2d.smul (1 - t) v0) (Vf2d.smul t v1)

def PointInRect (point pos size : Vf2d) : Bool :=
  if point.x ≥ pos.x ∧ point.y ≥ pos.y ∧ point.x < pos.x + size.x ∧ point.y < pos.y + size.y then
    true
  else
    false

structure Card where
  colorBack : Pixel
  colorFront : Pixel
  pos : Vf2d
  size : Vf2d
  faceUp : Bool
  hue : ℚ
  fmod : ℚ
deriving DecidableEq

inductive GameState where
  | NONE
  | START_SCREEN
  | ROUND_START
  | SELECT_FIRST
  | ANIMATE_FIRST
  | SELECT_SECOND
  | ANIMATE_SECOND
  | TURN_END
  | MIXUP
  | SHUFFLE
deriving DecidableEq, Repr

/-- The program's global variables. -/
structure Globals where
  the_cards : List Card
  current_state : GameState
  round_number : Int
  turn_number : Int
  field_width : Int
  field_height : Int
  first_card : Int
  second_card : Int
  score : Int

/-- The globals as initialised at program start. -/
def Globals.init : Globals :=
  { the_cards := [], current_state := GameState.START_SCREEN, round_number := 0,
    turn_number := 1, field_width := 0, field_height := 0, first_card := -1,
    second_card := -1, score := 0 }

/-- The float literal `3.1415926f`. -/
def piLit : ℚ := 31415926 / 10000000

/-- `Ease(x) = -(std::cos(3.1415926f * x) - 1) / 2`. -/
def Ease (m : Libm) (x : ℚ) : ℚ := -(m.cos (piLit * x) - 1) / 2

/-- `the_cards[i]` for an `int` index; `none` when out of range. -/
def cardAt (cards : List Card) (i : Int) : Option Card :=
  if 0 ≤ i then cards[i.toNat]? else none

/-- `the_cards.erase(the_cards.begin() + i)`; `none` when out of range. -/
def eraseAt (cards : List Card) (i : Int) : Option (List Card) :=
  if 0 ≤ i ∧ i < cards.length then some (cards.eraseIdx i.toNat) else none

/-- A loop `for (int i = 0; i < the_cards.size(); i++) { auto& c = the_cards[i]; ... }`
whose body rewrites card `i` to `f i c`; the counter starts at `k`. -/
def forCards (f : Int → Card → Card) : Nat → List Card → List Card
  | _, [] => []
  | k, c :: cs => f k c :: forCards f (k + 1) cs

/-! Selection states -/

/-- The search loop of `SelectFirstState::OnUserUpdate`, counter starting at `i`. -/
def SelectFirstState.search (mouse : Vf2d) : List Card → Nat → Option Nat
  | [], _ => none
  | c :: cs, i =>
    if PointInRect mouse c.pos c.size then some i else SelectFirstState.search mouse cs (i + 1)

def SelectFirstState.OnUserUpdate (mouse : Vf2d) (bPressed : Bool) (g : Globals) :
    Globals × GameState :=
  if bPressed then
    match SelectFirstState.search mouse g.the_cards 0 with
    | some i => ({ g with first_card := i }, GameState.ANIMATE_FIRST)
    | none => (g, GameState.SELECT_FIRST)
  else (g, GameState.SELECT_FIRST)

/-- The search loop of `SelectSecondState::OnUserUpdate`, counter starting at `i`. -/
def SelectSecondState.search (mouse : Vf2d) (first_card : Int) : List Card → Nat → Option Nat
  | [], _ => none
  | c :: cs, i =>
    if first_card ≠ (i : Int) ∧ PointInRect mouse c.pos c.size = true then some i
    else SelectSecondState.search mouse first_card cs (i + 1)

def SelectSecondState.OnUserUpdate (mouse : Vf2d) (bPressed : Bool) (g : Globals) :
    Globals × GameState :=
  if bPressed then
    match SelectSecondState.search mouse g.first_card g.the_cards 0 with
    | some i => ({ g with second_card := i }, GameState.ANIMATE_SECOND)
    | none => (g, GameState.SELECT_SECOND)
  else (g, GameState.SELECT_SECOND)

/-! Flip animations -/

structure AnimateFirstState where
  fTotalTime : ℚ

def AnimateFirstState.EnterState (_s : AnimateFirstState) : AnimateFirstState :=
  { fTotalTime := 0 }

def AnimateFirstState.OnUserUpdate (fElapsedTime : ℚ) (g : Globals) (s : AnimateFirstState) :
    Globals × AnimateFirstState × GameState :=
  let t := s.fTotalTime + fElapsedTime * (12 / 10)
  let cards := forCards (fun i c =>
    if i ≠ g.first_card then c
    else if t > 5 / 10 then { c with faceUp := true } else c) 0 g.the_cards
  ({ g with the_cards := cards }, { fTotalTime := t },
    if t > 1 then GameState.SELECT_SECOND else GameState.ANIMATE_FIRST)

structure AnimateSecondState where
  fTotalTime : ℚ

def AnimateSecondState.EnterState (_s : AnimateSecondState) : AnimateSecondState :=
  { fTotalTime := 0 }

def AnimateSecondState.OnUserUpdate (fElapsedTime : ℚ) (g : Globals) (s : AnimateSecondState) :
    Globals × AnimateSecondState × GameState :=
  let t := s.fTotalTime + fElapsedTime * (12 / 10)
  let cards := forCards (fun i c =>
    if i ≠ g.second_card then c
    else if t > 5 / 10 then { c with faceUp := true } else c) 0 g.the_cards
  ({ g with the_cards := cards }, { fTotalTime := t },
    if t > 1 then GameState.TURN_END else GameState.ANIMATE_SECOND)

/-! Turn end -/

structure TurnEndState where
  did_match : Bool
  fTotalTime : ℚ

/-- `did_match = the_cards[first_card].colorFront == the_cards[second_card].colorFront;
fTotalTime = 0`. -/
def TurnEndState.EnterState (g : Globals) (_s : TurnEndState) : Option TurnEndState :=
  match cardAt g.the_cards g.first_card, cardAt g.the_cards g.second_card with
  | some c1, some c2 =>
    some { did_match := decide (c1.colorFront = c2.colorFront), fTotalTime := 0 }
  | _, _ => none

/-- The state chosen once the turn is resolved (lines 423-433). -/
def TurnEndState.nextAfterResolve (g : Globals) : GameState :=
  if g.the_cards.length ≠ 0 then
    if g.round_number > 2 then GameState.SHUFFLE else GameState.MIXUP
  else GameState.ROUND_START

/-- The card loop of `TurnEndState::OnUserUpdate` (lines 386-412) at accumulated time
`t`: only a selected card of a mismatch is written to. -/
def TurnEndState.cardLoop (g : Globals) (s : TurnEndState) (t : ℚ) : List Card :=
  forCards (fun i c =>
    if i ≠ g.first_card ∧ i ≠ g.second_card then c
    else if s.did_match then c
    else if t > 5 / 10 then { c with faceUp := false } else c) 0 g.the_cards

def TurnEndState.OnUserUpdate (fElapsedTime : ℚ) (g : Globals) (s : TurnEndState) :
    Option (Globals × TurnEndState × GameState) :=
  let t := s.fTotalTime + fElapsedTime * (12 / 10)
  let s1 : TurnEndState := { s with fTotalTime := t }
  let g1 : Globals := { g with the_cards := TurnEndState.cardLoop g s t }
  if t > 1 then
    if s.did_match then
      match eraseAt g1.the_cards (max g1.first_card g1.second_card) with
      | none => none
      | some cs1 =>
        match eraseAt cs1 (min g1.first_card g1.second_card) with
        | none => none
        | some cs2 =>
          let g2 : Globals := { g1 with the_cards := cs2, score := g1.score + 4 }
          some (g2, s1, TurnEndState.nextAfterResolve g2)
    else
      let g2 : Globals := { g1 with score := g1.score - 1 }
      some (g2, s1, TurnEndState.nextAfterResolve g2)
  else
    some (g1, s1, GameState.TURN_END)

def TurnEndState.ExitState (g : Globals) : Globals :=
  { g with turn_number := g.turn_number + 1, first_card := -1, second_card := -1 }

/-- Ticks of `TurnEndState::OnUserUpdate` during which the state stays `TURN_END`:
the state after them, `none` if one of them leaves `TURN_END` or has no result. -/
def TurnEndState.stay : List ℚ → Globals × TurnEndState → Option (Globals × TurnEndState)
  | [], gs => some gs
  | e :: es, gs =>
    match TurnEndState.OnUserUpdate e gs.1 gs.2 with
    | some (g1, s1, GameState.TURN_END) => TurnEndState.stay es (g1, s1)
    | _ => none

/-! Round layout -/

/-! The colour constants of the graphics library (`olc::GREY`, ...), by their
red/green/blue/alpha bytes. -/

def olc.GREY : Pixel := ⟨192, 192, 192, 255⟩
def olc.GREEN : Pixel := ⟨0, 255, 0, 255⟩
def olc.YELLOW : Pixel := ⟨255, 255, 0, 255⟩
def olc.MAGENTA : Pixel := ⟨255, 0, 255, 255⟩
def olc.CYAN : Pixel := ⟨0, 255, 255, 255⟩
def olc.DARK_RED : Pixel := ⟨128, 0, 0, 255⟩
def olc.BLUE : Pixel := ⟨0, 0, 255, 255⟩
def olc.VERY_DARK_GREY : Pixel := ⟨64, 64, 64, 255⟩
def olc.DARK_GREEN : Pixel := ⟨0, 128, 0, 255⟩
def olc.DARK_YELLOW : Pixel := ⟨128, 128, 0, 255⟩
def olc.DARK_MAGENTA : Pixel := ⟨128, 0, 128, 255⟩
def olc.DARK_CYAN : Pixel := ⟨0, 128, 128, 255⟩
def olc.BLACK : Pixel := ⟨0, 0, 0, 255⟩
def olc.WHITE : Pixel := ⟨255, 255, 255, 255⟩
def olc.RED : Pixel := ⟨255, 0, 0, 255⟩

def valid_colors : List Pixel :=
  [olc.GREY, olc.GREEN, olc.YELLOW, olc.MAGENTA, olc.CYAN, olc.DARK_RED, olc.BLUE,
   olc.VERY_DARK_GREY, olc.DARK_GREEN, olc.DARK_YELLOW, olc.DARK_MAGENTA, olc.DARK_CYAN,
   olc.BLACK, olc.WHITE]

/-- The screen size `demo.Construct(256, 240, 4, 4)` of `main`. -/
def ScreenWidth : ℚ := 256

def ScreenHeight : ℚ := 240

def GetScreenSize : Vf2d := ⟨ScreenWidth, ScreenHeight⟩

/-- `std::floor(std::sqrt(n))` for an `int` `n ≥ 0`. -/
def floorSqrt (n : Int) : Int := (Nat.sqrt n.toNat : Nat)

/-- `std::ceil(std::sqrt(n))` for an `int` `n ≥ 0`. -/
def ceilSqrt (n : Int) : Int :=
  if Nat.sqrt n.toNat * Nat.sqrt n.toNat = n.toNat then (Nat.sqrt n.toNat : Nat)
  else ((Nat.sqrt n.toNat + 1 : Nat) : Int)

/-- The outcome of `std::shuffle` on `xs` when position `k` receives the element that
was at position `σ[k]`; `none` unless `σ` is a permutation of the positions. -/
def stdShuffle {α : Type} (σ : List Nat) (xs : List α) : Option (List α) :=
  if σ.Perm (List.range xs.length) then some (σ.filterMap (fun k => xs[k]?)) else none

structure RoundStartState where
  card_size : Vf2d
  field_dim : Vf2d

/-- The card pushed by `the_cards.push_back(Card{ olc::RED, color, olc::vf2d{}, card_size,
false, 0.0, RandFloat() })`. -/
def RoundStartState.newCard (color : Pixel) (card_size : Vf2d) (r : ℚ) : Card :=
  { colorBack := olc.RED, colorFront := color, pos := ⟨0, 0⟩, size := card_size,
    faceUp := false, hue := 0, fmod := r }

/-- The colour `valid_colors[i % valid_colors.size()]` of pair `i`. -/
def pairColor (i : Nat) : Pixel := valid_colors.getD (i % valid_colors.length) olc.BLACK

/-- The board after the first `n` iterations of the pair-generation loop (lines 210-214);
`rand k` is the outcome of the `k`-th call of `RandFloat()`. -/
def RoundStartState.makeCards (rand : Nat → ℚ) (card_size : Vf2d) : Nat → List Card
  | 0 => []
  | n + 1 =>
    let color := pairColor n
    RoundStartState.makeCards rand card_size n ++
      [RoundStartState.newCard color card_size (rand (2 * n)),
       RoundStartState.newCard color card_size (rand (2 * n + 1))]

/-- `the_cards[idx].pos = pos`; `none` when `idx` is out of range. -/
def setPos (cards : List Card) (idx : Int) (pos : Vf2d) : Option (List Card) :=
  if 0 ≤ idx then
    match cards[idx.toNat]? with
    | some c => some (cards.set idx.toNat { c with pos := pos })
    | none => none
  else none

/-- The inner loop of the position assignment (lines 220-224) for column `x`, over the
remaining rows `ys`. -/
def RoundStartState.placeColumn (card_size gap : Vf2d) (field_height : Int) (x : Nat) :
    List Nat → List Card → Option (List Card)
  | [], cs => some cs
  | y :: ys, cs =>
    let pos := Vf2d.add (Vf2d.add (Vf2d.mul ⟨x, y⟩ card_size)
      (Vf2d.mul ⟨(x : ℚ) + 1, (y : ℚ) + 1⟩ gap)) ⟨0, 2⟩
    match setPos cs ((x : Int) * field_height + (y : Int)) pos with
    | none => none
    | some cs1 => RoundStartState.placeColumn card_size gap field_height x ys cs1

/-- The outer loop of the position assignment (lines 219-225), over the remaining
columns `xs`. -/
def RoundStartState.placeAll (card_size gap : Vf2d) (field_height : Int) :
    List Nat → List Card → Option (List Card)
  | [], cs => some cs
  | x :: xs, cs =>
    match RoundStartState.placeColumn card_size gap field_height x
        (List.range field_height.toNat) cs with
    | none => none
    | some cs1 => RoundStartState.placeAll card_size gap field_height xs cs1

/-- `RoundStartState::EnterState`; `rand` are the outcomes of `RandFloat()` and `σ` is the
outcome of `std::shuffle(the_cards.begin(), the_cards.end(), rng)`.  The first assignment
to `card_size` (line 186) is overwritten on both branches of the `if` that follows and is
left out; the square root of a negative `desired_card_count` has no integer value. -/
def RoundStartState.EnterState (m : Libm) (rand : Nat → ℚ) (σ : List Nat) (g : Globals)
    (_s : RoundStartState) : Option (Globals × RoundStartState) :=
  let round_number := g.round_number + 1
  let desired_pair_count := 7 + round_number
  let desired_card_count := desired_pair_count * 2
  if desired_card_count < 0 then none
  else
    let field_width := ceilSqrt desired_card_count
    let field_height := floorSqrt desired_card_count
    let ratio : ℚ := (25 / 10) / (35 / 10)
    let min_gap : ℚ := 8 - min 7 (m.sqrtf round_number - 1)
    let field_dim : Vf2d := ⟨field_width, field_height⟩
    let max_card_width : ℚ := (ScreenWidth - ((field_width : ℚ) + 1) * min_gap) / field_width
    let max_card_height : ℚ :=
      (ScreenHeight - ((field_height : ℚ) + 1) * min_gap) / field_height
    let w_from_h := max_card_height * ratio
    let card_size : Vf2d :=
      if w_from_h ≤ max_card_width then ⟨w_from_h, max_card_height⟩
      else ⟨max_card_width, max_card_width / ratio⟩
    let gap := Vf2d.div (Vf2d.sub GetScreenSize (Vf2d.mul card_size field_dim))
      (Vf2d.add field_dim ⟨1, 1⟩)
    let pair_count := Int.tdiv (field_width * field_height) 2
    let cards := RoundStartState.makeCards rand card_size pair_count.toNat
    match stdShuffle σ cards with
    | none => none
    | some shuffled =>
      match RoundStartState.placeAll card_size gap field_height
          (List.range field_width.toNat) shuffled with
      | none => none
      | some placed =>
        some ({ g with the_cards := placed, turn_number := 1, round_number := round_number,
                       field_width := field_width, field_height := field_height },
              { card_size := card_size, field_dim := field_dim })

def RoundStartState.OnUserUpdate : GameState := GameState.SELECT_FIRST

/-! Mixup -/

inductive MixupState.InnerState where
  | PICK
  | ANIMATE
  | SKIP
deriving DecidableEq

structure MixupState where
  inner_state : MixupState.InnerState
  mixup_count : Int
  fTotalTime : ℚ
  pick_new : Bool
  card_one : Int
  card_two : Int
  new_pos_one : Vf2d
  new_pos_two : Vf2d
  old_pos_one : Vf2d
  old_pos_two : Vf2d

/-- `MixupState::EnterState`; the square root of a negative number has no integer value. -/
def MixupState.EnterState (g : Globals) (s : MixupState) : Option MixupState :=
  let arg := g.round_number + max (-1) (g.turn_number - 5)
  if arg < 0 then none
  else
    let mixup_count := floorSqrt arg
    let s1 : MixupState :=
      { s with fTotalTime := 0, mixup_count := mixup_count, card_one := -1, card_two := -1 }
    if mixup_count > 0 then
      some { s1 with pick_new := true, inner_state := MixupState.InnerState.PICK }
    else
      some { s1 with inner_state := MixupState.InnerState.SKIP }

/-- The `do ... while (card_one == card_two)` loop of `Pick` on a board of `n` cards:
`draws` are the successive outcomes of the distribution on `[0, n - 1]`. -/
def MixupState.drawTwo (card_one n : Nat) : List Nat → Option Nat
  | [] => none
  | d :: ds =>
    if d < n then
      if card_one = d then MixupState.drawTwo card_one n ds else some d
    else none

/-- `MixupState::Pick`; `d1` is the draw for `card_one`, `ds` the draws for `card_two`. -/
def MixupState.Pick (d1 : Nat) (ds : List Nat) (g : Globals) (s : MixupState) :
    Option MixupState :=
  if d1 < g.the_cards.length then
    match MixupState.drawTwo d1 g.the_cards.length ds with
    | none => none
    | some d2 =>
      match g.the_cards[d1]?, g.the_cards[d2]? with
      | some c1, some c2 =>
        some { s with card_one := d1, card_two := d2, new_pos_one := c2.pos,
                      old_pos_one := c1.pos, new_pos_two := c1.pos, old_pos_two := c2.pos,
                      inner_state := MixupState.InnerState.ANIMATE, fTotalTime := 0 }
      | _, _ => none
  else none

/-- The time scale `(1 + (round_number - 1) * 0.5)` of the Mixup and Shuffle animations. -/
def timeScale (round_number : Int) : ℚ := 1 + ((round_number : ℚ) - 1) * (5 / 10)

def MixupState.Animate (m : Libm) (fElapsedTime : ℚ) (g : Globals) (s : MixupState) :
    Option (Globals × MixupState) :=
  let fTotalTime := s.fTotalTime + fElapsedTime * timeScale g.round_number
  match cardAt g.the_cards s.card_one, cardAt g.the_cards s.card_two with
  | some _, some _ =>
    let t := Ease m fTotalTime
    match setPos g.the_cards s.card_one (lerp s.old_pos_one s.new_pos_one (min 1 t)) with
    | none => none
    | some cs1 =>
      match setPos cs1 s.card_two (lerp s.old_pos_two s.new_pos_two (min 1 t)) with
      | none => none
      | some cs2 =>
        some ({ g with the_cards := cs2 },
              { s with fTotalTime := fTotalTime,
                       mixup_count := if fTotalTime > 1 then s.mixup_count - 1
                                      else s.mixup_count })
  | _, _ => none

def MixupState.OnUserUpdate (m : Libm) (fElapsedTime : ℚ) (d1 : Nat) (ds : List Nat)
    (g : Globals) (s : MixupState) : Option (Globals × MixupState × GameState) :=
  match s.inner_state with
  | MixupState.InnerState.PICK =>
    match MixupState.Pick d1 ds g s with
    | none => none
    | some s1 =>
      some (g, { s1 with inner_state := MixupState.InnerState.ANIMATE }, GameState.MIXUP)
  | MixupState.InnerState.ANIMATE =>
    match MixupState.Animate m fElapsedTime g s with
    | none => none
    | some (g1, s1) =>
      if s1.mixup_count ≠ 0 then
        if s1.fTotalTime > 1 then
          some (g1, { s1 with inner_state := MixupState.InnerState.PICK }, GameState.MIXUP)
        else some (g1, s1, GameState.MIXUP)
      else some (g1, s1, GameState.SELECT_FIRST)
  | MixupState.InnerState.SKIP => some (g, s, GameState.SELECT_FIRST)

/-! Shuffle -/

structure ShuffleData where
  index : Int
  old_pos : Vf2d
  new_pos : Vf2d

structure ShuffleState where
  fTotalTime : ℚ
  sd : List ShuffleData

/-- The first loop of `ShuffleState::EnterState` (lines 571-576) over the first
`shuffle_count` entries `idxs` of `indices`; `new_pos` is default-constructed. -/
def ShuffleState.record (cards : List Card) : List Nat → Option (List ShuffleData)
  | [] => some []
  | i :: idxs =>
    match cards[i]?, ShuffleState.record cards idxs with
    | some c, some ds => some ({ index := i, old_pos := c.pos, new_pos := ⟨0, 0⟩ } :: ds)
    | _, _ => none

/-- The second loop of `ShuffleState::EnterState` (lines 580-582): `sd[i].new_pos =
the_cards[indices[i]].pos`, over the entries of `sd` and the first entries of `indices`. -/
def ShuffleState.target (cards : List Card) : List ShuffleData → List Nat →
    Option (List ShuffleData)
  | [], _ => some []
  | _ :: _, [] => none
  | d :: ds, i :: idxs =>
    match cards[i]?, ShuffleState.target cards ds idxs with
    | some c, some ds1 => some ({ d with new_pos := c.pos } :: ds1)
    | _, _ => none

/-- `ShuffleState::EnterState`; `σ1` is the outcome of the shuffle of all indices and `σ2`
the outcome of the shuffle of the first `shuffle_count` of them. -/
def ShuffleState.EnterState (σ1 σ2 : List Nat) (g : Globals) (_s : ShuffleState) :
    Option ShuffleState :=
  if g.turn_number < 0 then none
  else
    let shuffle_count : Int :=
      min (g.the_cards.length : Int) (g.round_number + floorSqrt g.turn_number)
    if shuffle_count < 0 then none
    else
      match stdShuffle σ1 (List.range g.the_cards.length) with
      | none => none
      | some indices =>
        match ShuffleState.record g.the_cards (indices.take shuffle_count.toNat) with
        | none => none
        | some sd =>
          match stdShuffle σ2 (indices.take shuffle_count.toNat) with
          | none => none
          | some front =>
            let indices2 := front ++ indices.drop shuffle_count.toNat
            match ShuffleState.target g.the_cards sd indices2 with
            | none => none
            | some sd1 => some { fTotalTime := 0, sd := sd1 }

/-- The loop `for (const auto& d : sd) the_cards[d.index].pos = lerp(...)` with eased
progress `p`. -/
def ShuffleState.move (p : ℚ) : List ShuffleData → List Card → Option (List Card)
  | [], cs => some cs
  | d :: ds, cs =>
    match setPos cs d.index (lerp d.old_pos d.new_pos p) with
    | none => none
    | some cs1 => ShuffleState.move p ds cs1

def ShuffleState.OnUserUpdate (m : Libm) (fElapsedTime : ℚ) (g : Globals) (s : ShuffleState) :
    Option (Globals × ShuffleState × GameState) :=
  let fTotalTime := s.fTotalTime + fElapsedTime * timeScale g.round_number
  let t := Ease m fTotalTime
  match ShuffleState.move (min 1 t) s.sd g.the_cards with
  | none => none
  | some cs =>
    some ({ g with the_cards := cs }, { s with fTotalTime := fTotalTime },
      if fTotalTime > 1 then GameState.MIXUP else GameState.SHUFFLE)

/-! Ambient colour cycling -/

/-- Truncation toward zero. -/
def truncQ (q : ℚ) : Int := if 0 ≤ q then ⌊q⌋ else -⌊-q⌋

/-- The library function `fmodf`. -/
def fmodf (x y : ℚ) : ℚ := x - y * (truncQ (x / y) : ℚ)

/-- The library function `std::clamp`. -/
def clamp (v lo hi : ℚ) : ℚ := if v < lo then lo else if hi < v then hi else v

/-- The library function `olc::PixelF`: each channel is `uint8_t(v * 255.0f)`. -/
def olc.PixelF (red green blue alpha : ℚ) : Pixel :=
  ⟨(truncQ (red * 255)).toNat % 256, (truncQ (green * 255)).toNat % 256,
   (truncQ (blue * 255)).toNat % 256, (truncQ (alpha * 255)).toNat % 256⟩

def FromHsv (hue0 saturation0 value0 alpha : ℚ) : Pixel :=
  let hue := clamp hue0 0 360
  let saturation := clamp saturation0 0 1
  let value := clamp value0 0 1
  let chroma := value * saturation
  let x := chroma * (1 - |fmodf (hue / 60) 2 - 1|)
  let m := value - chroma
  if saturation = 0 then olc.PixelF (value + m) (value + m) (value + m) alpha
  else if hue < 60 then olc.PixelF (chroma + m) (x + m) (0 + m) alpha
  else if 60 ≤ hue ∧ hue < 120 then olc.PixelF (x + m) (chroma + m) (0 + m) alpha
  else if 120 ≤ hue ∧ hue < 180 then olc.PixelF (0 + m) (chroma + m) (x + m) alpha
  else if 180 ≤ hue ∧ hue < 240 then olc.PixelF (0 + m) (x + m) (chroma + m) alpha
  else if 240 ≤ hue ∧ hue < 300 then olc.PixelF (x + m) (0 + m) (chroma + m) alpha
  else olc.PixelF (chroma + m) (0 + m) (x + m) alpha

def MessWithColors (fElapsedTime : ℚ) (g : Globals) : Globals :=
  { g with the_cards := g.the_cards.map (fun c =>
      let hue := fmodf (c.hue + fElapsedTime * c.fmod * 2) 360
      { c with hue := hue, colorBack := FromHsv hue 1 1 1 }) }

/-! Start screen -/

def StartScreenState.OnUserUpdate (mouse : Vf2d) (bPressed : Bool) : GameState :=
  let button_pos : Vf2d := ⟨ScreenWidth / 3, ScreenHeight * 2 / 3⟩
  let button_size : Vf2d := ⟨ScreenWidth / 3, ScreenHeight / 6⟩
  if bPressed then
    if PointInRect mouse button_pos button_size then GameState.ROUND_START
    else GameState.START_SCREEN
  else GameState.START_SCREEN

/-! The controller -/

/-- What one frame receives from outside: the elapsed time, the pointer, and the
outcomes of the random draws made during the frame. -/
structure Input where
  fElapsedTime : ℚ
  mousePos : Vf2d
  bPressed : Bool
  randFloat : Nat → ℚ
  shuffle1 : List Nat
  shuffle2 : List Nat
  pickOne : Nat
  pickTwo : List Nat

/-- The controller: the globals, its own fields, and the fields of the state objects
held in `gameStates`. -/
structure MemoryGame where
  g : Globals
  next_state : GameState
  prev_state : GameState
  roundStart : RoundStartState
  animateFirst : AnimateFirstState
  animateSecond : AnimateSecondState
  turnEnd : TurnEndState
  mixup : MixupState
  shuffle : ShuffleState

/-- The program state when the first frame starts. -/
def MemoryGame.init : MemoryGame :=
  { g := Globals.init, next_state := GameState.START_SCREEN, prev_state := GameState.NONE,
    roundStart := { card_size := ⟨0, 0⟩, field_dim := ⟨0, 0⟩ },
    animateFirst := { fTotalTime := 0 }, animateSecond := { fTotalTime := 0 },
    turnEnd := { did_match := false, fTotalTime := 0 },
    mixup := { inner_state := MixupState.InnerState.PICK, mixup_count := 0, fTotalTime := 0,
               pick_new := false, card_one := -1, card_two := -1, new_pos_one := ⟨0, 0⟩,
               new_pos_two := ⟨0, 0⟩, old_pos_one := ⟨0, 0⟩, old_pos_two := ⟨0, 0⟩ },
    shuffle := { fTotalTime := 0, sd := [] } }

/-- The call `state->EnterState()` for the object of the current state. -/
def MemoryGame.EnterState (m : Libm) (inp : Input) (G : MemoryGame) : Option MemoryGame :=
  match G.g.current_state with
  | GameState.NONE => none
  | GameState.START_SCREEN => some G
  | GameState.ROUND_START =>
    match RoundStartState.EnterState m inp.randFloat inp.shuffle1 G.g G.roundStart with
    | none => none
    | some (g1, s1) => some { G with g := g1, roundStart := s1 }
  | GameState.SELECT_FIRST => some G
  | GameState.ANIMATE_FIRST =>
    some { G with animateFirst := AnimateFirstState.EnterState G.animateFirst }
  | GameState.SELECT_SECOND => some G
  | GameState.ANIMATE_SECOND =>
    some { G with animateSecond := AnimateSecondState.EnterState G.animateSecond }
  | GameState.TURN_END =>
    match TurnEndState.EnterState G.g G.turnEnd with
    | none => none
    | some s1 => some { G with turnEnd := s1 }
  | GameState.MIXUP =>
    match MixupState.EnterState G.g G.mixup with
    | none => none
    | some s1 => some { G with mixup := s1 }
  | GameState.SHUFFLE =>
    match ShuffleState.EnterState inp.shuffle1 inp.shuffle2 G.g G.shuffle with
    | none => none
    | some s1 => some { G with shuffle := s1 }

/-- The call `state->OnUserUpdate(fElapsedTime)` for the object of the current state,
with the state it returns. -/
def MemoryGame.UpdateState (m : Libm) (inp : Input) (G : MemoryGame) :
    Option (MemoryGame × GameState) :=
  match G.g.current_state with
  | GameState.NONE => none
  | GameState.START_SCREEN =>
    some (G, StartScreenState.OnUserUpdate inp.mousePos inp.bPressed)
  | GameState.ROUND_START => some (G, RoundStartState.OnUserUpdate)
  | GameState.SELECT_FIRST =>
    let r := SelectFirstState.OnUserUpdate inp.mousePos inp.bPressed G.g
    some ({ G with g := r.1 }, r.2)
  | GameState.ANIMATE_FIRST =>
    let r := AnimateFirstState.OnUserUpdate inp.fElapsedTime G.g G.animateFirst
    some ({ G with g := r.1, animateFirst := r.2.1 }, r.2.2)
  | GameState.SELECT_SECOND =>
    let r := SelectSecondState.OnUserUpdate inp.mousePos inp.bPressed G.g
    some ({ G with g := r.1 }, r.2)
  | GameState.ANIMATE_SECOND =>
    let r := AnimateSecondState.OnUserUpdate inp.fElapsedTime G.g G.animateSecond
    some ({ G with g := r.1, animateSecond := r.2.1 }, r.2.2)
  | GameState.TURN_END =>
    match TurnEndState.OnUserUpdate inp.fElapsedTime G.g G.turnEnd with
    | none => none
    | some (g1, s1, next) => some ({ G with g := g1, turnEnd := s1 }, next)
  | GameState.MIXUP =>
    match MixupState.OnUserUpdate m inp.fElapsedTime inp.pickOne inp.pickTwo G.g G.mixup with
    | none => none
    | some (g1, s1, next) => some ({ G with g := g1, mixup := s1 }, next)
  | GameState.SHUFFLE =>
    match ShuffleState.OnUserUpdate m inp.fElapsedTime G.g G.shuffle with
    | none => none
    | some (g1, s1, next) => some ({ G with g := g1, shuffle := s1 }, next)

/-- The call `state->ExitState()`: only `TurnEndState` overrides it. -/
def MemoryGame.ExitState (G : MemoryGame) : MemoryGame :=
  match G.g.current_state with
  | GameState.TURN_END => { G with g := TurnEndState.ExitState G.g }
  | _ => G

/-- `MemoryGame::OnUserUpdate`: one frame of the controller. -/
def MemoryGame.OnUserUpdate (m : Libm) (inp : Input) (G : MemoryGame) : Option MemoryGame :=
  match (if G.g.current_state ≠ G.prev_state then MemoryGame.EnterState m inp G
         else some G) with
  | none => none
  | some G1 =>
    match MemoryGame.UpdateState m inp G1 with
    | none => none
    | some (G2, next_state) =>
      let G3 := if next_state ≠ G2.g.current_state then MemoryGame.ExitState G2 else G2
      let G4 : MemoryGame :=
        if G3.g.current_state ≠ GameState.START_SCREEN then
          if G3.g.round_number > 1 then { G3 with g := MessWithColors inp.fElapsedTime G3.g }
          else G3
        else G3
      some { G4 with next_state := next_state, prev_state := G4.g.current_state,
                     g := { G4.g with current_state := next_state } }

/-- The states the controller can be in after some number of frames, whatever the
inputs and the random outcomes. -/
inductive MemoryGame.Reachable (m : Libm) : MemoryGame → Prop where
  | init : MemoryGame.Reachable m MemoryGame.init
  | step (inp : Input) (G G1 : MemoryGame) :
      MemoryGame.Reachable m G → 0 < inp.fElapsedTime →
      MemoryGame.OnUserUpdate m inp G = some G1 → MemoryGame.Reachable m G1

/-! Runs within one state -/

/-- Successive frames spent in the Mixup state: `MixupState::OnUserUpdate` is called with
each input in turn while it returns MIXUP; the result is the first other state returned
(or MIXUP when the inputs are used up), with the globals and the state object then. -/
def MixupState.run (m : Libm) :
    List Input → Globals × MixupState → Option (Globals × MixupState × GameState)
  | [], gs => some (gs.1, gs.2, GameState.MIXUP)
  | inp :: rest, gs =>
    match MixupState.OnUserUpdate m inp.fElapsedTime inp.pickOne inp.pickTwo gs.1 gs.2 with
    | none => none
    | some (g1, s1, GameState.MIXUP) => MixupState.run m rest (g1, s1)
    | some r => some r

/-- Ticks of `ShuffleState::OnUserUpdate` during which the state stays `SHUFFLE`: the
state after them, `none` if one of them leaves `SHUFFLE` or has no result. -/
def ShuffleState.stay (m : Libm) :
    List ℚ → Globals × ShuffleState → Option (Globals × ShuffleState)
  | [], gs => some gs
  | e :: es, gs =>
    match ShuffleState.OnUserUpdate m e gs.1 gs.2 with
    | some (g1, s1, GameState.SHUFFLE) => ShuffleState.stay m es (g1, s1)
    | _ => none

/-! Specification-level definitions -/

/-- The sub-sequence of `cards` made of the entries whose position is neither `i` nor
`j`, in their original order (the board "with the entries at positions i and j
deleted"). -/
def withoutPositions (i j : Nat) (cards : List Card) : List Card :=
  ((cards.enum).filter (fun p => decide (p.1 ≠ i ∧ p.1 ≠ j))).map Prod.snd

/-! Concrete inputs at which the theorems are instantiated -/

/-- A face-up card of front colour `front` at `(x, 0)`. -/
def exCard (front : Pixel) (x : ℚ) : Card :=
  { colorBack := olc.RED, colorFront := front, pos := ⟨x, 0⟩, size := ⟨10, 14⟩,
    faceUp := true, hue := 0, fmod := 0 }

/-- A board of four cards: two grey, two green, at x = 0, 20, 40, 60. -/
def exBoard : List Card :=
  [exCard olc.GREY 0, exCard olc.GREEN 20, exCard olc.GREY 40, exCard olc.GREEN 60]

/-- Globals holding `exBoard` in state `st`, round `round`, with the given selection. -/
def exGlobals (st : GameState) (round first second : Int) : Globals :=
  { the_cards := exBoard, current_state := st, round_number := round, turn_number := 1,
    field_width := 2, field_height := 2, first_card := first, second_card := second,
    score := 0 }

/-- A library whose cosine is -1 and whose square root is 1: the values the
single-precision functions return at `3.1415926 * 1.00002` and at 1. -/
def exLibm : Libm := { cos := fun _ => -1, sqrtf := fun _ => 1 }

/-- A frame of `e` time units without a press, whose Mixup draws are 0 and then 1. -/
def exInput (e : ℚ) : Input :=
  { fElapsedTime := e, mousePos := ⟨0, 0⟩, bPressed := false, randFloat := fun _ => 0,
    shuffle1 := [], shuffle2 := [], pickOne := 0, pickTwo := [1] }

/-- The controller holding `exGlobals`, with previous state `prev`. -/
def exGame (st prev : GameState) (round first second : Int) : MemoryGame :=
  { MemoryGame.init with g := exGlobals st round first second, prev_state := prev }

/-- A frame with a press inside the start button; the shuffle outcome is the identity
on 16 cards. -/
def exPress : Input :=
  { fElapsedTime := 1 / 60, mousePos := ⟨100, 170⟩, bPressed := true, randFloat := fun _ => 0,
    shuffle1 := List.range 16, shuffle2 := [], pickOne := 0, pickTwo := [1] }

/-- A board of two cards, in round 1 after four turns. -/
def exTwo : Globals :=
  { the_cards := [exCard olc.GREY 0, exCard olc.GREY 20],
    current_state := GameState.MIXUP, round_number := 1, turn_number := 5,
    field_width := 2, field_height := 1, first_card := -1, second_card := -1, score := 0 }

/-- A library whose cosine is 0, as the real one is (to seven decimals) at
`3.1415926 * 1.5`. -/
def exLibmHalf : Libm := { cos := fun _ => 0, sqrtf := fun _ => 1 }

/-- Successive frames spent in the Mixup state, as `MixupState.run`, recording the state
object at the start of every frame that was executed. -/
def MixupState.trace (m : Libm) :
    List Input → Globals × MixupState →
      Option (List MixupState × Globals × MixupState × GameState)
  | [], gs => some ([], gs.1, gs.2, GameState.MIXUP)
  | inp :: rest, gs =>
    match MixupState.OnUserUpdate m inp.fElapsedTime inp.pickOne inp.pickTwo gs.1 gs.2 with
    | none => none
    | some (g1, s1, GameState.MIXUP) =>
      match MixupState.trace m rest (g1, s1) with
      | none => none
      | some (tr, r) => some (gs.2 :: tr, r)
    | some (g1, s1, next) => some ([gs.2], g1, s1, next)

/-- Ticks of `AnimateFirstState::OnUserUpdate` during which the state stays
`ANIMATE_FIRST`: the state after them, `none` if one of them leaves `ANIMATE_FIRST`. -/
def AnimateFirstState.stay :
    List ℚ → Globals × AnimateFirstState → Option (Globals × AnimateFirstState)
  | [], gs => some gs
  | e :: es, gs =>
    match AnimateFirstState.OnUserUpdate e gs.1 gs.2 with
    | (g1, s1, GameState.ANIMATE_FIRST) => AnimateFirstState.stay es (g1, s1)
    | _ => none

/-- The globals `exGlobals` with every card of the board face-down. -/
def exHidden (st : GameState) (round first second : Int) : Globals :=
  { exGlobals st round first second with
    the_cards := exBoard.map (fun c => { c with faceUp := false }) }

/-- The position written to slot `(x, y)` of the grid (line 221 of `EnterState`). -/
def RoundStartState.slotPos (card_size gap : Vf2d) (x y : Nat) : Vf2d :=
  Vf2d.add (Vf2d.add (Vf2d.mul ⟨x, y⟩ card_size)
    (Vf2d.mul ⟨(x : ℚ) + 1, (y : ℚ) + 1⟩ gap)) ⟨0, 2⟩

/-- The gap between cards (line 202 of `EnterState`). -/
def RoundStartState.gapOf (s : RoundStartState) : Vf2d :=
  Vf2d.div (Vf2d.sub GetScreenSize (Vf2d.mul s.card_size s.field_dim))
    (Vf2d.add s.field_dim ⟨1, 1⟩)

/-- The states whose code reads `first_card` as an index into the board. -/
def usesFirst (st : GameState) : Prop :=
  st = GameState.ANIMATE_FIRST ∨ st = GameState.SELECT_SECOND ∨
  st = GameState.ANIMATE_SECOND ∨ st = GameState.TURN_END

/-- The states whose code reads `second_card` as an index into the board. -/
def usesSecond (st : GameState) : Prop :=
  st = GameState.ANIMATE_SECOND ∨ st = GameState.TURN_END

/-- The selection is valid for state `st`: `first_card` is an index into the board when
`st` uses it, and `second_card` is another index into the board when `st` uses it. -/
def SelectionValid (st : GameState) (g : Globals) : Prop :=
  (usesFirst st → 0 ≤ g.first_card ∧ g.first_card < g.the_cards.length) ∧
  (usesSecond st → 0 ≤ g.second_card ∧ g.second_card < g.the_cards.length ∧
    g.second_card ≠ g.first_card)

/-- A frame of 1/60 time units with a press at `mouse`. -/
def exClick (mouse : Vf2d) : Input :=
  { fElapsedTime := 1 / 60, mousePos := mouse, bPressed := true, randFloat := fun _ => 0,
    shuffle1 := [], shuffle2 := [], pickOne := 0, pickTwo := [1] }

/-- The cards of the swap in progress are two different cards of the board. -/
def MixupState.SwapValid (g : Globals) (s : MixupState) : Prop :=
  s.inner_state = MixupState.InnerState.ANIMATE →
    ∃ i j : Nat, s.card_one = (i : Int) ∧ s.card_two = (j : Int) ∧ i ≠ j ∧
      i < g.the_cards.length ∧ j < g.the_cards.length

/-! Single-precision arithmetic

The claims about exact floating-point values are stated over a model of `float` in
which every operation returns the binary32 number nearest to the exact result, ties to
even; overflow to infinity is not modelled. -/

/-- The integer nearest to `x`, the even one of the two when `x` is half-way. -/
def roundEven (x : ℚ) : Int :=
  let f := ⌊x⌋
  if x - f < 1 / 2 then f
  else if 1 / 2 < x - f then f + 1
  else if f % 2 = 0 then f else f + 1

/-- The exponent of the binade of `q`, not below that of the subnormal numbers. -/
def f32exp (q : ℚ) : Int := max (Int.log 2 |q|) (-126)

/-- Rounding to `float`: the multiple of the spacing `2 ^ (e - 23)` of the binade of `q`
that is nearest to `q`, ties to even. -/
def f32 (q : ℚ) : ℚ :=
  (roundEven (q / 2 ^ (f32exp q - 23)) : ℚ) * 2 ^ (f32exp q - 23)

/-- The rational `q` is a `float`: an integer of fewer than 24 bits times a power of two
not below the smallest subnormal number. -/
def IsF32 (q : ℚ) : Prop :=
  ∃ k e : Int, |k| < 2 ^ 24 ∧ -149 ≤ e ∧ q = (k : ℚ) * 2 ^ e

/-- The literal `3.1415926f`: the `float` nearest to 3.1415926. -/
def piF : ℚ := f32 piLit

/-- `Ease` with every operation rounded to `float`:
`-(std::cos(3.1415926f * x) - 1) / 2`; the negation is exact. -/
def EaseF (m : Libm) (x : ℚ) : ℚ := f32 (-(f32 (m.cos (f32 (piF * x)) - 1)) / 2)

/-- `lerp` on `olc::vf2d` with every operation rounded to `float`:
`(1 - t) * v0 + t * v1`, component by component. -/
def lerpF (v0 v1 : Vf2d) (t : ℚ) : Vf2d :=
  ⟨f32 (f32 (f32 (1 - t) * v0.x) + f32 (t * v1.x)),
   f32 (f32 (f32 (1 - t) * v0.y) + f32 (t * v1.y))⟩

/-- The accuracy of the library cosine on `[0, 4]`: it returns a `float` that differs
from the real cosine by at most `3 / 2 ^ 26`, three quarters of the spacing of the
`float`s between 1/2 and 1.  A correctly rounded single-precision cosine differs by at
most half that spacing. -/
def Libm.cosAccurate (m : Libm) : Prop :=
  ∀ x : ℚ, 0 ≤ x → x ≤ 4 →
    IsF32 (m.cos x) ∧ |((m.cos x : ℚ) : ℝ) - Real.cos ((x : ℚ) : ℝ)| ≤ 3 / 2 ^ 26

/-- The cosine by `n` applications of `cos (2 y) = 2 cos(y)^2 - 1` to the polynomial
`1 - y^2 / 2`. -/
def cosIter : Nat → ℚ → ℚ
  | 0, y => 1 - y ^ 2 / 2
  | n + 1, y => 2 * (cosIter n (y / 2)) ^ 2 - 1

/-- A single-precision cosine for arguments in `[0, 4]`: `cosIter 22`, kept within
`[-1, 1]` and rounded to the nearest multiple of `2 ^ -24`. -/
def cosF (x : ℚ) : ℚ :=
  (round (max (-1) (min 1 (cosIter 22 x)) * 2 ^ 24) : ℚ) / 2 ^ 24

/-- A library with the cosine `cosF`. -/
def exLibmCos : Libm := { cos := cosF, sqrtf := fun _ => 1 }

/-- `float ratio = 2.5f / 3.5f` (line 179), rounded to `float`. -/
def RoundStartState.ratioF : ℚ := f32 (f32 (25 / 10) / f32 (35 / 10))

/-- `float min_gap = 8.0f - std::min(7.0f, std::sqrtf(round_number) - 1)` (line 181),
every operation rounded to `float`. -/
def RoundStartState.minGapF (m : Libm) (round_number : Int) : ℚ :=
  f32 (8 - min 7 (f32 (m.sqrtf (f32 round_number) - 1)))

/-- The largest card extent along one axis (lines 188-189),
`(canvas - (field + 1) * min_gap) / field` for the `int`s `canvas` and `field`, every
operation rounded to `float`. -/
def RoundStartState.maxCardF (canvas field : Int) (min_gap : ℚ) : ℚ :=
  f32 (f32 (f32 canvas - f32 (f32 ((field + 1 : Int) : ℚ) * min_gap)) / f32 field)

/-- The card size chosen from the two bounds (lines 191-199), every operation rounded
to `float`. -/
def RoundStartState.chooseSizeF (max_card_width max_card_height : ℚ) : Vf2d :=
  let w_from_h := f32 (max_card_height * RoundStartState.ratioF)
  if w_from_h ≤ max_card_width then ⟨w_from_h, max_card_height⟩
  else ⟨max_card_width, f32 (max_card_width / RoundStartState.ratioF)⟩

/-- The card size of a `fieldWidth` by `fieldHeight` grid on a canvas (lines 188-199). -/
def RoundStartState.cardSizeF (canvasWidth canvasHeight fieldWidth fieldHeight : Int)
    (min_gap : ℚ) : Vf2d :=
  RoundStartState.chooseSizeF (RoundStartState.maxCardF canvasWidth fieldWidth min_gap)
    (RoundStartState.maxCardF canvasHeight fieldHeight min_gap)

/-- A library whose square root is 1528549 / 262144 = 5.8309517, the `float` nearest to
the square root of 34. -/
def exLibm34 : Libm := { cos := cosF, sqrtf := fun _ => 1528549 / 262144 }

/-! Theorems -/

theorem forCards_length (f : Int → Card → Card) (k : Nat) (cs : List Card) :
    (forCards f k cs).length = cs.length := by
  induction cs generalizing k with
  | nil => rfl
  | cons c cs ih => simp [forCards, ih]

theorem forCards_id (f : Int → Card → Card) (hf : ∀ i c, f i c = c) (k : Nat)
    (cs : List Card) : forCards f k cs = cs := by
  induction cs generalizing k with
  | nil => rfl
  | cons c cs ih => simp [forCards, ih, hf]

theorem forCards_getElem? (f : Int → Card → Card) (k n : Nat) (cs : List Card) :
    (forCards f k cs)[n]? = (cs[n]?).map (f ((k + n : Nat) : Int)) := by
  induction cs generalizing k n with
  | nil => simp [forCards]
  | cons c cs ih =>
    cases n with
    | zero => simp [forCards]
    | succ n =>
      simp only [forCards, List.getElem?_cons_succ, ih]
      have : k + 1 + n = k + (n + 1) := by omega
      rw [this]

theorem forCards_map_colorFront (f : Int → Card → Card)
    (hf : ∀ i c, (f i c).colorFront = c.colorFront) (k : Nat) (cs : List Card) :
    (forCards f k cs).map Card.colorFront = cs.map Card.colorFront := by
  induction cs generalizing k with
  | nil => rfl
  | cons c cs ih => simp [forCards, ih, hf]

theorem TurnEndState.nextAfterResolve_ne (g : Globals) :
    TurnEndState.nextAfterResolve g ≠ GameState.TURN_END := by
  unfold TurnEndState.nextAfterResolve
  split_ifs <;> decide

/-- The card loop of `TurnEndState::OnUserUpdate` keeps every front colour. -/
theorem TurnEndState.cardLoop_colorFront (g : Globals) (s : TurnEndState) (t : ℚ) :
    (TurnEndState.cardLoop g s t).map Card.colorFront = g.the_cards.map Card.colorFront := by
  apply forCards_map_colorFront
  intro i c
  split_ifs <;> rfl

theorem TurnEndState.cardLoop_length (g : Globals) (s : TurnEndState) (t : ℚ) :
    (TurnEndState.cardLoop g s t).length = g.the_cards.length :=
  forCards_length _ _ _

/-- The card loop of `TurnEndState::OnUserUpdate` changes no card after a match. -/
theorem TurnEndState.cardLoop_match (g : Globals) (s : TurnEndState) (t : ℚ)
    (hm : s.did_match = true) : TurnEndState.cardLoop g s t = g.the_cards := by
  apply forCards_id
  intro i c
  simp [hm]

/-- A tick that stays in `TURN_END` keeps the selection, the score, the round, the
match flag and the front colours (and the whole board after a match). -/
theorem TurnEndState.turn_end_stay (e : ℚ) (g g1 : Globals) (s s1 : TurnEndState)
    (h : TurnEndState.OnUserUpdate e g s = some (g1, s1, GameState.TURN_END)) :
    g1.first_card = g.first_card ∧ g1.second_card = g.second_card ∧ g1.score = g.score ∧
    g1.round_number = g.round_number ∧ s1.did_match = s.did_match ∧
    g1.the_cards.map Card.colorFront = g.the_cards.map Card.colorFront ∧
    (s.did_match = true → g1.the_cards = g.the_cards) := by
  unfold TurnEndState.OnUserUpdate at h
  simp only at h
  by_cases ht : s.fTotalTime + e * (12 / 10) > 1
  · rw [if_pos ht] at h
    by_cases hm : s.did_match = true
    · rw [if_pos hm] at h
      split at h
      · exact absurd h (by simp)
      · split at h
        · exact absurd h (by simp)
        · simp only [Option.some.injEq, Prod.mk.injEq] at h
          exact absurd h.2.2 (TurnEndState.nextAfterResolve_ne _)
    · rw [if_neg hm] at h
      simp only [Option.some.injEq, Prod.mk.injEq] at h
      exact absurd h.2.2 (TurnEndState.nextAfterResolve_ne _)
  · rw [if_neg ht] at h
    simp only [Option.some.injEq, Prod.mk.injEq, and_true] at h
    obtain ⟨hg, hs⟩ := h
    subst hg hs
    exact ⟨rfl, rfl, rfl, rfl, rfl, TurnEndState.cardLoop_colorFront g s _,
      fun hm => TurnEndState.cardLoop_match g s _ hm⟩

/-- Ticks that stay in `TURN_END` keep the selection, the score, the round, the match
flag and the front colours (and the whole board after a match). -/
theorem TurnEndState.stay_inv (es : List ℚ) (g g1 : Globals) (s s1 : TurnEndState)
    (h : TurnEndState.stay es (g, s) = some (g1, s1)) :
    g1.first_card = g.first_card ∧ g1.second_card = g.second_card ∧ g1.score = g.score ∧
    g1.round_number = g.round_number ∧ s1.did_match = s.did_match ∧
    g1.the_cards.map Card.colorFront = g.the_cards.map Card.colorFront ∧
    (s.did_match = true → g1.the_cards = g.the_cards) := by
  induction es generalizing g s with
  | nil =>
    simp only [TurnEndState.stay, Option.some.injEq, Prod.mk.injEq] at h
    obtain ⟨hg, hs⟩ := h
    subst hg hs
    exact ⟨rfl, rfl, rfl, rfl, rfl, rfl, fun _ => rfl⟩
  | cons e es ih =>
    simp only [TurnEndState.stay] at h
    split at h
    · rename_i g2 s2 heq
      have h1 := TurnEndState.turn_end_stay e g g2 s s2 heq
      have h2 := ih g2 s2 h
      obtain ⟨a1, a2, a3, a4, a5, a6, a7⟩ := h1
      obtain ⟨b1, b2, b3, b4, b5, b6, b7⟩ := h2
      refine ⟨b1.trans a1, b2.trans a2, b3.trans a3, b4.trans a4, b5.trans a5,
        b6.trans a6, ?_⟩
      intro hm
      rw [b7 (a5.trans hm), a7 hm]
    · exact absurd h (by simp)

theorem enumFrom_filter_ne_left (cs : List Card) (k n : Nat) (h : n < k) (q : Nat → Bool) :
    (cs.enumFrom k).filter (fun p => decide (p.1 ≠ n ∧ q p.1 = true)) =
      (cs.enumFrom k).filter (fun p => q p.1) := by
  apply List.filter_congr
  intro p hp
  have := List.le_fst_of_mem_enumFrom hp
  have hne : p.1 ≠ n := by omega
  simp [hne]

theorem enumFrom_filter_ne (cs : List Card) (k a : Nat) :
    ((cs.enumFrom k).filter (fun p => decide (p.1 ≠ k + a))).map Prod.snd = cs.eraseIdx a := by
  induction cs generalizing k a with
  | nil => simp
  | cons c cs ih =>
    cases a with
    | zero =>
      simp only [List.enumFrom_cons, Nat.add_zero, List.eraseIdx_cons_zero]
      rw [List.filter_cons_of_neg (by simp)]
      have : (cs.enumFrom (k + 1)).filter (fun p => decide (p.1 ≠ k)) = cs.enumFrom (k + 1) := by
        apply List.filter_eq_self.mpr
        intro p hp
        have := List.le_fst_of_mem_enumFrom hp
        simp; omega
      rw [this]
      simp
    | succ a =>
      simp only [List.enumFrom_cons, List.eraseIdx_cons_succ]
      rw [List.filter_cons_of_pos (by simp)]
      have h2 := ih (k + 1) a
      have e : k + 1 + a = k + (a + 1) := by omega
      rw [e] at h2
      simp only [List.map_cons, h2]

theorem eraseIdx_eraseIdx_enumFrom (cs : List Card) (k lo hi : Nat) (h : lo < hi) :
    ((cs.enumFrom k).filter (fun p => decide (p.1 ≠ k + lo ∧ p.1 ≠ k + hi))).map Prod.snd =
      (cs.eraseIdx hi).eraseIdx lo := by
  induction cs generalizing k lo hi with
  | nil => simp
  | cons c cs ih =>
    obtain ⟨hi, rfl⟩ : ∃ n, hi = n + 1 := ⟨hi - 1, by omega⟩
    cases lo with
    | zero =>
      simp only [List.enumFrom_cons, Nat.add_zero, List.eraseIdx_cons_succ,
        List.eraseIdx_cons_zero]
      rw [List.filter_cons_of_neg (by simp)]
      have h1 := enumFrom_filter_ne_left cs (k + 1) k (by omega)
        (fun n => decide (n ≠ k + (hi + 1)))
      simp only [decide_eq_true_eq] at h1
      rw [h1]
      have h2 := enumFrom_filter_ne cs (k + 1) hi
      have e : k + 1 + hi = k + (hi + 1) := by omega
      rw [e] at h2
      exact h2
    | succ lo =>
      simp only [List.enumFrom_cons, List.eraseIdx_cons_succ]
      rw [List.filter_cons_of_pos (by simp)]
      have h2 := ih (k + 1) lo hi (by omega)
      have e1 : k + 1 + lo = k + (lo + 1) := by omega
      have e2 : k + 1 + hi = k + (hi + 1) := by omega
      rw [e1, e2] at h2
      simp only [List.map_cons, h2]

/-- Erasing the higher then the lower of two distinct positions leaves exactly the
entries at the other positions, in order. -/
theorem eraseIdx_max_min (cs : List Card) (i j : Nat) (hij : i ≠ j) :
    (cs.eraseIdx (max i j)).eraseIdx (min i j) = withoutPositions i j cs := by
  unfold withoutPositions
  rcases Nat.lt_or_gt_of_ne hij with h | h
  · rw [max_eq_right h.le, min_eq_left h.le]
    have := eraseIdx_eraseIdx_enumFrom cs 0 i j h
    simp only [Nat.zero_add] at this
    exact this.symm
  · rw [max_eq_left h.le, min_eq_right h.le]
    have := eraseIdx_eraseIdx_enumFrom cs 0 j i h
    simp only [Nat.zero_add] at this
    rw [← this]
    congr 1
    apply List.filter_congr
    intro p _
    simp [and_comm]

theorem eraseAt_natCast (cs : List Card) (n : Nat) (h : n < cs.length) :
    eraseAt cs (n : Int) = some (cs.eraseIdx n) := by
  unfold eraseAt
  rw [if_pos ⟨by omega, by exact_mod_cast h⟩, Int.toNat_ofNat]

/-- The two `erase` calls of a match, for distinct valid positions `i` and `j`. -/
theorem eraseAt_max_min (cs : List Card) (i j : Nat) (hi : i < cs.length)
    (hj : j < cs.length) (hij : i ≠ j) :
    eraseAt cs (max (i : Int) (j : Int)) = some (cs.eraseIdx (max i j)) ∧
    eraseAt (cs.eraseIdx (max i j)) (min (i : Int) (j : Int)) =
      some ((cs.eraseIdx (max i j)).eraseIdx (min i j)) ∧
    ((cs.eraseIdx (max i j)).eraseIdx (min i j)).length + 2 = cs.length := by
  have hmax : (max (i : Int) (j : Int)) = ((max i j : Nat) : Int) := by
    simp [Nat.cast_max]
  have hmin : (min (i : Int) (j : Int)) = ((min i j : Nat) : Int) := by
    simp [Nat.cast_min]
  have hmaxlt : max i j < cs.length := max_lt hi hj
  have hminlt : min i j < max i j := by
    rcases Nat.lt_or_gt_of_ne hij with h | h
    · rw [max_eq_right h.le, min_eq_left h.le]; exact h
    · rw [max_eq_left h.le, min_eq_right h.le]; exact h
  have hlen1 : (cs.eraseIdx (max i j)).length = cs.length - 1 := by
    rw [List.length_eraseIdx, if_pos hmaxlt]
  have hlen2 : ((cs.eraseIdx (max i j)).eraseIdx (min i j)).length = cs.length - 1 - 1 := by
    rw [List.length_eraseIdx, if_pos (by omega), hlen1]
  refine ⟨?_, ?_, by omega⟩
  · rw [hmax]
    exact eraseAt_natCast cs _ hmaxlt
  · rw [hmin]
    exact eraseAt_natCast _ _ (by omega)

theorem cardAt_natCast (cs : List Card) (n : Nat) : cardAt cs (n : Int) = cs[n]? := by
  unfold cardAt
  rw [if_pos (by omega), Int.toNat_ofNat]

/-- The match flag at the resolving tick is the comparison of the front colours of the
two cards that are selected then. -/
theorem TurnEndState.did_match_at_resolve (g g1 : Globals) (s0 s s1 : TurnEndState)
    (i j : Nat) (c1 c2 : Card) (es : List ℚ)
    (hfirst : g.first_card = i) (hsecond : g.second_card = j)
    (hc1 : g1.the_cards[i]? = some c1) (hc2 : g1.the_cards[j]? = some c2)
    (henter : TurnEndState.EnterState g s0 = some s)
    (hstay : TurnEndState.stay es (g, s) = some (g1, s1)) :
    s1.did_match = decide (c1.colorFront = c2.colorFront) ∧
    g1.first_card = i ∧ g1.second_card = j := by
  obtain ⟨a1, a2, _, _, a5, a6, _⟩ := TurnEndState.stay_inv es g g1 s s1 hstay
  refine ⟨?_, a1.trans hfirst, a2.trans hsecond⟩
  rw [a5]
  have hi : (g.the_cards[i]?).map Card.colorFront = some c1.colorFront := by
    rw [← List.getElem?_map, ← a6, List.getElem?_map, hc1]; rfl
  have hj : (g.the_cards[j]?).map Card.colorFront = some c2.colorFront := by
    rw [← List.getElem?_map, ← a6, List.getElem?_map, hc2]; rfl
  unfold TurnEndState.EnterState at henter
  rw [hfirst, hsecond, cardAt_natCast, cardAt_natCast] at henter
  cases h1 : g.the_cards[i]? with
  | none => rw [h1] at hi; exact absurd hi (by simp)
  | some d1 =>
    cases h2 : g.the_cards[j]? with
    | none => rw [h2] at hj; exact absurd hj (by simp)
    | some d2 =>
      rw [h1, h2] at henter
      rw [h1] at hi
      rw [h2] at hj
      simp only [Option.map_some', Option.some.injEq] at hi hj
      simp only [Option.some.injEq] at henter
      rw [← henter, hi, hj]

/-- Claim C1: on the tick on which TURN_END resolves (accumulated time > 1.0), for
distinct valid selection indices, a match (equal front colours of the two selected
cards) shortens the board by exactly 2 and adds exactly 4 to the score, and a mismatch
leaves the board length unchanged and subtracts exactly 1 from the score. -/
theorem TurnEndState.resolve_length_score (g g1 : Globals) (s0 s s1 : TurnEndState)
    (i j : Nat) (c1 c2 : Card) (es : List ℚ) (e : ℚ)
    (hfirst : g.first_card = i) (hsecond : g.second_card = j) (hij : i ≠ j)
    (hc1 : g1.the_cards[i]? = some c1) (hc2 : g1.the_cards[j]? = some c2)
    (henter : TurnEndState.EnterState g s0 = some s)
    (hstay : TurnEndState.stay es (g, s) = some (g1, s1))
    (hres : s1.fTotalTime + e * (12 / 10) > 1) :
    ∃ g2 s2 next, TurnEndState.OnUserUpdate e g1 s1 = some (g2, s2, next) ∧
      (c1.colorFront = c2.colorFront →
        g2.the_cards.length + 2 = g1.the_cards.length ∧ g2.score = g1.score + 4) ∧
      (c1.colorFront ≠ c2.colorFront →
        g2.the_cards.length = g1.the_cards.length ∧ g2.score = g1.score - 1) := by
  obtain ⟨hdm, hf1, hs1⟩ := TurnEndState.did_match_at_resolve g g1 s0 s s1 i j c1 c2 es
    hfirst hsecond hc1 hc2 henter hstay
  have hi : i < g1.the_cards.length := (List.getElem?_eq_some_iff.mp hc1).1
  have hj : j < g1.the_cards.length := (List.getElem?_eq_some_iff.mp hc2).1
  unfold TurnEndState.OnUserUpdate
  simp only
  rw [if_pos hres]
  by_cases hcol : c1.colorFront = c2.colorFront
  · have hm : s1.did_match = true := by rw [hdm]; exact decide_eq_true hcol
    obtain ⟨e1, e2, e3⟩ := eraseAt_max_min g1.the_cards i j hi hj hij
    rw [if_pos hm, TurnEndState.cardLoop_match g1 s1 _ hm, hf1, hs1]
    simp only [e1, e2]
    exact ⟨_, _, _, rfl, fun _ => ⟨e3, rfl⟩, fun h => absurd hcol h⟩
  · have hm : ¬ s1.did_match = true := by rw [hdm]; simpa using hcol
    rw [if_neg hm]
    exact ⟨_, _, _, rfl, fun h => absurd h hcol,
      fun _ => ⟨TurnEndState.cardLoop_length g1 s1 _, rfl⟩⟩

/-- Claim C2: when TURN_END resolves a match for distinct valid indices `i` and `j`
(in either order), the resulting board is exactly the card sequence before the tick
with the entries at positions `i` and `j` deleted, the other cards being kept in order
with all fields unchanged; that sequence is also the board on entry to TURN_END. -/
theorem TurnEndState.resolve_match_board (g g1 : Globals) (s0 s s1 : TurnEndState)
    (i j : Nat) (c1 c2 : Card) (es : List ℚ) (e : ℚ)
    (hfirst : g.first_card = i) (hsecond : g.second_card = j) (hij : i ≠ j)
    (hc1 : g1.the_cards[i]? = some c1) (hc2 : g1.the_cards[j]? = some c2)
    (henter : TurnEndState.EnterState g s0 = some s)
    (hstay : TurnEndState.stay es (g, s) = some (g1, s1))
    (hres : s1.fTotalTime + e * (12 / 10) > 1)
    (hcol : c1.colorFront = c2.colorFront) :
    ∃ g2 s2 next, TurnEndState.OnUserUpdate e g1 s1 = some (g2, s2, next) ∧
      g2.the_cards = withoutPositions i j g1.the_cards ∧ g1.the_cards = g.the_cards := by
  obtain ⟨hdm, hf1, hs1⟩ := TurnEndState.did_match_at_resolve g g1 s0 s s1 i j c1 c2 es
    hfirst hsecond hc1 hc2 henter hstay
  obtain ⟨_, _, _, _, a5, _, a7⟩ := TurnEndState.stay_inv es g g1 s s1 hstay
  have hi : i < g1.the_cards.length := (List.getElem?_eq_some_iff.mp hc1).1
  have hj : j < g1.the_cards.length := (List.getElem?_eq_some_iff.mp hc2).1
  have hm : s1.did_match = true := by rw [hdm]; exact decide_eq_true hcol
  obtain ⟨e1, e2, _⟩ := eraseAt_max_min g1.the_cards i j hi hj hij
  unfold TurnEndState.OnUserUpdate
  simp only
  rw [if_pos hres, if_pos hm, TurnEndState.cardLoop_match g1 s1 _ hm, hf1, hs1]
  simp only [e1, e2]
  exact ⟨_, _, _, rfl, eraseIdx_max_min g1.the_cards i j hij, a7 (a5 ▸ hm)⟩

theorem TurnEndState.resolve_length_score_witness :
    ∃ g2 s2 next,
      TurnEndState.OnUserUpdate (1 / 2) (exGlobals GameState.TURN_END 1 0 2)
        { did_match := true, fTotalTime := 6 / 10 } = some (g2, s2, next) ∧
      ((exCard olc.GREY 0).colorFront = (exCard olc.GREY 40).colorFront →
        g2.the_cards.length + 2 = (exGlobals GameState.TURN_END 1 0 2).the_cards.length ∧
        g2.score = (exGlobals GameState.TURN_END 1 0 2).score + 4) ∧
      ((exCard olc.GREY 0).colorFront ≠ (exCard olc.GREY 40).colorFront →
        g2.the_cards.length = (exGlobals GameState.TURN_END 1 0 2).the_cards.length ∧
        g2.score = (exGlobals GameState.TURN_END 1 0 2).score - 1) :=
  TurnEndState.resolve_length_score (exGlobals GameState.TURN_END 1 0 2)
    (exGlobals GameState.TURN_END 1 0 2) { did_match := false, fTotalTime := 3 }
    { did_match := true, fTotalTime := 0 } { did_match := true, fTotalTime := 6 / 10 }
    0 2 (exCard olc.GREY 0) (exCard olc.GREY 40) [1 / 2] (1 / 2) rfl rfl (by decide) rfl rfl
    (by simp [TurnEndState.EnterState, exGlobals, exBoard, cardAt, exCard])
    (by
      simp [TurnEndState.stay, TurnEndState.OnUserUpdate, TurnEndState.cardLoop, exGlobals,
        exBoard, forCards]
      norm_num)
    (by norm_num)

theorem TurnEndState.resolve_match_board_witness :
    ∃ g2 s2 next,
      TurnEndState.OnUserUpdate (1 / 2) (exGlobals GameState.TURN_END 1 2 0)
        { did_match := true, fTotalTime := 6 / 10 } = some (g2, s2, next) ∧
      g2.the_cards = withoutPositions 2 0 (exGlobals GameState.TURN_END 1 2 0).the_cards ∧
      (exGlobals GameState.TURN_END 1 2 0).the_cards =
        (exGlobals GameState.TURN_END 1 2 0).the_cards :=
  TurnEndState.resolve_match_board (exGlobals GameState.TURN_END 1 2 0)
    (exGlobals GameState.TURN_END 1 2 0) { did_match := false, fTotalTime := 3 }
    { did_match := true, fTotalTime := 0 } { did_match := true, fTotalTime := 6 / 10 }
    2 0 (exCard olc.GREY 40) (exCard olc.GREY 0) [1 / 2] (1 / 2) rfl rfl (by decide) rfl rfl
    (by simp [TurnEndState.EnterState, exGlobals, exBoard, cardAt, exCard])
    (by
      simp [TurnEndState.stay, TurnEndState.OnUserUpdate, TurnEndState.cardLoop, exGlobals,
        exBoard, forCards]
      norm_num)
    (by norm_num) rfl

/-- Claim C6: for distinct valid selection indices, a tick of TURN_END whose accumulated
time exceeds 1.0 selects ROUND_START if the board is empty after resolution, otherwise
SHUFFLE if `round_number > 2`, otherwise MIXUP; a tick whose accumulated time is at
most 1.0 selects TURN_END. -/
theorem TurnEndState.next_state (e : ℚ) (g : Globals) (s : TurnEndState) (i j : Nat)
    (hfirst : g.first_card = i) (hsecond : g.second_card = j) (hij : i ≠ j)
    (hi : i < g.the_cards.length) (hj : j < g.the_cards.length) :
    ∃ g2 s2 next, TurnEndState.OnUserUpdate e g s = some (g2, s2, next) ∧
      s2.fTotalTime = s.fTotalTime + e * (12 / 10) ∧
      g2.round_number = g.round_number ∧
      (s2.fTotalTime > 1 →
        next = if g2.the_cards = [] then GameState.ROUND_START
               else if g2.round_number > 2 then GameState.SHUFFLE else GameState.MIXUP) ∧
      (s2.fTotalTime ≤ 1 → next = GameState.TURN_END) := by
  have hnext : ∀ g2 : Globals, TurnEndState.nextAfterResolve g2 =
      if g2.the_cards = [] then GameState.ROUND_START
      else if g2.round_number > 2 then GameState.SHUFFLE else GameState.MIXUP := by
    intro g2
    unfold TurnEndState.nextAfterResolve
    by_cases h0 : g2.the_cards = []
    · simp [h0]
    · have : g2.the_cards.length ≠ 0 := by simpa using h0
      rw [if_pos this, if_neg h0]
  unfold TurnEndState.OnUserUpdate
  simp only
  by_cases ht : s.fTotalTime + e * (12 / 10) > 1
  · rw [if_pos ht]
    by_cases hm : s.did_match = true
    · have hi1 : i < (TurnEndState.cardLoop g s (s.fTotalTime + e * (12 / 10))).length := by
        rw [TurnEndState.cardLoop_length]; exact hi
      have hj1 : j < (TurnEndState.cardLoop g s (s.fTotalTime + e * (12 / 10))).length := by
        rw [TurnEndState.cardLoop_length]; exact hj
      obtain ⟨e1, e2, _⟩ := eraseAt_max_min _ i j hi1 hj1 hij
      rw [if_pos hm, hfirst, hsecond]
      simp only [e1, e2]
      exact ⟨_, _, _, rfl, rfl, rfl, fun _ => hnext _, fun h => absurd ht (not_lt.mpr h)⟩
    · rw [if_neg hm]
      exact ⟨_, _, _, rfl, rfl, rfl, fun _ => hnext _, fun h => absurd ht (not_lt.mpr h)⟩
  · rw [if_neg ht]
    exact ⟨_, _, _, rfl, rfl, rfl, fun h => absurd h ht, fun _ => rfl⟩

theorem TurnEndState.next_state_witness :
    ∃ g2 s2 next,
      TurnEndState.OnUserUpdate (1 / 2) (exGlobals GameState.TURN_END 3 0 1)
        { did_match := false, fTotalTime := 6 / 10 } = some (g2, s2, next) ∧
      s2.fTotalTime = (6 / 10 : ℚ) + 1 / 2 * (12 / 10) ∧
      g2.round_number = (exGlobals GameState.TURN_END 3 0 1).round_number ∧
      (s2.fTotalTime > 1 →
        next = if g2.the_cards = [] then GameState.ROUND_START
               else if g2.round_number > 2 then GameState.SHUFFLE else GameState.MIXUP) ∧
      (s2.fTotalTime ≤ 1 → next = GameState.TURN_END) :=
  TurnEndState.next_state (1 / 2) (exGlobals GameState.TURN_END 3 0 1)
    { did_match := false, fTotalTime := 6 / 10 } 0 1 rfl rfl (by decide)
    (by simp [exGlobals, exBoard]) (by simp [exGlobals, exBoard])

/-- A tick of `TurnEndState::OnUserUpdate` writes only to the board and the score. -/
theorem TurnEndState.turn_end_frame (e : ℚ) (g g2 : Globals) (s s2 : TurnEndState)
    (next : GameState) (h : TurnEndState.OnUserUpdate e g s = some (g2, s2, next)) :
    g2.first_card = g.first_card ∧ g2.second_card = g.second_card ∧
    g2.turn_number = g.turn_number ∧ g2.current_state = g.current_state ∧
    g2.round_number = g.round_number := by
  unfold TurnEndState.OnUserUpdate at h
  simp only at h
  by_cases ht : s.fTotalTime + e * (12 / 10) > 1
  · rw [if_pos ht] at h
    by_cases hm : s.did_match = true
    · rw [if_pos hm] at h
      split at h
      · exact absurd h (by simp)
      · split at h
        · exact absurd h (by simp)
        · simp only [Option.some.injEq, Prod.mk.injEq] at h
          obtain ⟨hg, _, _⟩ := h
          subst hg
          exact ⟨rfl, rfl, rfl, rfl, rfl⟩
    · rw [if_neg hm] at h
      simp only [Option.some.injEq, Prod.mk.injEq] at h
      obtain ⟨hg, _, _⟩ := h
      subst hg
      exact ⟨rfl, rfl, rfl, rfl, rfl⟩
  · rw [if_neg ht] at h
    simp only [Option.some.injEq, Prod.mk.injEq] at h
    obtain ⟨hg, _, _⟩ := h
    subst hg
    exact ⟨rfl, rfl, rfl, rfl, rfl⟩

/-- Claim C7: a controller tick in TURN_END that selects another next state leaves
`turn_number` exactly one greater and sets `first_card = second_card = -1`; a tick that
stays in TURN_END leaves `turn_number` and both selection indices unchanged. -/
theorem MemoryGame.turn_end_exit (m : Libm) (inp : Input) (G G1 : MemoryGame)
    (hcur : G.g.current_state = GameState.TURN_END)
    (h : MemoryGame.OnUserUpdate m inp G = some G1) :
    (G1.g.current_state ≠ GameState.TURN_END →
      G1.g.turn_number = G.g.turn_number + 1 ∧ G1.g.first_card = -1 ∧
      G1.g.second_card = -1) ∧
    (G1.g.current_state = GameState.TURN_END →
      G1.g.turn_number = G.g.turn_number ∧ G1.g.first_card = G.g.first_card ∧
      G1.g.second_card = G.g.second_card) := by
  unfold MemoryGame.OnUserUpdate at h
  -- the state after the optional `EnterState` has the same globals
  have henter : ∀ Ga, (if G.g.current_state ≠ G.prev_state then MemoryGame.EnterState m inp G
      else some G) = some Ga → Ga.g = G.g := by
    intro Ga hGa
    by_cases hp : G.g.current_state ≠ G.prev_state
    · rw [if_pos hp] at hGa
      unfold MemoryGame.EnterState at hGa
      rw [hcur] at hGa
      simp only at hGa
      split at hGa
      · exact absurd hGa (by simp)
      · simp only [Option.some.injEq] at hGa
        rw [← hGa]
    · rw [if_neg hp] at hGa
      simp only [Option.some.injEq] at hGa
      rw [← hGa]
  split at h
  · exact absurd h (by simp)
  · rename_i Ga hGa
    have hg := henter Ga hGa
    split at h
    · exact absurd h (by simp)
    · rename_i Gb next hGb
      unfold MemoryGame.UpdateState at hGb
      rw [hg, hcur] at hGb
      simp only at hGb
      split at hGb
      · exact absurd hGb (by simp)
      · rename_i g2 s2 nx hupd
        simp only [Option.some.injEq, Prod.mk.injEq] at hGb
        obtain ⟨hGb1, hnx⟩ := hGb
        subst hGb1 hnx
        obtain ⟨f1, f2, f3, f4, f5⟩ := TurnEndState.turn_end_frame _ _ _ _ _ _ hupd
        rw [hcur] at f4
        simp only [Option.some.injEq] at h
        subst h
        simp only [f4]
        by_cases hn : nx = GameState.TURN_END
        · subst hn
          simp only [ne_eq, not_true_eq_false, if_false, false_implies, true_and,
            forall_true_left]
          split_ifs <;> simp [MessWithColors, f1, f2, f3]
        · simp only [ne_eq, hn, not_false_eq_true, if_true, true_implies,
            false_implies, and_true]
          split_ifs <;>
            simp [MemoryGame.ExitState, f4, TurnEndState.ExitState, MessWithColors, f3]

theorem MemoryGame.turn_end_exit_witness :
    (GameState.MIXUP ≠ GameState.TURN_END →
      (2 : Int) = (exGame GameState.TURN_END GameState.ANIMATE_SECOND 1 0 1).g.turn_number + 1 ∧
      (-1 : Int) = -1 ∧ (-1 : Int) = -1) ∧
    (GameState.MIXUP = GameState.TURN_END →
      (2 : Int) = (exGame GameState.TURN_END GameState.ANIMATE_SECOND 1 0 1).g.turn_number ∧
      (-1 : Int) = (exGame GameState.TURN_END GameState.ANIMATE_SECOND 1 0 1).g.first_card ∧
      (-1 : Int) = (exGame GameState.TURN_END GameState.ANIMATE_SECOND 1 0 1).g.second_card) :=
  MemoryGame.turn_end_exit exLibm (exInput 1)
    (exGame GameState.TURN_END GameState.ANIMATE_SECOND 1 0 1)
    { MemoryGame.init with
      g := { the_cards := [{ exCard olc.GREY 0 with faceUp := false },
                           { exCard olc.GREEN 20 with faceUp := false },
                           exCard olc.GREY 40, exCard olc.GREEN 60],
             current_state := GameState.MIXUP, round_number := 1, turn_number := 2,
             field_width := 2, field_height := 2, first_card := -1, second_card := -1,
             score := -1 },
      next_state := GameState.MIXUP, prev_state := GameState.TURN_END,
      turnEnd := { did_match := false, fTotalTime := 12 / 10 } }
    rfl
    (by
      norm_num [MemoryGame.OnUserUpdate, MemoryGame.EnterState, MemoryGame.UpdateState,
        MemoryGame.ExitState, TurnEndState.EnterState, TurnEndState.OnUserUpdate,
        TurnEndState.ExitState, TurnEndState.cardLoop, TurnEndState.nextAfterResolve,
        exGame, exGlobals, exBoard, exCard, exInput, MemoryGame.init, cardAt, forCards,
        olc.GREY, olc.GREEN]
      simp)

theorem range_filterMap_getElem? {α : Type} (xs : List α) :
    (List.range xs.length).filterMap (fun k => xs[k]?) = xs := by
  induction xs with
  | nil => rfl
  | cons x xs ih =>
    rw [List.length_cons, List.range_succ_eq_map, List.filterMap_cons]
    simp only [List.getElem?_cons_zero, List.filterMap_map]
    congr 1
    have hf : ((fun k => (x :: xs)[k]?) ∘ Nat.succ) = (fun k => xs[k]?) := by
      funext k
      simp
    rw [hf]
    exact ih

/-- The outcome of `std::shuffle` is a permutation of its input. -/
theorem stdShuffle_perm {α : Type} (σ : List Nat) (xs ys : List α)
    (h : stdShuffle σ xs = some ys) : ys.Perm xs := by
  unfold stdShuffle at h
  split_ifs at h with hσ
  simp only [Option.some.injEq] at h
  rw [← h]
  have := List.Perm.filterMap (fun k => xs[k]?) hσ
  rwa [range_filterMap_getElem?] at this

theorem stdShuffle_some {α : Type} (σ : List Nat) (xs : List α)
    (hσ : σ.Perm (List.range xs.length)) : ∃ ys, stdShuffle σ xs = some ys := by
  unfold stdShuffle
  rw [if_pos hσ]
  exact ⟨_, rfl⟩

/-- Writing a position keeps the board length and every front colour. -/
theorem setPos_frame (cs cs1 : List Card) (idx : Int) (p : Vf2d)
    (h : setPos cs idx p = some cs1) :
    cs1.length = cs.length ∧ cs1.map Card.colorFront = cs.map Card.colorFront := by
  unfold setPos at h
  split_ifs at h with h0
  split at h
  · rename_i c hc
    simp only [Option.some.injEq] at h
    subst h
    refine ⟨List.length_set _ _ _, ?_⟩
    apply List.ext_getElem?
    intro n
    simp only [List.getElem?_map, List.getElem?_set]
    by_cases hn : idx.toNat = n
    · subst hn
      rw [if_pos rfl, hc]
      have := (List.getElem?_eq_some_iff.mp hc).1
      rw [if_pos this]
      rfl
    · rw [if_neg hn]
  · exact absurd h (by simp)

theorem setPos_some (cs : List Card) (n : Nat) (p : Vf2d) (hn : n < cs.length) :
    ∃ cs1, setPos cs (n : Int) p = some cs1 := by
  unfold setPos
  rw [if_pos (by omega), Int.toNat_ofNat, List.getElem?_eq_getElem hn]
  exact ⟨_, rfl⟩

theorem RoundStartState.placeColumn_frame (card_size gap : Vf2d) (field_height : Int)
    (x : Nat) (ys : List Nat) (cs cs1 : List Card)
    (h : RoundStartState.placeColumn card_size gap field_height x ys cs = some cs1) :
    cs1.length = cs.length ∧ cs1.map Card.colorFront = cs.map Card.colorFront := by
  induction ys generalizing cs with
  | nil =>
    simp only [RoundStartState.placeColumn, Option.some.injEq] at h
    subst h
    exact ⟨rfl, rfl⟩
  | cons y ys ih =>
    simp only [RoundStartState.placeColumn] at h
    split at h
    · exact absurd h (by simp)
    · rename_i cs2 h2
      obtain ⟨a1, a2⟩ := setPos_frame _ _ _ _ h2
      obtain ⟨b1, b2⟩ := ih cs2 h
      exact ⟨b1.trans a1, b2.trans a2⟩

theorem RoundStartState.placeColumn_some (card_size gap : Vf2d) (H x : Nat)
    (ys : List Nat) (cs : List Card) (hys : ∀ y ∈ ys, x * H + y < cs.length) :
    ∃ cs1, RoundStartState.placeColumn card_size gap (H : Int) x ys cs = some cs1 := by
  induction ys generalizing cs with
  | nil => exact ⟨cs, rfl⟩
  | cons y ys ih =>
    simp only [RoundStartState.placeColumn]
    have hy : x * H + y < cs.length := hys y (List.mem_cons_self _ _)
    have hcast : (x : Int) * (H : Int) + (y : Int) = ((x * H + y : Nat) : Int) := by
      push_cast; ring
    rw [hcast]
    obtain ⟨cs2, h2⟩ := setPos_some cs (x * H + y) _ hy
    rw [h2]
    simp only
    apply ih
    intro y1 hy1
    rw [(setPos_frame _ _ _ _ h2).1]
    exact hys y1 (List.mem_cons_of_mem _ hy1)

theorem RoundStartState.placeAll_frame (card_size gap : Vf2d) (field_height : Int)
    (xs : List Nat) (cs cs1 : List Card)
    (h : RoundStartState.placeAll card_size gap field_height xs cs = some cs1) :
    cs1.length = cs.length ∧ cs1.map Card.colorFront = cs.map Card.colorFront := by
  induction xs generalizing cs with
  | nil =>
    simp only [RoundStartState.placeAll, Option.some.injEq] at h
    subst h
    exact ⟨rfl, rfl⟩
  | cons x xs ih =>
    simp only [RoundStartState.placeAll] at h
    split at h
    · exact absurd h (by simp)
    · rename_i cs2 h2
      obtain ⟨a1, a2⟩ := RoundStartState.placeColumn_frame _ _ _ _ _ _ _ h2
      obtain ⟨b1, b2⟩ := ih cs2 h
      exact ⟨b1.trans a1, b2.trans a2⟩

theorem RoundStartState.placeAll_some (card_size gap : Vf2d) (H : Nat) (xs : List Nat)
    (cs : List Card) (hxs : ∀ x ∈ xs, ∀ y < H, x * H + y < cs.length) :
    ∃ cs1, RoundStartState.placeAll card_size gap (H : Int) xs cs = some cs1 := by
  induction xs generalizing cs with
  | nil => exact ⟨cs, rfl⟩
  | cons x xs ih =>
    simp only [RoundStartState.placeAll]
    obtain ⟨cs2, h2⟩ := RoundStartState.placeColumn_some card_size gap H x
      (List.range (H : Int).toNat) cs (by
        intro y hy
        rw [Int.toNat_ofNat, List.mem_range] at hy
        exact hxs x (List.mem_cons_self _ _) y hy)
    rw [h2]
    simp only
    apply ih
    intro x1 hx1 y hy
    rw [(RoundStartState.placeColumn_frame _ _ _ _ _ _ _ h2).1]
    exact hxs x1 (List.mem_cons_of_mem _ hx1) y hy

theorem RoundStartState.makeCards_length (rand : Nat → ℚ) (card_size : Vf2d) (n : Nat) :
    (RoundStartState.makeCards rand card_size n).length = 2 * n := by
  induction n with
  | zero => rfl
  | succ n ih =>
    simp only [RoundStartState.makeCards, List.length_append, ih, List.length_cons,
      List.length_nil]
    omega

/-- Each colour is on twice as many generated cards as there are pairs of that colour. -/
theorem RoundStartState.makeCards_count (rand : Nat → ℚ) (card_size : Vf2d) (n : Nat)
    (c : Pixel) :
    ((RoundStartState.makeCards rand card_size n).map Card.colorFront).count c =
      2 * ((List.range n).map pairColor).count c := by
  induction n with
  | zero => rfl
  | succ n ih =>
    simp only [RoundStartState.makeCards, List.map_append, List.count_append, ih,
      List.range_succ, List.map_cons, List.map_nil, RoundStartState.newCard,
      List.count_cons, List.count_nil]
    split_ifs <;> omega

theorem floorSqrt_natCast (n : Nat) : floorSqrt (n : Int) = (Nat.sqrt n : Nat) := by
  unfold floorSqrt
  rw [Int.toNat_ofNat]

theorem ceilSqrt_natCast (n : Nat) :
    ceilSqrt (n : Int) =
      if Nat.sqrt n * Nat.sqrt n = n then ((Nat.sqrt n : Nat) : Int)
      else ((Nat.sqrt n + 1 : Nat) : Int) := by
  unfold ceilSqrt
  rw [Int.toNat_ofNat]

/-- The grid has an even number of slots: `ceil(sqrt(n)) * floor(sqrt(n))` is even for
even `n`. -/
theorem ceilSqrt_mul_floorSqrt_even (n : Nat) (hn : Even n) :
    ∃ w p : Nat, ceilSqrt (n : Int) = (w : Int) ∧ Nat.sqrt n ≤ w ∧
      w * Nat.sqrt n = 2 * p ∧
      Int.tdiv (ceilSqrt (n : Int) * floorSqrt (n : Int)) 2 = (p : Int) := by
  rw [ceilSqrt_natCast, floorSqrt_natCast]
  have key : ∀ w p : Nat, w * Nat.sqrt n = 2 * p →
      Int.tdiv ((w : Int) * ((Nat.sqrt n : Nat) : Int)) 2 = (p : Int) := by
    intro w p hp
    have : (w : Int) * ((Nat.sqrt n : Nat) : Int) = ((2 * p : Nat) : Int) := by
      rw [← hp]; push_cast; ring
    rw [this]
    have h2 : ((2 * p : Nat) : Int) = (p : Int) * 2 := by push_cast; ring
    rw [h2, Int.tdiv_eq_ediv (by positivity) (by norm_num)]
    exact Int.mul_ediv_cancel _ (by norm_num)
  by_cases hsq : Nat.sqrt n * Nat.sqrt n = n
  · rw [if_pos hsq]
    obtain ⟨p, hp⟩ := hn
    have hp2 : Nat.sqrt n * Nat.sqrt n = 2 * p := by rw [hsq, hp]; ring
    exact ⟨Nat.sqrt n, p, rfl, le_refl _, hp2, key _ _ hp2⟩
  · rw [if_neg hsq]
    obtain ⟨p, hp⟩ := Nat.even_mul_succ_self (Nat.sqrt n)
    have hp2 : (Nat.sqrt n + 1) * Nat.sqrt n = 2 * p := by
      rw [Nat.mul_comm, hp]; ring
    exact ⟨Nat.sqrt n + 1, p, rfl, Nat.le_succ _, hp2, key _ _ hp2⟩

theorem stdShuffle_ne_none {α : Type} (σ : List Nat) (xs : List α)
    (hσ : σ.Perm (List.range xs.length)) : stdShuffle σ xs ≠ none := by
  obtain ⟨ys, h⟩ := stdShuffle_some σ xs hσ
  rw [h]
  simp

theorem RoundStartState.placeAll_ne_none (card_size gap : Vf2d) (H : Nat) (xs : List Nat)
    (cs : List Card) (hxs : ∀ x ∈ xs, ∀ y < H, x * H + y < cs.length) :
    RoundStartState.placeAll card_size gap (H : Int) xs cs ≠ none := by
  obtain ⟨ys, h⟩ := RoundStartState.placeAll_some card_size gap H xs cs hxs
  rw [h]
  simp

/-- What `RoundStartState::EnterState` leaves in the globals when it has a result. -/
theorem RoundStartState.layout_spec (m : Libm) (rand : Nat → ℚ) (σ : List Nat)
    (g g1 : Globals) (s s1 : RoundStartState)
    (h : RoundStartState.EnterState m rand σ g s = some (g1, s1)) :
    g1.round_number = g.round_number + 1 ∧ g1.turn_number = 1 ∧
    g1.field_width = ceilSqrt ((7 + (g.round_number + 1)) * 2) ∧
    g1.field_height = floorSqrt ((7 + (g.round_number + 1)) * 2) ∧
    g1.first_card = g.first_card ∧ g1.second_card = g.second_card ∧
    g1.score = g.score ∧ g1.current_state = g.current_state ∧
    g1.the_cards.length = 2 * (Int.tdiv (g1.field_width * g1.field_height) 2).toNat ∧
    ∀ c, (g1.the_cards.map Card.colorFront).count c =
      2 * ((List.range (Int.tdiv (g1.field_width * g1.field_height) 2).toNat).map
        pairColor).count c := by
  unfold RoundStartState.EnterState at h
  simp only at h
  by_cases hneg : (7 + (g.round_number + 1)) * 2 < 0
  · rw [if_pos hneg] at h
    exact absurd h (by simp)
  · rw [if_neg hneg] at h
    split at h
    · exact absurd h (by simp)
    · rename_i shuffled hsh
      split at h
      · exact absurd h (by simp)
      · rename_i placed hpl
        simp only [Option.some.injEq, Prod.mk.injEq] at h
        obtain ⟨hg, _⟩ := h
        subst hg
        have hperm := stdShuffle_perm _ _ _ hsh
        obtain ⟨p1, p2⟩ := RoundStartState.placeAll_frame _ _ _ _ _ _ hpl
        refine ⟨rfl, rfl, rfl, rfl, rfl, rfl, rfl, rfl, ?_, ?_⟩
        · simp only
          rw [p1, hperm.length_eq, RoundStartState.makeCards_length]
        · intro c
          simp only
          rw [p2, (hperm.map Card.colorFront).count_eq, RoundStartState.makeCards_count]

/-- `RoundStartState::EnterState` has a result for every round `r ≥ 1` and every
permutation the shuffle can produce. -/
theorem RoundStartState.layout_some (m : Libm) (rand : Nat → ℚ) (σ : List Nat)
    (g : Globals) (s : RoundStartState) (hr : 1 ≤ g.round_number + 1)
    (hσ : σ.Perm (List.range (2 * (Int.tdiv (ceilSqrt ((7 + (g.round_number + 1)) * 2) *
      floorSqrt ((7 + (g.round_number + 1)) * 2)) 2).toNat))) :
    ∃ g1 s1, RoundStartState.EnterState m rand σ g s = some (g1, s1) := by
  obtain ⟨N, hN⟩ : ∃ N : Nat, (7 + (g.round_number + 1)) * 2 = ((2 * N : Nat) : Int) :=
    ⟨(7 + (g.round_number + 1)).toNat, by
      have : 0 ≤ 7 + (g.round_number + 1) := by omega
      push_cast
      rw [Int.toNat_of_nonneg this]; ring⟩
  unfold RoundStartState.EnterState
  simp only
  rw [hN] at hσ ⊢
  rw [if_neg (by omega)]
  obtain ⟨w, p, hw, hle, hwp, hdiv⟩ := ceilSqrt_mul_floorSqrt_even (2 * N) ⟨N, by ring⟩
  rw [hdiv, Int.toNat_ofNat] at hσ ⊢
  have hk : floorSqrt ((2 * N : Nat) : Int) = ((Nat.sqrt (2 * N) : Nat) : Int) :=
    floorSqrt_natCast _
  rw [hw, hk]
  split
  · rename_i hsh
    refine absurd hsh (stdShuffle_ne_none σ _ ?_)
    rw [RoundStartState.makeCards_length]
    exact hσ
  · rename_i shuffled hsh
    have hlen : shuffled.length = 2 * p := by
      rw [(stdShuffle_perm _ _ _ hsh).length_eq, RoundStartState.makeCards_length]
    split
    · rename_i hpl
      refine absurd hpl (RoundStartState.placeAll_ne_none _ _ _ _ _ ?_)
      intro x hx y hy
      rw [Int.toNat_ofNat, List.mem_range] at hx
      rw [hlen, ← hwp]
      calc x * Nat.sqrt (2 * N) + y < x * Nat.sqrt (2 * N) + Nat.sqrt (2 * N) := by omega
        _ = (x + 1) * Nat.sqrt (2 * N) := by ring
        _ ≤ w * Nat.sqrt (2 * N) := Nat.mul_le_mul_right _ hx
    · exact ⟨_, _, rfl⟩

theorem ceilSqrt_ge_floorSqrt (n : Int) : floorSqrt n ≤ ceilSqrt n := by
  unfold floorSqrt ceilSqrt
  split_ifs
  · exact le_refl _
  · push_cast; omega

theorem floorSqrt_ge_four (n : Int) (h : 16 ≤ n) : 4 ≤ floorSqrt n := by
  unfold floorSqrt
  have : 4 ≤ Nat.sqrt n.toNat := Nat.le_sqrt'.mpr (by omega)
  exact_mod_cast this

theorem sqrt_sixteen : Nat.sqrt 16 = 4 :=
  (Nat.eq_sqrt'.mpr ⟨by norm_num, by norm_num⟩).symm

theorem sqrt_twenty_six : Nat.sqrt 26 = 5 :=
  (Nat.eq_sqrt'.mpr ⟨by norm_num, by norm_num⟩).symm

/-- Claim C5: for every round `r ≥ 1` (the round number after `EnterState` has
incremented it) the round layout computes `field_width = ceil(sqrt(2*(7+r)))` and
`field_height = floor(sqrt(2*(7+r)))` with `field_width ≥ field_height` and
`field_width * field_height ≥ 2`; for `r = 1` it gives `field_width = 4`,
`field_height = 4` and 8 pairs (16 cards). -/
theorem RoundStartState.field_dimensions (m : Libm) (rand : Nat → ℚ) (σ : List Nat)
    (g : Globals) (s : RoundStartState) (hr : 1 ≤ g.round_number + 1)
    (hσ : σ.Perm (List.range (2 * (Int.tdiv (ceilSqrt ((7 + (g.round_number + 1)) * 2) *
      floorSqrt ((7 + (g.round_number + 1)) * 2)) 2).toNat))) :
    ∃ g1 s1, RoundStartState.EnterState m rand σ g s = some (g1, s1) ∧
      g1.round_number = g.round_number + 1 ∧
      g1.field_width = ceilSqrt (2 * (7 + g1.round_number)) ∧
      g1.field_height = floorSqrt (2 * (7 + g1.round_number)) ∧
      g1.field_width ≥ g1.field_height ∧ g1.field_width * g1.field_height ≥ 2 ∧
      (g1.round_number = 1 →
        g1.field_width = 4 ∧ g1.field_height = 4 ∧
        Int.tdiv (g1.field_width * g1.field_height) 2 = 8 ∧ g1.the_cards.length = 2 * 8) := by
  obtain ⟨g1, s1, h⟩ := RoundStartState.layout_some m rand σ g s hr hσ
  obtain ⟨a1, _, a3, a4, _, _, _, _, a9, _⟩ :=
    RoundStartState.layout_spec m rand σ g g1 s s1 h
  have hcomm : (7 + (g.round_number + 1)) * 2 = 2 * (7 + g1.round_number) := by
    rw [a1]; ring
  rw [hcomm] at a3 a4
  have h16 : 16 ≤ 2 * (7 + g1.round_number) := by rw [a1]; omega
  have hH : 4 ≤ g1.field_height := a4 ▸ floorSqrt_ge_four _ h16
  have hWH : g1.field_height ≤ g1.field_width := by
    rw [a3, a4]; exact ceilSqrt_ge_floorSqrt _
  refine ⟨g1, s1, h, a1, a3, a4, hWH, by nlinarith, ?_⟩
  intro h1
  have e16 : 2 * (7 + g1.round_number) = ((16 : Nat) : Int) := by rw [h1]; norm_num
  have hw : g1.field_width = 4 := by
    rw [a3, e16, ceilSqrt_natCast, sqrt_sixteen]; norm_num
  have hh : g1.field_height = 4 := by
    rw [a4, e16, floorSqrt_natCast, sqrt_sixteen]; norm_num
  have hp : Int.tdiv (g1.field_width * g1.field_height) 2 = 8 := by
    rw [hw, hh]; decide
  refine ⟨hw, hh, hp, ?_⟩
  rw [a9, hp]
  rfl

theorem RoundStartState.field_dimensions_witness :
    ∃ g1 s1, RoundStartState.EnterState exLibm (fun _ => 0) (List.range 16) Globals.init
        { card_size := ⟨0, 0⟩, field_dim := ⟨0, 0⟩ } = some (g1, s1) ∧
      g1.round_number = Globals.init.round_number + 1 ∧
      g1.field_width = ceilSqrt (2 * (7 + g1.round_number)) ∧
      g1.field_height = floorSqrt (2 * (7 + g1.round_number)) ∧
      g1.field_width ≥ g1.field_height ∧ g1.field_width * g1.field_height ≥ 2 ∧
      (g1.round_number = 1 →
        g1.field_width = 4 ∧ g1.field_height = 4 ∧
        Int.tdiv (g1.field_width * g1.field_height) 2 = 8 ∧ g1.the_cards.length = 2 * 8) :=
  RoundStartState.field_dimensions exLibm (fun _ => 0) (List.range 16) Globals.init
    { card_size := ⟨0, 0⟩, field_dim := ⟨0, 0⟩ } (by decide)
    (by
      have e : (7 + (Globals.init.round_number + 1)) * 2 = ((16 : Nat) : Int) := by decide
      rw [e, ceilSqrt_natCast, floorSqrt_natCast, sqrt_sixteen]
      exact List.Perm.refl _)

/-- The colours of at most 14 pairs (the palette size) are pairwise different. -/
theorem pairColor_nodup (P : Nat) (h : P ≤ 14) : ((List.range P).map pairColor).Nodup := by
  interval_cases P <;> decide

theorem sqrt_eq_four (N : Nat) (h1 : 16 ≤ N) (h2 : N < 25) : Nat.sqrt N = 4 :=
  (Nat.eq_sqrt'.mpr ⟨by omega, by omega⟩).symm

/-- Claim C3, as amended: for every round `r ≥ 1` and every outcome of the shuffle the
round layout produces a card sequence of even length in which every front colour is on
an even number of cards; when there are at most 14 pairs (the palette size), which is
the case in rounds 1 to 5, every front colour that occurs is on exactly two cards. -/
theorem RoundStartState.layout_colours (m : Libm) (rand : Nat → ℚ) (σ : List Nat)
    (g : Globals) (s : RoundStartState) (hr : 1 ≤ g.round_number + 1)
    (hσ : σ.Perm (List.range (2 * (Int.tdiv (ceilSqrt ((7 + (g.round_number + 1)) * 2) *
      floorSqrt ((7 + (g.round_number + 1)) * 2)) 2).toNat))) :
    ∃ g1 s1, RoundStartState.EnterState m rand σ g s = some (g1, s1) ∧
      g1.round_number = g.round_number + 1 ∧
      Even g1.the_cards.length ∧
      (∀ c, Even ((g1.the_cards.map Card.colorFront).count c)) ∧
      (g1.the_cards.length ≤ 2 * 14 →
        ∀ c ∈ g1.the_cards.map Card.colorFront,
          (g1.the_cards.map Card.colorFront).count c = 2) ∧
      (g1.round_number ≤ 5 → g1.the_cards.length ≤ 2 * 14) := by
  obtain ⟨g1, s1, h⟩ := RoundStartState.layout_some m rand σ g s hr hσ
  obtain ⟨a1, _, a3, a4, _, _, _, _, a9, a10⟩ :=
    RoundStartState.layout_spec m rand σ g g1 s s1 h
  refine ⟨g1, s1, h, a1, ⟨_, by rw [a9]; ring⟩, fun c => ⟨_, by rw [a10 c]; ring⟩, ?_, ?_⟩
  · intro hlen c hc
    have hP : (Int.tdiv (g1.field_width * g1.field_height) 2).toNat ≤ 14 := by omega
    have hle := List.nodup_iff_count_le_one.mp (pairColor_nodup _ hP) c
    have hpos := List.count_pos_iff.mpr hc
    rw [a10 c] at hpos ⊢
    omega
  · intro h5
    obtain ⟨N, hN, hN1, hN2⟩ : ∃ N : Nat, (7 + (g.round_number + 1)) * 2 = (N : Int) ∧
        16 ≤ N ∧ N < 25 :=
      ⟨((7 + (g.round_number + 1)) * 2).toNat, by omega, by omega, by omega⟩
    rw [hN, ceilSqrt_natCast, sqrt_eq_four N hN1 hN2] at a3
    rw [hN, floorSqrt_natCast, sqrt_eq_four N hN1 hN2] at a4
    rw [a9, a3, a4]
    split_ifs <;> decide

/-- Counterexample to claim C3 as stated: in round 6 (15 pairs for a palette of 14
colours) the layout puts the colour `GREY` on four cards. -/
theorem RoundStartState.layout_colours_counterexample :
    ∃ g1 s1, RoundStartState.EnterState exLibm (fun _ => 0) (List.range 30)
        { Globals.init with round_number := 5 }
        { card_size := ⟨0, 0⟩, field_dim := ⟨0, 0⟩ } = some (g1, s1) ∧
      g1.round_number = 6 ∧ olc.GREY ∈ g1.the_cards.map Card.colorFront ∧
      (g1.the_cards.map Card.colorFront).count olc.GREY = 4 := by
  have e : (7 + (({ Globals.init with round_number := 5 } : Globals).round_number + 1)) * 2 =
      ((26 : Nat) : Int) := by decide
  obtain ⟨g1, s1, h⟩ := RoundStartState.layout_some exLibm (fun _ => 0) (List.range 30)
    { Globals.init with round_number := 5 } { card_size := ⟨0, 0⟩, field_dim := ⟨0, 0⟩ }
    (by decide)
    (by
      rw [e, ceilSqrt_natCast, floorSqrt_natCast, sqrt_twenty_six]
      exact List.Perm.refl _)
  obtain ⟨a1, _, a3, a4, _, _, _, _, _, a10⟩ :=
    RoundStartState.layout_spec _ _ _ _ g1 _ s1 h
  rw [e, ceilSqrt_natCast, sqrt_twenty_six] at a3
  rw [e, floorSqrt_natCast, sqrt_twenty_six] at a4
  have hcount : (g1.the_cards.map Card.colorFront).count olc.GREY = 4 := by
    rw [a10, a3, a4]
    decide
  refine ⟨g1, s1, h, a1, ?_, hcount⟩
  apply List.count_pos_iff.mp
  rw [hcount]
  decide

theorem RoundStartState.layout_colours_witness :
    ∃ g1 s1, RoundStartState.EnterState exLibm (fun _ => 0) (List.range 16) Globals.init
        { card_size := ⟨0, 0⟩, field_dim := ⟨0, 0⟩ } = some (g1, s1) ∧
      g1.round_number = Globals.init.round_number + 1 ∧
      Even g1.the_cards.length ∧
      (∀ c, Even ((g1.the_cards.map Card.colorFront).count c)) ∧
      (g1.the_cards.length ≤ 2 * 14 →
        ∀ c ∈ g1.the_cards.map Card.colorFront,
          (g1.the_cards.map Card.colorFront).count c = 2) ∧
      (g1.round_number ≤ 5 → g1.the_cards.length ≤ 2 * 14) :=
  RoundStartState.layout_colours exLibm (fun _ => 0) (List.range 16) Globals.init
    { card_size := ⟨0, 0⟩, field_dim := ⟨0, 0⟩ } (by decide)
    (by
      have e : (7 + (Globals.init.round_number + 1)) * 2 = ((16 : Nat) : Int) := by decide
      rw [e, ceilSqrt_natCast, floorSqrt_natCast, sqrt_sixteen]
      exact List.Perm.refl _)

theorem SelectSecondState.search_some (mouse : Vf2d) (fc : Int) (cs : List Card) (k i : Nat)
    (h : SelectSecondState.search mouse fc cs k = some i) :
    ∃ n c, i = k + n ∧ cs[n]? = some c ∧ fc ≠ ((k + n : Nat) : Int) ∧
      PointInRect mouse c.pos c.size = true ∧
      ∀ n1 c1, n1 < n → cs[n1]? = some c1 →
        ¬ (fc ≠ ((k + n1 : Nat) : Int) ∧ PointInRect mouse c1.pos c1.size = true) := by
  induction cs generalizing k with
  | nil => simp [SelectSecondState.search] at h
  | cons c cs ih =>
    simp only [SelectSecondState.search] at h
    by_cases hc : fc ≠ (k : Int) ∧ PointInRect mouse c.pos c.size = true
    · rw [if_pos hc] at h
      simp only [Option.some.injEq] at h
      refine ⟨0, c, by omega, by simp, by simpa using hc.1, hc.2, ?_⟩
      intro n1 c1 hn1
      omega
    · rw [if_neg hc] at h
      obtain ⟨n, c2, h1, h2, h3, h4, h5⟩ := ih (k + 1) h
      refine ⟨n + 1, c2, by omega, by simpa using h2, ?_, h4, ?_⟩
      · have : k + (n + 1) = k + 1 + n := by omega
        rw [this]; exact h3
      · intro n1 c1 hn1 hc1
        cases n1 with
        | zero =>
          simp only [List.getElem?_cons_zero, Option.some.injEq] at hc1
          subst hc1
          simpa using hc
        | succ n1 =>
          have : k + (n1 + 1) = k + 1 + n1 := by omega
          rw [this]
          exact h5 n1 c1 (by omega) (by simpa using hc1)

theorem SelectSecondState.search_none (mouse : Vf2d) (fc : Int) (cs : List Card) (k : Nat)
    (h : SelectSecondState.search mouse fc cs k = none) :
    ∀ n c, cs[n]? = some c →
      ¬ (fc ≠ ((k + n : Nat) : Int) ∧ PointInRect mouse c.pos c.size = true) := by
  induction cs generalizing k with
  | nil => intro n c hc; simp at hc
  | cons c cs ih =>
    simp only [SelectSecondState.search] at h
    by_cases hc : fc ≠ (k : Int) ∧ PointInRect mouse c.pos c.size = true
    · rw [if_pos hc] at h
      exact absurd h (by simp)
    · rw [if_neg hc] at h
      intro n c1 hc1
      cases n with
      | zero =>
        simp only [List.getElem?_cons_zero, Option.some.injEq] at hc1
        subst hc1
        simpa using hc
      | succ n =>
        have : k + (n + 1) = k + 1 + n := by omega
        rw [this]
        exact ih (k + 1) h n c1 (by simpa using hc1)

/-- Claim C8: `SelectSecondState::OnUserUpdate` returns ANIMATE_SECOND exactly when the
pointer was pressed and some card with an index other than `first_card` contains the
pointer; `second_card` is then the lowest such index (a valid index different from
`first_card`) and nothing else changes; otherwise it returns SELECT_SECOND and changes
nothing, in particular when the only pressed card is the first card. -/
theorem SelectSecondState.select_second (mouse : Vf2d) (bPressed : Bool) (g : Globals) :
    ((SelectSecondState.OnUserUpdate mouse bPressed g).2 = GameState.ANIMATE_SECOND ↔
      bPressed = true ∧ ∃ (i : Nat) (c : Card), g.the_cards[i]? = some c ∧
        (i : Int) ≠ g.first_card ∧ PointInRect mouse c.pos c.size = true) ∧
    ((SelectSecondState.OnUserUpdate mouse bPressed g).2 = GameState.ANIMATE_SECOND →
      ∃ (i : Nat) (c : Card),
        (SelectSecondState.OnUserUpdate mouse bPressed g).1 = { g with second_card := i } ∧
        g.the_cards[i]? = some c ∧ i < g.the_cards.length ∧ (i : Int) ≠ g.first_card ∧
        PointInRect mouse c.pos c.size = true ∧
        ∀ (j : Nat) (d : Card), j < i → g.the_cards[j]? = some d →
          ¬ ((j : Int) ≠ g.first_card ∧ PointInRect mouse d.pos d.size = true)) ∧
    ((SelectSecondState.OnUserUpdate mouse bPressed g).2 ≠ GameState.ANIMATE_SECOND →
      (SelectSecondState.OnUserUpdate mouse bPressed g).2 = GameState.SELECT_SECOND ∧
      (SelectSecondState.OnUserUpdate mouse bPressed g).1 = g) ∧
    ((∀ (i : Nat) (c : Card), g.the_cards[i]? = some c →
        PointInRect mouse c.pos c.size = true → (i : Int) = g.first_card) →
      (SelectSecondState.OnUserUpdate mouse bPressed g).2 = GameState.SELECT_SECOND ∧
      (SelectSecondState.OnUserUpdate mouse bPressed g).1 = g) := by
  unfold SelectSecondState.OnUserUpdate
  by_cases hp : bPressed = true
  · rw [if_pos hp]
    cases hs : SelectSecondState.search mouse g.first_card g.the_cards 0 with
    | none =>
      have hn := SelectSecondState.search_none _ _ _ _ hs
      simp only [Nat.zero_add] at hn
      refine ⟨⟨fun h => absurd h (by simp), ?_⟩, fun h => absurd h (by simp),
        fun _ => ⟨rfl, rfl⟩, fun _ => ⟨rfl, rfl⟩⟩
      rintro ⟨_, i, c, h1, h2, h3⟩
      exact absurd ⟨fun h => h2 h.symm, h3⟩ (hn i c h1)
    | some i =>
      obtain ⟨n, c, h1, h2, h3, h4, h5⟩ := SelectSecondState.search_some _ _ _ _ _ hs
      simp only [Nat.zero_add] at h1 h3 h5
      subst h1
      have hlt : i < g.the_cards.length := (List.getElem?_eq_some_iff.mp h2).1
      refine ⟨⟨fun _ => ⟨hp, i, c, h2, fun h => h3 h.symm, h4⟩, fun _ => rfl⟩,
        fun _ => ⟨i, c, rfl, h2, hlt, fun h => h3 h.symm, h4, ?_⟩,
        fun h => absurd rfl h, ?_⟩
      · intro j d hj hd hcon
        exact h5 j d hj hd ⟨fun h => hcon.1 h.symm, hcon.2⟩
      · intro hall
        exact absurd (hall i c h2 h4).symm h3
  · rw [if_neg hp]
    refine ⟨⟨fun h => absurd h (by simp), fun h => absurd h.1 hp⟩,
      fun h => absurd h (by simp), fun _ => ⟨rfl, rfl⟩, fun _ => ⟨rfl, rfl⟩⟩

theorem MessWithColors_length (e : ℚ) (g : Globals) :
    (MessWithColors e g).the_cards.length = g.the_cards.length := by
  simp [MessWithColors]

theorem TurnEndState.turn_end_even (e : ℚ) (g g2 : Globals) (s s2 : TurnEndState)
    (next : GameState) (h : TurnEndState.OnUserUpdate e g s = some (g2, s2, next))
    (hev : Even g.the_cards.length) : Even g2.the_cards.length := by
  unfold TurnEndState.OnUserUpdate at h
  simp only at h
  have hlen := TurnEndState.cardLoop_length g s (s.fTotalTime + e * (12 / 10))
  by_cases ht : s.fTotalTime + e * (12 / 10) > 1
  · rw [if_pos ht] at h
    by_cases hm : s.did_match = true
    · rw [if_pos hm] at h
      split at h
      · exact absurd h (by simp)
      · rename_i cs1 h1
        split at h
        · exact absurd h (by simp)
        · rename_i cs2 h2
          simp only [Option.some.injEq, Prod.mk.injEq] at h
          obtain ⟨hg, _, _⟩ := h
          subst hg
          simp only
          unfold eraseAt at h1 h2
          split_ifs at h1 h2 with c1 c2
          simp only [Option.some.injEq] at h1 h2
          subst h1 h2
          have l1 := List.length_eraseIdx (TurnEndState.cardLoop g s
            (s.fTotalTime + e * (12 / 10))) (max g.first_card g.second_card).toNat
          rw [if_pos (by omega)] at l1
          have l2 := List.length_eraseIdx ((TurnEndState.cardLoop g s
            (s.fTotalTime + e * (12 / 10))).eraseIdx (max g.first_card g.second_card).toNat)
            (min g.first_card g.second_card).toNat
          rw [if_pos (by omega)] at l2
          rw [l2, l1, hlen]
          have hge : 2 ≤ g.the_cards.length := by omega
          obtain ⟨k, hk⟩ := hev
          exact ⟨k - 1, by omega⟩
    · rw [if_neg hm] at h
      simp only [Option.some.injEq, Prod.mk.injEq] at h
      obtain ⟨hg, _, _⟩ := h
      subst hg
      simp only
      rw [hlen]; exact hev
  · rw [if_neg ht] at h
    simp only [Option.some.injEq, Prod.mk.injEq] at h
    obtain ⟨hg, _, _⟩ := h
    subst hg
    simp only
    rw [hlen]; exact hev

theorem MixupState.mixup_update_length (m : Libm) (e : ℚ) (d1 : Nat) (ds : List Nat)
    (g g2 : Globals) (s s2 : MixupState) (next : GameState)
    (h : MixupState.OnUserUpdate m e d1 ds g s = some (g2, s2, next)) :
    g2.the_cards.length = g.the_cards.length := by
  unfold MixupState.OnUserUpdate at h
  split at h
  · split at h
    · exact absurd h (by simp)
    · simp only [Option.some.injEq, Prod.mk.injEq] at h
      rw [← h.1]
  · split at h
    · exact absurd h (by simp)
    · rename_i g1 s1 ha
      have hl : g1.the_cards.length = g.the_cards.length := by
        unfold MixupState.Animate at ha
        simp only at ha
        split at ha
        · split at ha
          · exact absurd ha (by simp)
          · rename_i cs1 h1
            split at ha
            · exact absurd ha (by simp)
            · rename_i cs2 h2
              simp only [Option.some.injEq, Prod.mk.injEq] at ha
              rw [← ha.1]
              simp only
              rw [(setPos_frame _ _ _ _ h2).1, (setPos_frame _ _ _ _ h1).1]
        · exact absurd ha (by simp)
      split_ifs at h <;>
        · simp only [Option.some.injEq, Prod.mk.injEq] at h
          rw [← h.1, hl]
  · simp only [Option.some.injEq, Prod.mk.injEq] at h
    rw [← h.1]

theorem ShuffleState.move_length (p : ℚ) (ds : List ShuffleData) (cs cs1 : List Card)
    (h : ShuffleState.move p ds cs = some cs1) : cs1.length = cs.length := by
  induction ds generalizing cs with
  | nil =>
    simp only [ShuffleState.move, Option.some.injEq] at h
    rw [← h]
  | cons d ds ih =>
    simp only [ShuffleState.move] at h
    split at h
    · exact absurd h (by simp)
    · rename_i cs2 h2
      rw [ih cs2 h, (setPos_frame _ _ _ _ h2).1]

theorem ShuffleState.shuffle_update_length (m : Libm) (e : ℚ) (g g2 : Globals)
    (s s2 : ShuffleState) (next : GameState)
    (h : ShuffleState.OnUserUpdate m e g s = some (g2, s2, next)) :
    g2.the_cards.length = g.the_cards.length := by
  unfold ShuffleState.OnUserUpdate at h
  simp only at h
  split at h
  · exact absurd h (by simp)
  · rename_i cs hm
    simp only [Option.some.injEq, Prod.mk.injEq] at h
    rw [← h.1]
    exact ShuffleState.move_length _ _ _ _ hm

/-- `EnterState` of the current state keeps the board length even. -/
theorem MemoryGame.EnterState_even (m : Libm) (inp : Input) (G G1 : MemoryGame)
    (h : MemoryGame.EnterState m inp G = some G1) (hev : Even G.g.the_cards.length) :
    Even G1.g.the_cards.length ∧ G1.g.current_state = G.g.current_state := by
  unfold MemoryGame.EnterState at h
  split at h
  · exact absurd h (by simp)
  · simp only [Option.some.injEq] at h; subst h; exact ⟨hev, rfl⟩
  · rename_i hst
    split at h
    · exact absurd h (by simp)
    · rename_i g1 s1 he
      simp only [Option.some.injEq] at h
      subst h
      obtain ⟨_, _, _, _, _, _, _, a8, a9, _⟩ :=
        RoundStartState.layout_spec _ _ _ _ _ _ _ he
      exact ⟨⟨_, by rw [a9]; ring⟩, a8⟩
  · simp only [Option.some.injEq] at h; subst h; exact ⟨hev, rfl⟩
  · simp only [Option.some.injEq] at h; subst h; exact ⟨hev, rfl⟩
  · simp only [Option.some.injEq] at h; subst h; exact ⟨hev, rfl⟩
  · simp only [Option.some.injEq] at h; subst h; exact ⟨hev, rfl⟩
  · split at h
    · exact absurd h (by simp)
    · simp only [Option.some.injEq] at h; subst h; exact ⟨hev, rfl⟩
  · split at h
    · exact absurd h (by simp)
    · simp only [Option.some.injEq] at h; subst h; exact ⟨hev, rfl⟩
  · split at h
    · exact absurd h (by simp)
    · simp only [Option.some.injEq] at h; subst h; exact ⟨hev, rfl⟩

/-- `OnUserUpdate` of the current state keeps the board length even. -/
theorem MemoryGame.UpdateState_even (m : Libm) (inp : Input) (G G1 : MemoryGame)
    (next : GameState) (h : MemoryGame.UpdateState m inp G = some (G1, next))
    (hev : Even G.g.the_cards.length) : Even G1.g.the_cards.length := by
  unfold MemoryGame.UpdateState at h
  split at h
  · exact absurd h (by simp)
  · simp only [Option.some.injEq, Prod.mk.injEq] at h
    rw [← h.1]; exact hev
  · simp only [Option.some.injEq, Prod.mk.injEq] at h
    rw [← h.1]; exact hev
  · simp only [Option.some.injEq, Prod.mk.injEq] at h
    rw [← h.1]
    simp only [SelectFirstState.OnUserUpdate]
    split_ifs
    · split <;> exact hev
    · exact hev
  · simp only [Option.some.injEq, Prod.mk.injEq] at h
    rw [← h.1]
    simp only [AnimateFirstState.OnUserUpdate, forCards_length]
    exact hev
  · simp only [Option.some.injEq, Prod.mk.injEq] at h
    rw [← h.1]
    simp only [SelectSecondState.OnUserUpdate]
    split_ifs
    · split <;> exact hev
    · exact hev
  · simp only [Option.some.injEq, Prod.mk.injEq] at h
    rw [← h.1]
    simp only [AnimateSecondState.OnUserUpdate, forCards_length]
    exact hev
  · split at h
    · exact absurd h (by simp)
    · rename_i g1 s1 nx hu
      simp only [Option.some.injEq, Prod.mk.injEq] at h
      rw [← h.1]
      exact TurnEndState.turn_end_even _ _ _ _ _ _ hu hev
  · split at h
    · exact absurd h (by simp)
    · rename_i g1 s1 nx hu
      simp only [Option.some.injEq, Prod.mk.injEq] at h
      rw [← h.1]
      simp only
      rw [MixupState.mixup_update_length _ _ _ _ _ _ _ _ _ hu]
      exact hev
  · split at h
    · exact absurd h (by simp)
    · rename_i g1 s1 nx hu
      simp only [Option.some.injEq, Prod.mk.injEq] at h
      rw [← h.1]
      simp only
      rw [ShuffleState.shuffle_update_length _ _ _ _ _ _ _ hu]
      exact hev

theorem MemoryGame.ExitState_cards (G : MemoryGame) :
    (MemoryGame.ExitState G).g.the_cards = G.g.the_cards := by
  unfold MemoryGame.ExitState
  split <;> rfl

/-- One frame of the controller keeps the board length even. -/
theorem MemoryGame.frame_even (m : Libm) (inp : Input) (G G1 : MemoryGame)
    (h : MemoryGame.OnUserUpdate m inp G = some G1) (hev : Even G.g.the_cards.length) :
    Even G1.g.the_cards.length := by
  unfold MemoryGame.OnUserUpdate at h
  split at h
  · exact absurd h (by simp)
  · rename_i Ga hGa
    have hGa_even : Even Ga.g.the_cards.length := by
      split_ifs at hGa
      · exact (MemoryGame.EnterState_even m inp G Ga hGa hev).1
      · simp only [Option.some.injEq] at hGa
        rw [← hGa]; exact hev
    split at h
    · exact absurd h (by simp)
    · rename_i Gb next hGb
      have hGb_even := MemoryGame.UpdateState_even m inp Ga Gb next hGb hGa_even
      simp only [Option.some.injEq] at h
      rw [← h]
      simp only
      split_ifs <;>
        first
          | exact hGb_even
          | (simp only [MessWithColors_length, MemoryGame.ExitState_cards]; exact hGb_even)

/-- Claim C4: in every state reachable from the initial state (START_SCREEN, empty
board, round 0) by controller ticks, whatever the pointer inputs, the positive elapsed
times and the random outcomes, the board holds an even number of cards. -/
theorem MemoryGame.reachable_even (m : Libm) (G : MemoryGame)
    (h : MemoryGame.Reachable m G) : Even G.g.the_cards.length := by
  induction h with
  | init => exact ⟨0, rfl⟩
  | step inp G G1 _ _ hstep ih => exact MemoryGame.frame_even m inp G G1 hstep ih

theorem MemoryGame.reachable_even_witness :
    ∃ G, MemoryGame.Reachable exLibm G ∧ G.g.current_state = GameState.SELECT_FIRST ∧
      G.g.the_cards.length = 16 ∧ Even G.g.the_cards.length := by
  -- first frame: the start button is pressed
  have h1 : MemoryGame.OnUserUpdate exLibm exPress MemoryGame.init =
      some { MemoryGame.init with
        g := { Globals.init with current_state := GameState.ROUND_START },
        next_state := GameState.ROUND_START, prev_state := GameState.START_SCREEN } := by
    norm_num [MemoryGame.OnUserUpdate, MemoryGame.EnterState, MemoryGame.UpdateState,
      MemoryGame.ExitState, MemoryGame.init, Globals.init, StartScreenState.OnUserUpdate,
      PointInRect, exPress, ScreenWidth, ScreenHeight]
  -- second frame: the round is laid out
  have e : (7 + (({ Globals.init with current_state := GameState.ROUND_START } :
      Globals).round_number + 1)) * 2 = ((16 : Nat) : Int) := by decide
  obtain ⟨g1, s1, he⟩ := RoundStartState.layout_some exLibm exPress.randFloat
    exPress.shuffle1 { Globals.init with current_state := GameState.ROUND_START }
    MemoryGame.init.roundStart (by decide)
    (by
      rw [e, ceilSqrt_natCast, floorSqrt_natCast, sqrt_sixteen]
      exact List.Perm.refl _)
  obtain ⟨a1, _, a3, a4, _, _, _, a8, a9, _⟩ :=
    RoundStartState.layout_spec _ _ _ _ _ _ _ he
  rw [e, ceilSqrt_natCast, sqrt_sixteen] at a3
  rw [e, floorSqrt_natCast, sqrt_sixteen] at a4
  have hlen : g1.the_cards.length = 16 := by rw [a9, a3, a4]; decide
  have hround : ¬ g1.round_number > 1 := by rw [a1]; decide
  have h2 : MemoryGame.OnUserUpdate exLibm exPress
      { MemoryGame.init with
        g := { Globals.init with current_state := GameState.ROUND_START },
        next_state := GameState.ROUND_START, prev_state := GameState.START_SCREEN } =
      some { MemoryGame.init with
        g := { g1 with current_state := GameState.SELECT_FIRST },
        roundStart := s1,
        next_state := GameState.SELECT_FIRST, prev_state := GameState.ROUND_START } := by
    have he1 : RoundStartState.EnterState exLibm exPress.randFloat exPress.shuffle1
        { the_cards := [], current_state := GameState.ROUND_START, round_number := 0,
          turn_number := 1, field_width := 0, field_height := 0, first_card := -1,
          second_card := -1, score := 0 }
        { card_size := ⟨0, 0⟩, field_dim := ⟨0, 0⟩ } = some (g1, s1) := he
    have a8' : g1.current_state = GameState.ROUND_START := a8
    simp [MemoryGame.OnUserUpdate, MemoryGame.EnterState, MemoryGame.UpdateState,
      MemoryGame.ExitState, MemoryGame.init, Globals.init, RoundStartState.OnUserUpdate,
      he1, a8', hround]
  refine ⟨_, MemoryGame.Reachable.step exPress _ _
    (MemoryGame.Reachable.step exPress _ _ MemoryGame.Reachable.init (by norm_num [exPress])
      h1) (by norm_num [exPress]) h2, rfl, hlen, ?_⟩
  exact MemoryGame.reachable_even exLibm _
    (MemoryGame.Reachable.step exPress _ _
      (MemoryGame.Reachable.step exPress _ _ MemoryGame.Reachable.init
        (by norm_num [exPress]) h1) (by norm_num [exPress]) h2)

theorem setPos_natCast (cs : List Card) (n : Nat) (c : Card) (p : Vf2d)
    (h : cs[n]? = some c) :
    setPos cs (n : Int) p = some (cs.set n { c with pos := p }) := by
  unfold setPos
  rw [if_pos (by omega), Int.toNat_ofNat, h]

/-- One call of `MixupState::Animate` on two distinct valid cards: both are moved to the
interpolation of their recorded positions at the eased accumulated time `t`, nothing
else on the board changes, and the count is decremented when `t` exceeds 1.0. -/
theorem MixupState.Animate_spec (m : Libm) (e : ℚ) (g : Globals) (s : MixupState)
    (i j : Nat) (c1 c2 : Card) (t p : ℚ) (hi : s.card_one = i) (hj : s.card_two = j)
    (hij : i ≠ j) (h1 : g.the_cards[i]? = some c1) (h2 : g.the_cards[j]? = some c2)
    (ht : t = s.fTotalTime + e * timeScale g.round_number) (hp : p = min 1 (Ease m t)) :
    MixupState.Animate m e g s =
      some ({ g with the_cards :=
                ((g.the_cards.set i { c1 with pos := lerp s.old_pos_one s.new_pos_one p }).set j
                  { c2 with pos := lerp s.old_pos_two s.new_pos_two p }) },
            { s with fTotalTime := t,
                     mixup_count := if t > 1 then s.mixup_count - 1 else s.mixup_count }) := by
  unfold MixupState.Animate
  simp only
  rw [hi, hj, cardAt_natCast, cardAt_natCast, h1, h2]
  simp only
  rw [setPos_natCast _ _ _ _ h1]
  simp only
  have h2' : ∀ x : Card, (g.the_cards.set i x)[j]? = some c2 := by
    intro x
    rw [List.getElem?_set, if_neg hij, h2]
  rw [setPos_natCast _ _ _ _ (h2' _), hp, ht]

theorem lerp_one (a b : Vf2d) : lerp a b 1 = b := by
  simp [lerp, Vf2d.add, Vf2d.smul]

theorem lerp_same (a : Vf2d) (t : ℚ) : lerp a a t = a := by
  cases a
  simp only [lerp, Vf2d.add, Vf2d.smul, Vf2d.mk.injEq]
  constructor <;> ring

/-- Claim C10 at a failing input: in round 1 a swap of the two cards at x = 0 and x = 20
is animated by two frames of 0.75 time units; the second frame completes the animation
(accumulated time 1.5 > 1.0, count decremented to 0, SELECT_FIRST returned), and unless
the library cosine of `3.1415926 * 1.5` is -1 or less (the real value is about 0) neither
card is at the other's pre-swap position. -/
theorem MixupState.swap_overshoot (m : Libm) (hcos : -1 < m.cos (piLit * (3 / 2))) :
    ∃ sE g3 s3, MixupState.EnterState exTwo MemoryGame.init.mixup = some sE ∧
      sE.mixup_count = 1 ∧
      MixupState.run m [exInput (3 / 4), exInput (3 / 4), exInput (3 / 4)] (exTwo, sE) =
        some (g3, s3, GameState.SELECT_FIRST) ∧
      s3.fTotalTime = 3 / 2 ∧ s3.mixup_count = 0 ∧ s3.card_one = 0 ∧ s3.card_two = 1 ∧
      (g3.the_cards.map Card.pos)[0]? ≠ (exTwo.the_cards.map Card.pos)[1]? ∧
      (g3.the_cards.map Card.pos)[1]? ≠ (exTwo.the_cards.map Card.pos)[0]? := by
  have hE : Ease m (3 / 2) < 1 := by
    unfold Ease
    linarith
  have hmin : min 1 (Ease m (3 / 2)) = Ease m (3 / 2) := min_eq_right hE.le
  simp only [MixupState.EnterState, exTwo, MemoryGame.init, floorSqrt]
  norm_num [MixupState.run, MixupState.OnUserUpdate, MixupState.Pick, MixupState.drawTwo,
    MixupState.Animate, exInput, exCard, timeScale, cardAt, setPos, hmin, lerp,
    Vf2d.add, Vf2d.smul]
  refine ⟨_, _, ⟨rfl, rfl⟩, rfl, rfl, rfl, rfl, ?_, ?_⟩
  · intro c hc
    simp only [List.getElem?_cons_zero, Option.some.injEq] at hc
    subst hc
    simp only [Vf2d.mk.injEq, and_true]
    intro h
    linarith
  · intro c hc
    simp only [List.getElem?_cons_succ, List.getElem?_cons_zero, Option.some.injEq] at hc
    subst hc
    simp only [Vf2d.mk.injEq, and_true]
    intro h
    linarith

theorem MixupState.swap_overshoot_witness :
    ∃ sE g3 s3, MixupState.EnterState exTwo MemoryGame.init.mixup = some sE ∧
      sE.mixup_count = 1 ∧
      MixupState.run exLibmHalf [exInput (3 / 4), exInput (3 / 4), exInput (3 / 4)]
        (exTwo, sE) = some (g3, s3, GameState.SELECT_FIRST) ∧
      s3.fTotalTime = 3 / 2 ∧ s3.mixup_count = 0 ∧ s3.card_one = 0 ∧ s3.card_two = 1 ∧
      (g3.the_cards.map Card.pos)[0]? ≠ (exTwo.the_cards.map Card.pos)[1]? ∧
      (g3.the_cards.map Card.pos)[1]? ≠ (exTwo.the_cards.map Card.pos)[0]? :=
  MixupState.swap_overshoot exLibmHalf (by norm_num [exLibmHalf])

/-- Writing a position: the written card has the new position, every other index holds
the card it held. -/
theorem setPos_spec (cs cs1 : List Card) (idx : Int) (p : Vf2d)
    (h : setPos cs idx p = some cs1) :
    (∃ c, cardAt cs1 idx = some c ∧ c.pos = p) ∧
    ∀ j : Int, j ≠ idx → cardAt cs1 j = cardAt cs j := by
  unfold setPos at h
  split_ifs at h with h0
  split at h
  · rename_i c hc
    simp only [Option.some.injEq] at h
    subst h
    have hlt := (List.getElem?_eq_some_iff.mp hc).1
    constructor
    · refine ⟨{ c with pos := p }, ?_, rfl⟩
      unfold cardAt
      rw [if_pos h0, List.getElem?_set, if_pos rfl, if_pos hlt]
    · intro j hj
      unfold cardAt
      by_cases hj0 : 0 ≤ j
      · rw [if_pos hj0, if_pos hj0, List.getElem?_set, if_neg]
        intro heq
        apply hj
        omega
      · rw [if_neg hj0, if_neg hj0]
  · exact absurd h (by simp)

theorem ShuffleState.move_other (p : ℚ) (ds : List ShuffleData) (cs cs1 : List Card)
    (j : Int) (h : ShuffleState.move p ds cs = some cs1) (hj : ∀ d ∈ ds, d.index ≠ j) :
    cardAt cs1 j = cardAt cs j := by
  induction ds generalizing cs with
  | nil =>
    simp only [ShuffleState.move, Option.some.injEq] at h
    rw [← h]
  | cons d ds ih =>
    simp only [ShuffleState.move] at h
    split at h
    · exact absurd h (by simp)
    · rename_i cs2 h2
      rw [ih cs2 h (fun d1 hd1 => hj d1 (List.mem_cons_of_mem _ hd1))]
      exact (setPos_spec _ _ _ _ h2).2 j (fun e => hj d (List.mem_cons_self _ _) e.symm)

/-- The position loop of `ShuffleState::OnUserUpdate` over pairwise distinct indices
leaves every shuffled card at the interpolation of its recorded positions. -/
theorem ShuffleState.move_spec (p : ℚ) (ds : List ShuffleData) (cs cs1 : List Card)
    (h : ShuffleState.move p ds cs = some cs1) (hnd : (ds.map ShuffleData.index).Nodup) :
    ∀ d ∈ ds, ∃ c, cardAt cs1 d.index = some c ∧ c.pos = lerp d.old_pos d.new_pos p := by
  induction ds generalizing cs with
  | nil => intro d hd; simp at hd
  | cons d0 ds ih =>
    simp only [ShuffleState.move] at h
    split at h
    · exact absurd h (by simp)
    · rename_i cs2 h2
      rw [List.map_cons, List.nodup_cons] at hnd
      intro d hd
      rcases List.mem_cons.mp hd with rfl | hd
      · have hoth := ShuffleState.move_other p ds cs2 cs1 d.index h (by
          intro d1 hd1 heq
          exact hnd.1 (heq ▸ List.mem_map_of_mem _ hd1))
        rw [hoth]
        exact (setPos_spec _ _ _ _ h2).1
      · exact ih cs2 h hnd.2 d hd

theorem ShuffleState.stay_sd (m : Libm) (es : List ℚ) (g g1 : Globals)
    (s s1 : ShuffleState) (h : ShuffleState.stay m es (g, s) = some (g1, s1)) :
    s1.sd = s.sd := by
  induction es generalizing g s with
  | nil =>
    simp only [ShuffleState.stay, Option.some.injEq, Prod.mk.injEq] at h
    rw [← h.2]
  | cons e es ih =>
    simp only [ShuffleState.stay] at h
    split at h
    · rename_i g2 s2 hu
      rw [ih g2 s2 h]
      unfold ShuffleState.OnUserUpdate at hu
      simp only at hu
      split at hu
      · exact absurd hu (by simp)
      · simp only [Option.some.injEq, Prod.mk.injEq] at hu
        rw [← hu.2.1]
    · exact absurd h (by simp)

theorem ShuffleState.record_spec (cards : List Card) (idxs : List Nat)
    (ds : List ShuffleData) (h : ShuffleState.record cards idxs = some ds) :
    ds.map ShuffleData.index = idxs.map (fun i : Nat => (i : Int)) ∧
    ∀ d ∈ ds, ∃ c, cardAt cards d.index = some c ∧ d.old_pos = c.pos := by
  induction idxs generalizing ds with
  | nil =>
    simp only [ShuffleState.record, Option.some.injEq] at h
    subst h
    exact ⟨rfl, fun d hd => by simp at hd⟩
  | cons i idxs ih =>
    simp only [ShuffleState.record] at h
    split at h
    · rename_i c ds0 hc hr
      simp only [Option.some.injEq] at h
      subst h
      obtain ⟨a1, a2⟩ := ih ds0 hr
      refine ⟨by simp [a1], ?_⟩
      intro d hd
      rcases List.mem_cons.mp hd with rfl | hd
      · exact ⟨c, by rw [cardAt_natCast]; exact hc, rfl⟩
      · exact a2 d hd
    · exact absurd h (by simp)

theorem ShuffleState.target_spec (cards : List Card) (ds : List ShuffleData)
    (idxs : List Nat) (ds1 : List ShuffleData)
    (h : ShuffleState.target cards ds idxs = some ds1) :
    ds1.map (fun d => (d.index, d.old_pos)) = ds.map (fun d => (d.index, d.old_pos)) ∧
    ∀ d1 ∈ ds1, ∃ i ∈ idxs.take ds.length, ∃ c, cards[i]? = some c ∧ d1.new_pos = c.pos := by
  induction ds generalizing idxs ds1 with
  | nil =>
    simp only [ShuffleState.target, Option.some.injEq] at h
    subst h
    exact ⟨rfl, fun d hd => by simp at hd⟩
  | cons d ds ih =>
    cases idxs with
    | nil => simp [ShuffleState.target] at h
    | cons i idxs =>
      simp only [ShuffleState.target] at h
      split at h
      · rename_i c ds0 hc hr
        simp only [Option.some.injEq] at h
        subst h
        obtain ⟨a1, a2⟩ := ih idxs ds0 hr
        refine ⟨by simp [a1], ?_⟩
        intro d1 hd1
        rcases List.mem_cons.mp hd1 with rfl | hd1
        · exact ⟨i, by simp, c, hc, rfl⟩
        · obtain ⟨i1, hi1, c1, hc1, hp1⟩ := a2 d1 hd1
          exact ⟨i1, by simp [hi1], c1, hc1, hp1⟩
      · exact absurd h (by simp)

/-- What `ShuffleState::EnterState` records: pairwise distinct valid indices, each with
the card's current position as `old_pos`, and as `new_pos` the `old_pos` of some selected
card. -/
theorem ShuffleState.shuffle_enter_spec (σ1 σ2 : List Nat) (g : Globals) (s0 s : ShuffleState)
    (h : ShuffleState.EnterState σ1 σ2 g s0 = some s) :
    s.fTotalTime = 0 ∧ (s.sd.map ShuffleData.index).Nodup ∧
    (∀ d ∈ s.sd, ∃ c, cardAt g.the_cards d.index = some c ∧ d.old_pos = c.pos) ∧
    (∀ d ∈ s.sd, ∃ d1 ∈ s.sd, d.new_pos = d1.old_pos) := by
  unfold ShuffleState.EnterState at h
  simp only at h
  split_ifs at h with ht hc
  split at h
  · exact absurd h (by simp)
  · rename_i indices hsh1
    split at h
    · exact absurd h (by simp)
    · rename_i sd hrec
      split at h
      · exact absurd h (by simp)
      · rename_i front hsh2
        split at h
        · exact absurd h (by simp)
        · rename_i sd1 htar
          simp only [Option.some.injEq] at h
          subst h
          obtain ⟨r1, r2⟩ := ShuffleState.record_spec _ _ _ hrec
          obtain ⟨t1, t2⟩ := ShuffleState.target_spec _ _ _ _ htar
          have hperm1 := stdShuffle_perm _ _ _ hsh1
          have hperm2 := stdShuffle_perm _ _ _ hsh2
          have hidx : sd1.map ShuffleData.index = sd.map ShuffleData.index := by
            have := congrArg (List.map Prod.fst) t1
            simpa [List.map_map, Function.comp_def] using this
          have hnd : (sd.map ShuffleData.index).Nodup := by
            rw [r1]
            apply List.Nodup.map (fun a b hab => by exact_mod_cast hab)
            exact List.Nodup.sublist (List.take_sublist _ _)
              ((hperm1.nodup_iff).mpr (List.nodup_range _))
          have hlen : sd.length = front.length := by
            have := congrArg List.length r1
            simp only [List.length_map] at this
            rw [this, hperm2.length_eq]
          -- membership in `sd1` gives membership of the (index, old_pos) pair in `sd`
          have hold : ∀ d ∈ sd1, ∃ c, cardAt g.the_cards d.index = some c ∧
              d.old_pos = c.pos := by
            intro d hd
            have hmem : (d.index, d.old_pos) ∈ sd.map (fun d => (d.index, d.old_pos)) := by
              rw [← t1]
              exact List.mem_map_of_mem (fun d => (d.index, d.old_pos)) hd
            obtain ⟨d0, hd0, heq⟩ := List.mem_map.mp hmem
            simp only [Prod.mk.injEq] at heq
            obtain ⟨c, hc1, hc2⟩ := r2 d0 hd0
            exact ⟨c, heq.1 ▸ hc1, heq.2 ▸ hc2⟩
          refine ⟨rfl, hidx ▸ hnd, hold, ?_⟩
          intro d hd
          obtain ⟨i, hi, c, hci, hpos⟩ := t2 d hd
          rw [hlen, List.take_left' rfl] at hi
          have hi2 : i ∈ indices.take (min (g.the_cards.length : Int)
              (g.round_number + floorSqrt g.turn_number)).toNat := hperm2.mem_iff.mp hi
          have hi3 : (i : Int) ∈ sd.map ShuffleData.index := by
            rw [r1]
            exact List.mem_map_of_mem (fun i : Nat => (i : Int)) hi2
          obtain ⟨d0, hd0, hd0i⟩ := List.mem_map.mp hi3
          have hmem : (d0.index, d0.old_pos) ∈ sd1.map (fun d => (d.index, d.old_pos)) := by
            rw [t1]
            exact List.mem_map_of_mem (fun d => (d.index, d.old_pos)) hd0
          obtain ⟨d1, hd1, heq⟩ := List.mem_map.mp hmem
          simp only [Prod.mk.injEq] at heq
          obtain ⟨c0, hc0, hc0p⟩ := r2 d0 hd0
          rw [hd0i, cardAt_natCast, hci] at hc0
          simp only [Option.some.injEq] at hc0
          refine ⟨d1, hd1, ?_⟩
          rw [hpos, heq.2, hc0p, hc0]

/-- Claim C9, as amended: in every Shuffle run, on the tick that completes the animation
and returns MIXUP (accumulated time > 1.0), if the eased progress `min(1, Ease(time))`
of that tick is 1, every shuffled card's position exactly equals the pre-shuffle
position of some selected card, which may be the card itself. -/
theorem ShuffleState.shuffle_final_positions (m : Libm) (σ1 σ2 : List Nat)
    (g g1 g2 : Globals) (s0 s s1 s2 : ShuffleState) (es : List ℚ) (e : ℚ)
    (henter : ShuffleState.EnterState σ1 σ2 g s0 = some s)
    (hstay : ShuffleState.stay m es (g, s) = some (g1, s1))
    (hupd : ShuffleState.OnUserUpdate m e g1 s1 = some (g2, s2, GameState.MIXUP))
    (hp : min 1 (Ease m s2.fTotalTime) = 1) :
    1 < s2.fTotalTime ∧
    ∀ d ∈ s.sd, ∃ d1 ∈ s.sd, ∃ c c1, cardAt g2.the_cards d.index = some c ∧
      cardAt g.the_cards d1.index = some c1 ∧ c.pos = c1.pos := by
  obtain ⟨_, hnd, hold, hnew⟩ := ShuffleState.shuffle_enter_spec σ1 σ2 g s0 s henter
  have hsd := ShuffleState.stay_sd m es g g1 s s1 hstay
  unfold ShuffleState.OnUserUpdate at hupd
  simp only at hupd
  split at hupd
  · exact absurd hupd (by simp)
  · rename_i cs hmove
    simp only [Option.some.injEq, Prod.mk.injEq] at hupd
    obtain ⟨hg2, hs2, hnext⟩ := hupd
    subst hg2 hs2
    simp only at hp ⊢
    have ht : 1 < s1.fTotalTime + e * timeScale g1.round_number := by
      by_contra hcon
      rw [if_neg hcon] at hnext
      exact absurd hnext (by decide)
    refine ⟨ht, ?_⟩
    rw [hp, hsd] at hmove
    intro d hd
    obtain ⟨c, hc, hcp⟩ := ShuffleState.move_spec 1 s.sd _ _ hmove hnd d hd
    obtain ⟨d1, hd1, hd1p⟩ := hnew d hd
    obtain ⟨c1, hc1, hc1p⟩ := hold d1 hd1
    refine ⟨d1, hd1, c, c1, hc, hc1, ?_⟩
    rw [hcp, lerp_one, hd1p, hc1p]

/-- Counterexample to claim C9 as stated: when the second permutation leaves the four
selected indices in place, each card ends at its own pre-shuffle position, which is the
pre-shuffle position of no other selected card (round 3, one frame of 0.50001 time
units, so that the accumulated time is 1.00002 and the eased progress exactly 1). -/
theorem ShuffleState.shuffle_other_counterexample :
    ∃ s g2 s2,
      ShuffleState.EnterState [0, 1, 2, 3] [0, 1, 2, 3] (exGlobals GameState.SHUFFLE 3 (-1) (-1))
        MemoryGame.init.shuffle = some s ∧
      ShuffleState.OnUserUpdate exLibm (50001 / 100000) (exGlobals GameState.SHUFFLE 3 (-1) (-1)) s =
        some (g2, s2, GameState.MIXUP) ∧
      ¬ (∀ d ∈ s.sd, ∃ d1 ∈ s.sd, d1.index ≠ d.index ∧
          ∃ c, cardAt g2.the_cards d.index = some c ∧ c.pos = d1.old_pos) := by
  have hfs : floorSqrt 1 = 1 := by simp [floorSqrt]
  have hcount : (min ((exBoard.length : Nat) : Int) (3 + 1)).toNat = 4 := by decide
  have h1 : stdShuffle [0, 1, 2, 3] (List.range exBoard.length) = some [0, 1, 2, 3] := by
    decide
  have h2 : ShuffleState.record exBoard (List.take 4 [0, 1, 2, 3]) =
      some [⟨0, ⟨0, 0⟩, ⟨0, 0⟩⟩, ⟨1, ⟨20, 0⟩, ⟨0, 0⟩⟩, ⟨2, ⟨40, 0⟩, ⟨0, 0⟩⟩,
            ⟨3, ⟨60, 0⟩, ⟨0, 0⟩⟩] := rfl
  have h3 : stdShuffle [0, 1, 2, 3] (List.take 4 [0, 1, 2, 3]) = some [0, 1, 2, 3] := by
    decide
  have h4 : ShuffleState.target exBoard
      [⟨0, ⟨0, 0⟩, ⟨0, 0⟩⟩, ⟨1, ⟨20, 0⟩, ⟨0, 0⟩⟩, ⟨2, ⟨40, 0⟩, ⟨0, 0⟩⟩, ⟨3, ⟨60, 0⟩, ⟨0, 0⟩⟩]
      ([0, 1, 2, 3] ++ List.drop 4 [0, 1, 2, 3]) =
      some [⟨0, ⟨0, 0⟩, ⟨0, 0⟩⟩, ⟨1, ⟨20, 0⟩, ⟨20, 0⟩⟩, ⟨2, ⟨40, 0⟩, ⟨40, 0⟩⟩,
            ⟨3, ⟨60, 0⟩, ⟨60, 0⟩⟩] := rfl
  have hE : min 1 (Ease exLibm (50001 / 50000)) = 1 := by
    norm_num [Ease, exLibm]
  have hT : (0 : ℚ) + 50001 / 100000 * timeScale 3 = 50001 / 50000 := by
    norm_num [timeScale]
  have h5 : ShuffleState.move 1
      [⟨0, ⟨0, 0⟩, ⟨0, 0⟩⟩, ⟨1, ⟨20, 0⟩, ⟨20, 0⟩⟩, ⟨2, ⟨40, 0⟩, ⟨40, 0⟩⟩, ⟨3, ⟨60, 0⟩, ⟨60, 0⟩⟩]
      exBoard =
      some [{ exCard olc.GREY 0 with pos := lerp ⟨0, 0⟩ ⟨0, 0⟩ 1 },
            { exCard olc.GREEN 20 with pos := lerp ⟨20, 0⟩ ⟨20, 0⟩ 1 },
            { exCard olc.GREY 40 with pos := lerp ⟨40, 0⟩ ⟨40, 0⟩ 1 },
            { exCard olc.GREEN 60 with pos := lerp ⟨60, 0⟩ ⟨60, 0⟩ 1 }] := rfl
  refine ⟨{ fTotalTime := 0,
            sd := [⟨0, ⟨0, 0⟩, ⟨0, 0⟩⟩, ⟨1, ⟨20, 0⟩, ⟨20, 0⟩⟩, ⟨2, ⟨40, 0⟩, ⟨40, 0⟩⟩,
                   ⟨3, ⟨60, 0⟩, ⟨60, 0⟩⟩] },
    { exGlobals GameState.SHUFFLE 3 (-1) (-1) with
      the_cards := [{ exCard olc.GREY 0 with pos := lerp ⟨0, 0⟩ ⟨0, 0⟩ 1 },
            { exCard olc.GREEN 20 with pos := lerp ⟨20, 0⟩ ⟨20, 0⟩ 1 },
            { exCard olc.GREY 40 with pos := lerp ⟨40, 0⟩ ⟨40, 0⟩ 1 },
            { exCard olc.GREEN 60 with pos := lerp ⟨60, 0⟩ ⟨60, 0⟩ 1 }] },
    { fTotalTime := 50001 / 50000,
      sd := [⟨0, ⟨0, 0⟩, ⟨0, 0⟩⟩, ⟨1, ⟨20, 0⟩, ⟨20, 0⟩⟩, ⟨2, ⟨40, 0⟩, ⟨40, 0⟩⟩,
             ⟨3, ⟨60, 0⟩, ⟨60, 0⟩⟩] }, ?_, ?_, ?_⟩
  · unfold ShuffleState.EnterState
    simp only [exGlobals, hfs, hcount, h1, h2, h3, h4]
    rw [if_neg (by decide), if_neg (by decide)]
  · unfold ShuffleState.OnUserUpdate
    simp only [exGlobals, hT, hE, h5]
    norm_num
  · intro h
    obtain ⟨d1, hd1, hne, c, hc, hpos⟩ := h ⟨0, ⟨0, 0⟩, ⟨0, 0⟩⟩ (by simp)
    simp only [cardAt, le_refl, if_true, Int.toNat_zero, List.getElem?_cons_zero,
      Option.some.injEq] at hc
    subst hc
    simp only [lerp_one] at hpos
    simp only [List.mem_cons, List.mem_singleton, List.not_mem_nil, or_false] at hd1
    rcases hd1 with rfl | rfl | rfl | rfl
    · exact hne rfl
    · norm_num at hpos
    · norm_num at hpos
    · norm_num at hpos
theorem ShuffleState.shuffle_final_positions_witness :
    ∃ s g2 s2,
      ShuffleState.EnterState [0, 1, 2, 3] [1, 0, 3, 2] (exGlobals GameState.SHUFFLE 3 (-1) (-1))
        MemoryGame.init.shuffle = some s ∧
      ShuffleState.OnUserUpdate exLibm (50001 / 100000) (exGlobals GameState.SHUFFLE 3 (-1) (-1)) s =
        some (g2, s2, GameState.MIXUP) ∧
      1 < s2.fTotalTime ∧
      ∀ d ∈ s.sd, ∃ d1 ∈ s.sd, ∃ c c1, cardAt g2.the_cards d.index = some c ∧
        cardAt (exGlobals GameState.SHUFFLE 3 (-1) (-1)).the_cards d1.index = some c1 ∧
        c.pos = c1.pos := by
  have hfs : floorSqrt 1 = 1 := by simp [floorSqrt]
  have hcount : (min ((exBoard.length : Nat) : Int) (3 + 1)).toNat = 4 := by decide
  have h1 : stdShuffle [0, 1, 2, 3] (List.range exBoard.length) = some [0, 1, 2, 3] := by
    decide
  have h2 : ShuffleState.record exBoard (List.take 4 [0, 1, 2, 3]) =
      some [⟨0, ⟨0, 0⟩, ⟨0, 0⟩⟩, ⟨1, ⟨20, 0⟩, ⟨0, 0⟩⟩, ⟨2, ⟨40, 0⟩, ⟨0, 0⟩⟩,
            ⟨3, ⟨60, 0⟩, ⟨0, 0⟩⟩] := rfl
  have h3 : stdShuffle [1, 0, 3, 2] (List.take 4 [0, 1, 2, 3]) = some [1, 0, 3, 2] := by
    decide
  have h4 : ShuffleState.target exBoard
      [⟨0, ⟨0, 0⟩, ⟨0, 0⟩⟩, ⟨1, ⟨20, 0⟩, ⟨0, 0⟩⟩, ⟨2, ⟨40, 0⟩, ⟨0, 0⟩⟩, ⟨3, ⟨60, 0⟩, ⟨0, 0⟩⟩]
      ([1, 0, 3, 2] ++ List.drop 4 [0, 1, 2, 3]) =
      some [⟨0, ⟨0, 0⟩, ⟨20, 0⟩⟩, ⟨1, ⟨20, 0⟩, ⟨0, 0⟩⟩, ⟨2, ⟨40, 0⟩, ⟨60, 0⟩⟩,
            ⟨3, ⟨60, 0⟩, ⟨40, 0⟩⟩] := rfl
  have hE : min 1 (Ease exLibm (50001 / 50000)) = 1 := by
    norm_num [Ease, exLibm]
  have hT : (0 : ℚ) + 50001 / 100000 * timeScale 3 = 50001 / 50000 := by
    norm_num [timeScale]
  have h5 : ShuffleState.move 1
      [⟨0, ⟨0, 0⟩, ⟨20, 0⟩⟩, ⟨1, ⟨20, 0⟩, ⟨0, 0⟩⟩, ⟨2, ⟨40, 0⟩, ⟨60, 0⟩⟩, ⟨3, ⟨60, 0⟩, ⟨40, 0⟩⟩]
      exBoard =
      some [{ exCard olc.GREY 0 with pos := lerp ⟨0, 0⟩ ⟨20, 0⟩ 1 },
            { exCard olc.GREEN 20 with pos := lerp ⟨20, 0⟩ ⟨0, 0⟩ 1 },
            { exCard olc.GREY 40 with pos := lerp ⟨40, 0⟩ ⟨60, 0⟩ 1 },
            { exCard olc.GREEN 60 with pos := lerp ⟨60, 0⟩ ⟨40, 0⟩ 1 }] := rfl
  have henter : ShuffleState.EnterState [0, 1, 2, 3] [1, 0, 3, 2]
      (exGlobals GameState.SHUFFLE 3 (-1) (-1)) MemoryGame.init.shuffle =
      some { fTotalTime := 0,
             sd := [⟨0, ⟨0, 0⟩, ⟨20, 0⟩⟩, ⟨1, ⟨20, 0⟩, ⟨0, 0⟩⟩, ⟨2, ⟨40, 0⟩, ⟨60, 0⟩⟩,
                    ⟨3, ⟨60, 0⟩, ⟨40, 0⟩⟩] } := by
    unfold ShuffleState.EnterState
    simp only [exGlobals, hfs, hcount, h1, h2, h3, h4]
    rw [if_neg (by decide), if_neg (by decide)]
  have hupd : ShuffleState.OnUserUpdate exLibm (50001 / 100000) (exGlobals GameState.SHUFFLE 3 (-1) (-1))
      { fTotalTime := 0,
        sd := [⟨0, ⟨0, 0⟩, ⟨20, 0⟩⟩, ⟨1, ⟨20, 0⟩, ⟨0, 0⟩⟩, ⟨2, ⟨40, 0⟩, ⟨60, 0⟩⟩,
               ⟨3, ⟨60, 0⟩, ⟨40, 0⟩⟩] } =
      some ({ exGlobals GameState.SHUFFLE 3 (-1) (-1) with
              the_cards := [{ exCard olc.GREY 0 with pos := lerp ⟨0, 0⟩ ⟨20, 0⟩ 1 },
                { exCard olc.GREEN 20 with pos := lerp ⟨20, 0⟩ ⟨0, 0⟩ 1 },
                { exCard olc.GREY 40 with pos := lerp ⟨40, 0⟩ ⟨60, 0⟩ 1 },
                { exCard olc.GREEN 60 with pos := lerp ⟨60, 0⟩ ⟨40, 0⟩ 1 }] },
            { fTotalTime := 50001 / 50000,
              sd := [⟨0, ⟨0, 0⟩, ⟨20, 0⟩⟩, ⟨1, ⟨20, 0⟩, ⟨0, 0⟩⟩, ⟨2, ⟨40, 0⟩, ⟨60, 0⟩⟩,
                     ⟨3, ⟨60, 0⟩, ⟨40, 0⟩⟩] },
            GameState.MIXUP) := by
    unfold ShuffleState.OnUserUpdate
    simp only [exGlobals, hT, hE, h5]
    norm_num
  exact ⟨_, _, _, henter, hupd,
    ShuffleState.shuffle_final_positions exLibm [0, 1, 2, 3] [1, 0, 3, 2] _ _ _ _ _ _ _ []
      (50001 / 100000)
      henter rfl hupd hE⟩

theorem ShuffleState.record_old_pos (cards : List Card) (idxs : List Nat)
    (ds : List ShuffleData) (h : ShuffleState.record cards idxs = some ds) :
    ds.length = idxs.length ∧
    ds.map ShuffleData.old_pos =
      idxs.map (fun i : Nat => ((cards[i]?).map Card.pos).getD ⟨0, 0⟩) := by
  induction idxs generalizing ds with
  | nil =>
    simp only [ShuffleState.record, Option.some.injEq] at h
    subst h
    exact ⟨rfl, rfl⟩
  | cons i idxs ih =>
    simp only [ShuffleState.record] at h
    split at h
    · rename_i c ds0 hc hr
      simp only [Option.some.injEq] at h
      subst h
      obtain ⟨a1, a2⟩ := ih ds0 hr
      exact ⟨by simp [a1], by simp [a2, hc]⟩
    · exact absurd h (by simp)

theorem ShuffleState.target_new_pos (cards : List Card) (ds : List ShuffleData)
    (idxs : List Nat) (ds1 : List ShuffleData)
    (h : ShuffleState.target cards ds idxs = some ds1) :
    ds1.length = ds.length ∧
    ds1.map ShuffleData.old_pos = ds.map ShuffleData.old_pos ∧
    ds1.map ShuffleData.new_pos =
      (idxs.take ds.length).map (fun i : Nat => ((cards[i]?).map Card.pos).getD ⟨0, 0⟩) := by
  induction ds generalizing idxs ds1 with
  | nil =>
    simp only [ShuffleState.target, Option.some.injEq] at h
    subst h
    exact ⟨rfl, rfl, by simp⟩
  | cons d ds ih =>
    cases idxs with
    | nil => simp [ShuffleState.target] at h
    | cons i idxs =>
      simp only [ShuffleState.target] at h
      split at h
      · rename_i c ds0 hc hr
        simp only [Option.some.injEq] at h
        subst h
        obtain ⟨a0, a1, a2⟩ := ih idxs ds0 hr
        exact ⟨by simp [a0], by simp [a1], by simp [a2, hc]⟩
      · exact absurd h (by simp)

theorem ShuffleState.record_some (cards : List Card) (idxs : List Nat)
    (h : ∀ i ∈ idxs, i < cards.length) : ∃ ds, ShuffleState.record cards idxs = some ds := by
  induction idxs with
  | nil => exact ⟨[], rfl⟩
  | cons i idxs ih =>
    obtain ⟨ds, hds⟩ := ih (fun j hj => h j (List.mem_cons_of_mem _ hj))
    have hi := h i (List.mem_cons_self _ _)
    simp only [ShuffleState.record, hds, List.getElem?_eq_getElem hi]
    exact ⟨_, rfl⟩

theorem ShuffleState.target_some (cards : List Card) (ds : List ShuffleData)
    (idxs : List Nat) (hlen : ds.length ≤ idxs.length)
    (h : ∀ i ∈ idxs.take ds.length, i < cards.length) :
    ∃ ds1, ShuffleState.target cards ds idxs = some ds1 := by
  induction ds generalizing idxs with
  | nil => exact ⟨[], rfl⟩
  | cons d ds ih =>
    cases idxs with
    | nil => simp at hlen
    | cons i idxs =>
      simp only [List.length_cons, List.take_succ_cons, List.mem_cons, forall_eq_or_imp] at h
      obtain ⟨ds1, hds1⟩ := ih idxs (by simpa using hlen) h.2
      simp only [ShuffleState.target, hds1, List.getElem?_eq_getElem h.1]
      exact ⟨_, rfl⟩

theorem cardAt_some_bounds (cs : List Card) (i : Int) (c : Card) (h : cardAt cs i = some c) :
    0 ≤ i ∧ i < cs.length := by
  unfold cardAt at h
  split_ifs at h with h0
  have := (List.getElem?_eq_some_iff.mp h).1
  exact ⟨h0, by omega⟩

/-- Claim C11: for round and turn numbers at least 1 and any two shuffle outcomes,
`ShuffleState::EnterState` selects exactly `min(totalCards, floor(round_number +
sqrt(turn_number)))` cards, never more than `totalCards`, and the selected indices are
pairwise distinct valid indices into the board. -/
theorem ShuffleState.shuffle_count (σ1 σ2 : List Nat) (g : Globals) (s0 : ShuffleState)
    (hr : 1 ≤ g.round_number) (ht : 1 ≤ g.turn_number)
    (hσ1 : σ1.Perm (List.range g.the_cards.length))
    (hσ2 : σ2.Perm (List.range (min (g.the_cards.length : Int)
      (g.round_number + floorSqrt g.turn_number)).toNat)) :
    ∃ s, ShuffleState.EnterState σ1 σ2 g s0 = some s ∧
      (s.sd.length : Int) =
        min (g.the_cards.length : Int) (g.round_number + floorSqrt g.turn_number) ∧
      floorSqrt g.turn_number = (Nat.sqrt g.turn_number.toNat : Nat) ∧
      s.sd.length ≤ g.the_cards.length ∧
      (s.sd.map ShuffleData.index).Nodup ∧
      ∀ d ∈ s.sd, 0 ≤ d.index ∧ d.index < g.the_cards.length := by
  have hfs : 0 ≤ floorSqrt g.turn_number := by unfold floorSqrt; positivity
  have hk0 : ¬ min (g.the_cards.length : Int) (g.round_number + floorSqrt g.turn_number) < 0 := by
    rw [not_lt]
    exact le_min (by positivity) (by omega)
  have hkn : (min (g.the_cards.length : Int)
      (g.round_number + floorSqrt g.turn_number)).toNat ≤ g.the_cards.length := by
    have := min_le_left (g.the_cards.length : Int) (g.round_number + floorSqrt g.turn_number)
    omega
  obtain ⟨indices, h1⟩ := stdShuffle_some σ1 (List.range g.the_cards.length)
    (by rw [List.length_range]; exact hσ1)
  have hperm1 := stdShuffle_perm _ _ _ h1
  have hlen1 : indices.length = g.the_cards.length := by
    rw [hperm1.length_eq, List.length_range]
  have hvalid : ∀ i ∈ indices, i < g.the_cards.length := by
    intro i hi
    exact List.mem_range.mp (hperm1.mem_iff.mp hi)
  have htake : (indices.take (min (g.the_cards.length : Int)
      (g.round_number + floorSqrt g.turn_number)).toNat).length =
      (min (g.the_cards.length : Int) (g.round_number + floorSqrt g.turn_number)).toNat := by
    rw [List.length_take, hlen1]
    exact min_eq_left hkn
  obtain ⟨sd, h2⟩ := ShuffleState.record_some g.the_cards
    (indices.take (min (g.the_cards.length : Int)
      (g.round_number + floorSqrt g.turn_number)).toNat)
    (fun i hi => hvalid i (List.mem_of_mem_take hi))
  obtain ⟨hsdlen, _⟩ := ShuffleState.record_old_pos _ _ _ h2
  obtain ⟨front, h3⟩ := stdShuffle_some σ2
    (indices.take (min (g.the_cards.length : Int)
      (g.round_number + floorSqrt g.turn_number)).toNat)
    (by rw [htake]; exact hσ2)
  have hperm2 := stdShuffle_perm _ _ _ h3
  have hfr : front.length = sd.length := by rw [hperm2.length_eq, hsdlen]
  obtain ⟨sd1, h4⟩ := ShuffleState.target_some g.the_cards sd
    (front ++ indices.drop (min (g.the_cards.length : Int)
      (g.round_number + floorSqrt g.turn_number)).toNat)
    (by rw [List.length_append, hfr]; omega)
    (by
      intro i hi
      rw [← hfr, List.take_left' rfl] at hi
      exact hvalid i (List.mem_of_mem_take (hperm2.mem_iff.mp hi)))
  have henter : ShuffleState.EnterState σ1 σ2 g s0 = some { fTotalTime := 0, sd := sd1 } := by
    unfold ShuffleState.EnterState
    simp only
    rw [if_neg (by omega), if_neg hk0]
    simp only [h1, h2, h3, h4]
  obtain ⟨_, hnd, hold, _⟩ := ShuffleState.shuffle_enter_spec σ1 σ2 g s0 _ henter
  obtain ⟨hl4, _, _⟩ := ShuffleState.target_new_pos _ _ _ _ h4
  have hlen : sd1.length = (min (g.the_cards.length : Int)
      (g.round_number + floorSqrt g.turn_number)).toNat := by
    rw [hl4, hsdlen, htake]
  refine ⟨_, henter, ?_, rfl, ?_, hnd, ?_⟩
  · simp only
    rw [hlen]
    exact Int.toNat_of_nonneg (not_lt.mp hk0)
  · simp only
    rw [hlen]
    exact hkn
  · intro d hd
    obtain ⟨c, hc, _⟩ := hold d hd
    exact cardAt_some_bounds _ _ _ hc

theorem ShuffleState.shuffle_count_witness :
    ∃ s, ShuffleState.EnterState [0, 1, 2, 3] [1, 0, 2]
        { exGlobals GameState.SHUFFLE 1 (-1) (-1) with turn_number := 4 }
        MemoryGame.init.shuffle = some s ∧
      (s.sd.length : Int) = min ((exBoard.length : Nat) : Int) (1 + floorSqrt 4) ∧
      floorSqrt 4 = (Nat.sqrt (4 : Int).toNat : Nat) ∧
      s.sd.length ≤ exBoard.length ∧
      (s.sd.map ShuffleData.index).Nodup ∧
      ∀ d ∈ s.sd, 0 ≤ d.index ∧ d.index < exBoard.length :=
  ShuffleState.shuffle_count [0, 1, 2, 3] [1, 0, 2]
    { exGlobals GameState.SHUFFLE 1 (-1) (-1) with turn_number := 4 }
    MemoryGame.init.shuffle (by decide) (by decide) (by decide)
    (by
      have h4 : floorSqrt 4 = 2 := by
        unfold floorSqrt
        have : Nat.sqrt (4 : Int).toNat = 2 :=
          (Nat.eq_sqrt'.mpr ⟨by decide, by decide⟩).symm
        rw [this]; rfl
      show List.Perm [1, 0, 2] (List.range (min ((exBoard.length : Nat) : Int)
        (1 + floorSqrt 4)).toNat)
      rw [h4]
      decide)

/-- The four steps of a successful `ShuffleState::EnterState`. -/
theorem ShuffleState.shuffle_enter_parts (σ1 σ2 : List Nat) (g : Globals)
    (s0 s : ShuffleState) (h : ShuffleState.EnterState σ1 σ2 g s0 = some s) :
    ∃ (k : Nat) (indices : List Nat) (sd : List ShuffleData) (front : List Nat),
      k = (min (g.the_cards.length : Int) (g.round_number + floorSqrt g.turn_number)).toNat ∧
      stdShuffle σ1 (List.range g.the_cards.length) = some indices ∧
      ShuffleState.record g.the_cards (indices.take k) = some sd ∧
      stdShuffle σ2 (indices.take k) = some front ∧
      ShuffleState.target g.the_cards sd (front ++ indices.drop k) = some s.sd := by
  unfold ShuffleState.EnterState at h
  simp only at h
  split_ifs at h with ht hc
  split at h
  · exact absurd h (by simp)
  · rename_i indices hsh1
    split at h
    · exact absurd h (by simp)
    · rename_i sd hrec
      split at h
      · exact absurd h (by simp)
      · rename_i front hsh2
        split at h
        · exact absurd h (by simp)
        · rename_i sd1 htar
          simp only [Option.some.injEq] at h
          subst h
          exact ⟨_, indices, sd, front, rfl, hsh1, hrec, hsh2, htar⟩

/-- Claim C14: for every board and every outcome of the two random permutations of
`ShuffleState::EnterState`, the target positions `new_pos` of the shuffle data are a
permutation of the recorded positions `old_pos` of the same selected cards, each of
which is the position the card has on the board. -/
theorem ShuffleState.shuffle_targets_perm (σ1 σ2 : List Nat) (g : Globals)
    (s0 s : ShuffleState) (h : ShuffleState.EnterState σ1 σ2 g s0 = some s) :
    (s.sd.map ShuffleData.new_pos).Perm (s.sd.map ShuffleData.old_pos) ∧
    ∀ d ∈ s.sd, ∃ c, cardAt g.the_cards d.index = some c ∧ d.old_pos = c.pos := by
  obtain ⟨k, indices, sd, front, _, _, hrec, hsh2, htar⟩ :=
    ShuffleState.shuffle_enter_parts σ1 σ2 g s0 s h
  obtain ⟨_, _, hold, _⟩ := ShuffleState.shuffle_enter_spec σ1 σ2 g s0 s h
  refine ⟨?_, hold⟩
  obtain ⟨r0, r1⟩ := ShuffleState.record_old_pos _ _ _ hrec
  obtain ⟨_, t1, t2⟩ := ShuffleState.target_new_pos _ _ _ _ htar
  have hperm2 := stdShuffle_perm _ _ _ hsh2
  have hfr : front.length = sd.length := by rw [hperm2.length_eq, r0]
  rw [t2, t1, r1, ← hfr, List.take_left' rfl]
  exact hperm2.map _

theorem ShuffleState.shuffle_targets_perm_witness :
    (([⟨0, ⟨0, 0⟩, ⟨20, 0⟩⟩, ⟨1, ⟨20, 0⟩, ⟨0, 0⟩⟩, ⟨2, ⟨40, 0⟩, ⟨60, 0⟩⟩,
        ⟨3, ⟨60, 0⟩, ⟨40, 0⟩⟩] : List ShuffleData).map ShuffleData.new_pos).Perm
      (([⟨0, ⟨0, 0⟩, ⟨20, 0⟩⟩, ⟨1, ⟨20, 0⟩, ⟨0, 0⟩⟩, ⟨2, ⟨40, 0⟩, ⟨60, 0⟩⟩,
        ⟨3, ⟨60, 0⟩, ⟨40, 0⟩⟩] : List ShuffleData).map ShuffleData.old_pos) ∧
    ∀ d ∈ ([⟨0, ⟨0, 0⟩, ⟨20, 0⟩⟩, ⟨1, ⟨20, 0⟩, ⟨0, 0⟩⟩, ⟨2, ⟨40, 0⟩, ⟨60, 0⟩⟩,
        ⟨3, ⟨60, 0⟩, ⟨40, 0⟩⟩] : List ShuffleData),
      ∃ c, cardAt (exGlobals GameState.SHUFFLE 3 (-1) (-1)).the_cards d.index = some c ∧
        d.old_pos = c.pos := by
  have hfs : floorSqrt 1 = 1 := by simp [floorSqrt]
  have hcount : (min ((exBoard.length : Nat) : Int) (3 + 1)).toNat = 4 := by decide
  have h1 : stdShuffle [0, 1, 2, 3] (List.range exBoard.length) = some [0, 1, 2, 3] := by
    decide
  have h2 : ShuffleState.record exBoard (List.take 4 [0, 1, 2, 3]) =
      some [⟨0, ⟨0, 0⟩, ⟨0, 0⟩⟩, ⟨1, ⟨20, 0⟩, ⟨0, 0⟩⟩, ⟨2, ⟨40, 0⟩, ⟨0, 0⟩⟩,
            ⟨3, ⟨60, 0⟩, ⟨0, 0⟩⟩] := rfl
  have h3 : stdShuffle [1, 0, 3, 2] (List.take 4 [0, 1, 2, 3]) = some [1, 0, 3, 2] := by
    decide
  have h4 : ShuffleState.target exBoard
      [⟨0, ⟨0, 0⟩, ⟨0, 0⟩⟩, ⟨1, ⟨20, 0⟩, ⟨0, 0⟩⟩, ⟨2, ⟨40, 0⟩, ⟨0, 0⟩⟩, ⟨3, ⟨60, 0⟩, ⟨0, 0⟩⟩]
      ([1, 0, 3, 2] ++ List.drop 4 [0, 1, 2, 3]) =
      some [⟨0, ⟨0, 0⟩, ⟨20, 0⟩⟩, ⟨1, ⟨20, 0⟩, ⟨0, 0⟩⟩, ⟨2, ⟨40, 0⟩, ⟨60, 0⟩⟩,
            ⟨3, ⟨60, 0⟩, ⟨40, 0⟩⟩] := rfl
  have henter : ShuffleState.EnterState [0, 1, 2, 3] [1, 0, 3, 2]
      (exGlobals GameState.SHUFFLE 3 (-1) (-1)) MemoryGame.init.shuffle =
      some { fTotalTime := 0,
             sd := [⟨0, ⟨0, 0⟩, ⟨20, 0⟩⟩, ⟨1, ⟨20, 0⟩, ⟨0, 0⟩⟩, ⟨2, ⟨40, 0⟩, ⟨60, 0⟩⟩,
                    ⟨3, ⟨60, 0⟩, ⟨40, 0⟩⟩] } := by
    unfold ShuffleState.EnterState
    simp only [exGlobals, hfs, hcount, h1, h2, h3, h4]
    rw [if_neg (by decide), if_neg (by decide)]
  exact ShuffleState.shuffle_targets_perm [0, 1, 2, 3] [1, 0, 3, 2]
    (exGlobals GameState.SHUFFLE 3 (-1) (-1)) MemoryGame.init.shuffle _ henter

/-- The state object left by `MixupState::EnterState`. -/
theorem MixupState.mixup_enter_spec (g : Globals) (s0 s : MixupState)
    (h : MixupState.EnterState g s0 = some s) :
    s.fTotalTime = 0 ∧
    s.mixup_count = floorSqrt (g.round_number + max (-1) (g.turn_number - 5)) ∧
    0 ≤ g.round_number + max (-1) (g.turn_number - 5) ∧
    (0 < s.mixup_count → s.inner_state = MixupState.InnerState.PICK) ∧
    (s.mixup_count ≤ 0 → s.inner_state = MixupState.InnerState.SKIP) := by
  unfold MixupState.EnterState at h
  simp only at h
  by_cases harg : g.round_number + max (-1) (g.turn_number - 5) < 0
  · rw [if_pos harg] at h
    exact absurd h (by simp)
  · rw [if_neg harg] at h
    by_cases hc : floorSqrt (g.round_number + max (-1) (g.turn_number - 5)) > 0
    · rw [if_pos hc] at h
      simp only [Option.some.injEq] at h
      subst h
      exact ⟨rfl, rfl, not_lt.mp harg, fun _ => rfl, fun h0 => absurd hc (not_lt.mpr h0)⟩
    · rw [if_neg hc] at h
      simp only [Option.some.injEq] at h
      subst h
      exact ⟨rfl, rfl, not_lt.mp harg, fun h0 => absurd h0 hc, fun _ => rfl⟩

/-- Claim C12: when MIXUP is entered with a computed `mixup_count <= 0`, its first
update returns SELECT_FIRST and leaves the globals, hence every field of every card on
the board, and the state object unchanged. -/
theorem MixupState.skip_when_zero (m : Libm) (e : ℚ) (d1 : Nat) (ds : List Nat)
    (g : Globals) (s0 s : MixupState) (henter : MixupState.EnterState g s0 = some s)
    (hcount : s.mixup_count ≤ 0) :
    s.inner_state = MixupState.InnerState.SKIP ∧
    MixupState.OnUserUpdate m e d1 ds g s = some (g, s, GameState.SELECT_FIRST) := by
  obtain ⟨_, _, _, _, hskip⟩ := MixupState.mixup_enter_spec g s0 s henter
  have hs := hskip hcount
  refine ⟨hs, ?_⟩
  unfold MixupState.OnUserUpdate
  rw [hs]

theorem MixupState.skip_when_zero_witness :
    ({ MemoryGame.init.mixup with inner_state := MixupState.InnerState.SKIP } :
        MixupState).inner_state = MixupState.InnerState.SKIP ∧
    MixupState.OnUserUpdate exLibm (1 / 60) 0 [1] (exGlobals GameState.MIXUP 1 (-1) (-1))
        { MemoryGame.init.mixup with inner_state := MixupState.InnerState.SKIP } =
      some (exGlobals GameState.MIXUP 1 (-1) (-1),
        { MemoryGame.init.mixup with inner_state := MixupState.InnerState.SKIP },
        GameState.SELECT_FIRST) :=
  MixupState.skip_when_zero exLibm (1 / 60) 0 [1] (exGlobals GameState.MIXUP 1 (-1) (-1))
    MemoryGame.init.mixup _
    (by norm_num [MixupState.EnterState, exGlobals, MemoryGame.init, floorSqrt])
    (by decide)

theorem MixupState.Pick_state (d1 : Nat) (ds : List Nat) (g : Globals) (s s1 : MixupState)
    (h : MixupState.Pick d1 ds g s = some s1) :
    s1.mixup_count = s.mixup_count ∧ s1.fTotalTime = 0 := by
  unfold MixupState.Pick at h
  split_ifs at h
  split at h
  · exact absurd h (by simp)
  · split at h
    · simp only [Option.some.injEq] at h
      subst h
      exact ⟨rfl, rfl⟩
    · exact absurd h (by simp)

theorem MixupState.Animate_state (m : Libm) (e : ℚ) (g g1 : Globals) (s s1 : MixupState)
    (h : MixupState.Animate m e g s = some (g1, s1)) :
    s1.fTotalTime = s.fTotalTime + e * timeScale g.round_number ∧
    s1.mixup_count = (if s1.fTotalTime > 1 then s.mixup_count - 1 else s.mixup_count) ∧
    s1.inner_state = s.inner_state := by
  unfold MixupState.Animate at h
  simp only at h
  split at h
  · split at h
    · exact absurd h (by simp)
    · split at h
      · exact absurd h (by simp)
      · simp only [Option.some.injEq, Prod.mk.injEq] at h
        obtain ⟨_, hs⟩ := h
        subst hs
        exact ⟨rfl, rfl, rfl⟩
  · exact absurd h (by simp)

theorem MixupState.trace_nonempty (m : Libm) (inputs : List Input) (g g1 : Globals)
    (s s1 : MixupState) (tr : List MixupState) (next : GameState)
    (h : MixupState.trace m inputs (g, s) = some (tr, g1, s1, next))
    (hnext : next ≠ GameState.MIXUP) : tr ≠ [] := by
  cases inputs with
  | nil =>
    simp only [MixupState.trace, Option.some.injEq, Prod.mk.injEq] at h
    exact absurd h.2.2.2.symm hnext
  | cons inp rest =>
    simp only [MixupState.trace] at h
    split at h
    · exact absurd h (by simp)
    · split at h
      · exact absurd h (by simp)
      · simp only [Option.some.injEq, Prod.mk.injEq] at h
        rw [← h.1]
        simp
    · simp only [Option.some.injEq, Prod.mk.injEq] at h
      rw [← h.1]
      simp

/-- One frame of `MixupState::OnUserUpdate` in the PICK sub-state. -/
theorem MixupState.update_pick (m : Libm) (e : ℚ) (d1 : Nat) (ds : List Nat)
    (g g1 : Globals) (s s1 : MixupState) (next : GameState)
    (hs : s.inner_state = MixupState.InnerState.PICK)
    (h : MixupState.OnUserUpdate m e d1 ds g s = some (g1, s1, next)) :
    next = GameState.MIXUP ∧ g1 = g ∧ s1.inner_state = MixupState.InnerState.ANIMATE ∧
    s1.mixup_count = s.mixup_count ∧ s1.fTotalTime = 0 := by
  unfold MixupState.OnUserUpdate at h
  rw [hs] at h
  simp only at h
  split at h
  · exact absurd h (by simp)
  · rename_i sp hp
    obtain ⟨p1, p2⟩ := MixupState.Pick_state _ _ _ _ _ hp
    simp only [Option.some.injEq, Prod.mk.injEq] at h
    obtain ⟨hg, hs1, hn⟩ := h
    subst hg hs1 hn
    exact ⟨rfl, rfl, rfl, p1, p2⟩

/-- One frame of `MixupState::OnUserUpdate` in the ANIMATE sub-state. -/
theorem MixupState.update_animate (m : Libm) (e : ℚ) (d1 : Nat) (ds : List Nat)
    (g g1 : Globals) (s s1 : MixupState) (next : GameState)
    (hs : s.inner_state = MixupState.InnerState.ANIMATE)
    (h : MixupState.OnUserUpdate m e d1 ds g s = some (g1, s1, next)) :
    s1.fTotalTime = s.fTotalTime + e * timeScale g.round_number ∧
    s1.mixup_count = (if s1.fTotalTime > 1 then s.mixup_count - 1 else s.mixup_count) ∧
    (s1.mixup_count ≠ 0 → next = GameState.MIXUP ∧
      s1.inner_state = (if s1.fTotalTime > 1 then MixupState.InnerState.PICK
                        else MixupState.InnerState.ANIMATE)) ∧
    (s1.mixup_count = 0 → next = GameState.SELECT_FIRST) := by
  unfold MixupState.OnUserUpdate at h
  rw [hs] at h
  simp only at h
  split at h
  · exact absurd h (by simp)
  · rename_i ga sa ha
    obtain ⟨a1, a2, a3⟩ := MixupState.Animate_state _ _ _ _ _ _ ha
    rw [hs] at a3
    by_cases hc : sa.mixup_count ≠ 0
    · rw [if_pos hc] at h
      by_cases ht : sa.fTotalTime > 1
      · rw [if_pos ht] at h
        simp only [Option.some.injEq, Prod.mk.injEq] at h
        obtain ⟨_, hs1, hn⟩ := h
        subst hs1 hn
        exact ⟨a1, a2, fun _ => ⟨rfl, (if_pos ht).symm⟩, fun h0 => absurd h0 hc⟩
      · rw [if_neg ht] at h
        simp only [Option.some.injEq, Prod.mk.injEq] at h
        obtain ⟨_, hs1, hn⟩ := h
        subst hs1 hn
        exact ⟨a1, a2, fun _ => ⟨rfl, a3.trans (if_neg ht).symm⟩, fun h0 => absurd h0 hc⟩
    · rw [if_neg hc] at h
      simp only [Option.some.injEq, Prod.mk.injEq] at h
      obtain ⟨_, hs1, hn⟩ := h
      subst hs1 hn
      exact ⟨a1, a2, fun h0 => absurd h0 hc, fun _ => rfl⟩

/-- The invariant of a Mixup run: with `k` pairs picked so far out of `n`, a run that
ends by returning SELECT_FIRST has picked exactly `n` pairs, and its last frame is an
ANIMATE frame that starts at a time of at most 1.0 with one swap remaining and ends at
a time above 1.0 with none remaining. -/
theorem MixupState.trace_picks (m : Libm) (n : Int) (inputs : List Input) :
    ∀ (g g1 : Globals) (s s1 : MixupState) (tr : List MixupState) (k : Int),
      ((s.inner_state = MixupState.InnerState.PICK ∧ 0 < s.mixup_count ∧
          k + s.mixup_count = n) ∨
        (s.inner_state = MixupState.InnerState.ANIMATE ∧ 0 < s.mixup_count ∧
          k + s.mixup_count = n + 1 ∧ s.fTotalTime ≤ 1)) →
      MixupState.trace m inputs (g, s) = some (tr, g1, s1, GameState.SELECT_FIRST) →
      k + ((tr.filter (fun t => decide (t.inner_state = MixupState.InnerState.PICK))).length
        : Int) = n ∧
      s1.mixup_count = 0 ∧ 1 < s1.fTotalTime ∧
      ∃ sl, tr.getLast? = some sl ∧ sl.inner_state = MixupState.InnerState.ANIMATE ∧
        sl.fTotalTime ≤ 1 ∧ sl.mixup_count = 1 := by
  induction inputs with
  | nil =>
    intro g g1 s s1 tr k _ h
    simp [MixupState.trace] at h
  | cons inp rest ih =>
    intro g g1 s s1 tr k hinv h
    simp only [MixupState.trace] at h
    cases hu : MixupState.OnUserUpdate m inp.fElapsedTime inp.pickOne inp.pickTwo g s with
    | none =>
      rw [hu] at h
      exact absurd h (by simp)
    | some r =>
      obtain ⟨g2, s2, nx⟩ := r
      rw [hu] at h
      rcases hinv with ⟨hp, hc, hk⟩ | ⟨ha, hc, hk, ht⟩
      · -- a PICK frame: one more pair is picked
        obtain ⟨e1, _, e3, e4, e5⟩ := MixupState.update_pick _ _ _ _ _ _ _ _ _ hp hu
        subst e1
        simp only at h
        cases hr : MixupState.trace m rest (g2, s2) with
        | none =>
          rw [hr] at h
          exact absurd h (by simp)
        | some r2 =>
          obtain ⟨tr2, g3, s3, nx3⟩ := r2
          rw [hr] at h
          simp only [Option.some.injEq, Prod.mk.injEq] at h
          obtain ⟨htr, hg, hs, hn⟩ := h
          subst htr hg hs hn
          obtain ⟨b1, b2, b3, sl, b4, b5⟩ := ih g2 g3 s2 s3 tr2 (k + 1)
            (Or.inr ⟨e3, by omega, by omega, by rw [e5]; norm_num⟩) hr
          refine ⟨?_, b2, b3, sl, ?_, b5⟩
          · rw [List.filter_cons_of_pos (by simpa using hp), List.length_cons]
            push_cast
            omega
          · rw [List.getLast?_cons, b4]
            rfl
      · -- an ANIMATE frame
        obtain ⟨a1, a2, a3, a4⟩ := MixupState.update_animate _ _ _ _ _ _ _ _ _ ha hu
        by_cases h0 : s2.mixup_count = 0
        · have hnx := a4 h0
          subst hnx
          simp only [Option.some.injEq, Prod.mk.injEq] at h
          obtain ⟨htr, hg, hs, _⟩ := h
          subst htr hg hs
          have ht2 : s2.fTotalTime > 1 := by
            by_contra hcon
            rw [if_neg hcon] at a2
            omega
          rw [if_pos ht2] at a2
          refine ⟨?_, h0, ht2, s, rfl, ha, ht, by omega⟩
          rw [List.filter_cons_of_neg (by simp [ha])]
          simp only [List.filter_nil, List.length_nil, Nat.cast_zero]
          omega
        · obtain ⟨hnx, hin⟩ := a3 h0
          subst hnx
          simp only at h
          cases hr : MixupState.trace m rest (g2, s2) with
          | none =>
            rw [hr] at h
            exact absurd h (by simp)
          | some r2 =>
            obtain ⟨tr2, g3, s3, nx3⟩ := r2
            rw [hr] at h
            simp only [Option.some.injEq, Prod.mk.injEq] at h
            obtain ⟨htr, hg, hs, hn⟩ := h
            subst htr hg hs hn
            have hinv2 : (s2.inner_state = MixupState.InnerState.PICK ∧ 0 < s2.mixup_count ∧
                k + s2.mixup_count = n) ∨
              (s2.inner_state = MixupState.InnerState.ANIMATE ∧ 0 < s2.mixup_count ∧
                k + s2.mixup_count = n + 1 ∧ s2.fTotalTime ≤ 1) := by
              by_cases ht2 : s2.fTotalTime > 1
              · rw [if_pos ht2] at a2 hin
                exact Or.inl ⟨hin, by omega, by omega⟩
              · rw [if_neg ht2] at a2 hin
                exact Or.inr ⟨hin, by omega, by omega, not_lt.mp ht2⟩
            obtain ⟨b1, b2, b3, sl, b4, b5⟩ := ih g2 g3 s2 s3 tr2 k hinv2 hr
            refine ⟨?_, b2, b3, sl, ?_, b5⟩
            · rw [List.filter_cons_of_neg (by simp [ha])]
              exact b1
            · rw [List.getLast?_cons, b4]
              rfl

/-- The real cosine at any argument within `1e-7` of `3.1415926` (such as the float
`3.1415926f`) is within `2^-26` of -1, less than half the spacing of single-precision
numbers there: a correctly rounded single-precision cosine returns exactly -1. -/
theorem cos_near_piLit (x : ℝ) (hx : |x - 3.1415926| ≤ 1 / 10 ^ 7) :
    |Real.cos x + 1| < 1 / 2 ^ 26 := by
  have hpi1 := Real.pi_gt_d6
  have hpi2 := Real.pi_lt_d6
  obtain ⟨h1, h2⟩ := abs_le.mp hx
  have hcos : Real.cos x = - Real.cos (Real.pi - x) := by
    rw [Real.cos_pi_sub]; ring
  have hd : |Real.pi - x| ≤ 2 / 10 ^ 6 := by
    rw [abs_le]
    constructor <;> norm_num at h1 h2 ⊢ <;> linarith
  have hlow := Real.one_sub_sq_div_two_le_cos (x := Real.pi - x)
  have hup := Real.cos_le_one (Real.pi - x)
  have hsq : (Real.pi - x) ^ 2 ≤ (2 / 10 ^ 6) ^ 2 := by
    rw [← sq_abs]
    exact pow_le_pow_left₀ (abs_nonneg _) hd 2
  rw [hcos, abs_lt]
  constructor
  · norm_num at hsq ⊢
    linarith
  · norm_num at hsq ⊢
    linarith

/-- The card at position `n` after the card loop of `TurnEndState::OnUserUpdate`. -/
theorem TurnEndState.cardLoop_getElem? (g : Globals) (s : TurnEndState) (t : ℚ) (n : Nat) :
    (TurnEndState.cardLoop g s t)[n]? =
      (g.the_cards[n]?).map (fun c =>
        if (n : Int) ≠ g.first_card ∧ (n : Int) ≠ g.second_card then c
        else if s.did_match then c
        else if t > 5 / 10 then { c with faceUp := false } else c) := by
  unfold TurnEndState.cardLoop
  rw [forCards_getElem?]
  simp

/-- The card loop of a mismatch changes at most the `faceUp` flag of the two selected
cards. -/
theorem TurnEndState.cardLoop_mismatch (g0 g : Globals) (s : TurnEndState) (t : ℚ)
    (hinv : ∀ (n : Nat) (c : Card), g0.the_cards[n]? = some c →
      ∃ b, g.the_cards[n]? = some { c with faceUp := b } ∧
        ((n : Int) ≠ g.first_card → (n : Int) ≠ g.second_card → b = c.faceUp)) :
    ∀ (n : Nat) (c : Card), g0.the_cards[n]? = some c →
      ∃ b, (TurnEndState.cardLoop g s t)[n]? = some { c with faceUp := b } ∧
        ((n : Int) ≠ g.first_card → (n : Int) ≠ g.second_card → b = c.faceUp) ∧
        (s.did_match = false → t > 5 / 10 →
          ((n : Int) = g.first_card ∨ (n : Int) = g.second_card) → b = false) := by
  intro n c hc
  obtain ⟨b, hb, hbo⟩ := hinv n c hc
  rw [TurnEndState.cardLoop_getElem?, hb]
  simp only [Option.map_some']
  by_cases hsel : (n : Int) ≠ g.first_card ∧ (n : Int) ≠ g.second_card
  · rw [if_pos hsel]
    exact ⟨b, rfl, hbo, fun _ _ h => by rcases h with h | h <;> simp [h] at hsel⟩
  · rw [if_neg hsel]
    by_cases hm : s.did_match = true
    · rw [if_pos hm]
      exact ⟨b, rfl, hbo, fun h => by rw [h] at hm; exact absurd hm (by decide)⟩
    · rw [if_neg hm]
      by_cases ht : t > 5 / 10
      · rw [if_pos ht]
        exact ⟨false, rfl, fun h1 h2 => absurd ⟨h1, h2⟩ hsel, fun _ _ _ => rfl⟩
      · rw [if_neg ht]
        exact ⟨b, rfl, hbo, fun _ h => absurd h ht⟩

/-- Ticks that stay in `TURN_END` change at most the `faceUp` flag of the two selected
cards. -/
theorem TurnEndState.stay_cards (es : List ℚ) (g0 g g1 : Globals) (s s1 : TurnEndState)
    (h : TurnEndState.stay es (g, s) = some (g1, s1))
    (hinv : ∀ (n : Nat) (c : Card), g0.the_cards[n]? = some c →
      ∃ b, g.the_cards[n]? = some { c with faceUp := b } ∧
        ((n : Int) ≠ g.first_card → (n : Int) ≠ g.second_card → b = c.faceUp)) :
    ∀ (n : Nat) (c : Card), g0.the_cards[n]? = some c →
      ∃ b, g1.the_cards[n]? = some { c with faceUp := b } ∧
        ((n : Int) ≠ g1.first_card → (n : Int) ≠ g1.second_card → b = c.faceUp) := by
  induction es generalizing g s with
  | nil =>
    simp only [TurnEndState.stay, Option.some.injEq, Prod.mk.injEq] at h
    obtain ⟨hg, _⟩ := h
    subst hg
    exact hinv
  | cons e es ih =>
    simp only [TurnEndState.stay] at h
    split at h
    · rename_i g2 s2 heq
      apply ih g2 s2 h
      have hloop := TurnEndState.cardLoop_mismatch g0 g s (s.fTotalTime + e * (12 / 10)) hinv
      obtain ⟨f1, f2, _, _, _⟩ := TurnEndState.turn_end_frame e g g2 s s2 _ heq
      have hcards : g2.the_cards = TurnEndState.cardLoop g s (s.fTotalTime + e * (12 / 10)) := by
        unfold TurnEndState.OnUserUpdate at heq
        simp only at heq
        by_cases ht : s.fTotalTime + e * (12 / 10) > 1
        · rw [if_pos ht] at heq
          by_cases hm : s.did_match = true
          · rw [if_pos hm] at heq
            split at heq
            · exact absurd heq (by simp)
            · split at heq
              · exact absurd heq (by simp)
              · simp only [Option.some.injEq, Prod.mk.injEq] at heq
                exact absurd heq.2.2 (TurnEndState.nextAfterResolve_ne _)
          · rw [if_neg hm] at heq
            simp only [Option.some.injEq, Prod.mk.injEq] at heq
            exact absurd heq.2.2 (TurnEndState.nextAfterResolve_ne _)
        · rw [if_neg ht] at heq
          simp only [Option.some.injEq, Prod.mk.injEq] at heq
          rw [← heq.1]
      intro n c hc
      obtain ⟨b, hb, hbo, _⟩ := hloop n c hc
      rw [hcards, f1, f2]
      exact ⟨b, hb, hbo⟩
    · exact absurd h (by simp)

/-- Claim C16: for distinct valid selection indices whose cards have different front
colours, when TURN_END resolves (accumulated time > 1.0, after any ticks that stayed in
TURN_END) both selected cards are face-down, and every other card's `faceUp` flag and
every other field of every card (position, size, front colour, ...) are as on TURN_END
entry. -/
theorem TurnEndState.resolve_mismatch_cards (g g1 : Globals) (s0 s s1 : TurnEndState)
    (i j : Nat) (c1 c2 : Card) (es : List ℚ) (e : ℚ)
    (hfirst : g.first_card = i) (hsecond : g.second_card = j) (_hij : i ≠ j)
    (hc1 : g.the_cards[i]? = some c1) (hc2 : g.the_cards[j]? = some c2)
    (hcol : c1.colorFront ≠ c2.colorFront)
    (henter : TurnEndState.EnterState g s0 = some s)
    (hstay : TurnEndState.stay es (g, s) = some (g1, s1))
    (hres : s1.fTotalTime + e * (12 / 10) > 1) :
    ∃ g2 s2 next, TurnEndState.OnUserUpdate e g1 s1 = some (g2, s2, next) ∧
      g2.the_cards.length = g.the_cards.length ∧
      ∀ (n : Nat) (c : Card), g.the_cards[n]? = some c →
        g2.the_cards[n]? =
          some { c with faceUp := if n = i ∨ n = j then false else c.faceUp } := by
  have hdm : s.did_match = false := by
    unfold TurnEndState.EnterState at henter
    rw [hfirst, hsecond, cardAt_natCast, cardAt_natCast, hc1, hc2] at henter
    simp only [Option.some.injEq] at henter
    rw [← henter]
    simpa using hcol
  obtain ⟨a1, a2, _, _, a5, a6, _⟩ := TurnEndState.stay_inv es g g1 s s1 hstay
  have hdm1 : s1.did_match = false := a5.trans hdm
  have hinv := TurnEndState.stay_cards es g g g1 s s1 hstay
    (fun n c hc => ⟨c.faceUp, hc, fun _ _ => rfl⟩)
  have hloop := TurnEndState.cardLoop_mismatch g g1 s1 (s1.fTotalTime + e * (12 / 10)) hinv
  have hlen : (TurnEndState.cardLoop g1 s1 (s1.fTotalTime + e * (12 / 10))).length =
      g.the_cards.length := by
    rw [TurnEndState.cardLoop_length]
    have := congrArg List.length a6
    simpa using this
  unfold TurnEndState.OnUserUpdate
  simp only
  rw [if_pos hres, if_neg (by rw [hdm1]; decide)]
  refine ⟨_, _, _, rfl, hlen, ?_⟩
  intro n c hc
  obtain ⟨b, hb, hbo, hbs⟩ := hloop n c hc
  simp only
  rw [hb, a1, a2, hfirst, hsecond] at *
  by_cases hsel : n = i ∨ n = j
  · rw [if_pos hsel]
    have : b = false := hbs hdm1 (by linarith) (by
      rcases hsel with h | h
      · exact Or.inl (by exact_mod_cast h)
      · exact Or.inr (by exact_mod_cast h))
    rw [this]
  · rw [if_neg hsel]
    push_neg at hsel
    rw [hbo (by exact_mod_cast hsel.1) (by exact_mod_cast hsel.2)]

theorem TurnEndState.resolve_mismatch_cards_witness :
    ∃ g2 s2 next,
      TurnEndState.OnUserUpdate 1 (exGlobals GameState.TURN_END 1 0 1)
        { did_match := false, fTotalTime := 3 / 10 } = some (g2, s2, next) ∧
      g2.the_cards.length = (exGlobals GameState.TURN_END 1 0 1).the_cards.length ∧
      ∀ (n : Nat) (c : Card), (exGlobals GameState.TURN_END 1 0 1).the_cards[n]? = some c →
        g2.the_cards[n]? =
          some { c with faceUp := if n = 0 ∨ n = 1 then false else c.faceUp } :=
  TurnEndState.resolve_mismatch_cards (exGlobals GameState.TURN_END 1 0 1)
    (exGlobals GameState.TURN_END 1 0 1) { did_match := true, fTotalTime := 3 }
    { did_match := false, fTotalTime := 0 } { did_match := false, fTotalTime := 3 / 10 }
    0 1 (exCard olc.GREY 0) (exCard olc.GREEN 20) [1 / 4] 1 rfl rfl (by decide) rfl rfl
    (by decide)
    (by simp [TurnEndState.EnterState, exGlobals, exBoard, cardAt, exCard, olc.GREY,
      olc.GREEN])
    (by
      simp [TurnEndState.stay, TurnEndState.OnUserUpdate, TurnEndState.cardLoop, exGlobals,
        exBoard, forCards]
      norm_num)
    (by norm_num)

/-- One tick of `AnimateFirstState::OnUserUpdate`: the time advances by 1.2 times the
elapsed time, the returned state is decided by the threshold 1.0, and at most the
`faceUp` flag of the selected card changes (to true once the time exceeds 0.5). -/
theorem AnimateFirstState.tick_spec (e : ℚ) (g0 g : Globals) (s : AnimateFirstState)
    (hinv : ∀ (n : Nat) (c : Card), g0.the_cards[n]? = some c →
      ∃ b, g.the_cards[n]? = some { c with faceUp := b } ∧
        ((n : Int) ≠ g.first_card → b = c.faceUp)) :
    (AnimateFirstState.OnUserUpdate e g s).2.1.fTotalTime = s.fTotalTime + e * (12 / 10) ∧
    (AnimateFirstState.OnUserUpdate e g s).2.2 =
      (if s.fTotalTime + e * (12 / 10) > 1 then GameState.SELECT_SECOND
       else GameState.ANIMATE_FIRST) ∧
    (AnimateFirstState.OnUserUpdate e g s).1 =
      { g with the_cards := (AnimateFirstState.OnUserUpdate e g s).1.the_cards } ∧
    (AnimateFirstState.OnUserUpdate e g s).1.the_cards.length = g.the_cards.length ∧
    ∀ (n : Nat) (c : Card), g0.the_cards[n]? = some c →
      ∃ b, (AnimateFirstState.OnUserUpdate e g s).1.the_cards[n]? =
          some { c with faceUp := b } ∧
        ((n : Int) ≠ g.first_card → b = c.faceUp) ∧
        (s.fTotalTime + e * (12 / 10) > 5 / 10 → (n : Int) = g.first_card → b = true) := by
  refine ⟨rfl, rfl, rfl, forCards_length _ _ _, ?_⟩
  unfold AnimateFirstState.OnUserUpdate
  simp only
  intro n c hc
  obtain ⟨b, hb, hbo⟩ := hinv n c hc
  rw [forCards_getElem?, hb]
  simp only [Nat.zero_add, Option.map_some']
  by_cases hsel : (n : Int) ≠ g.first_card
  · rw [if_pos hsel]
    exact ⟨b, rfl, hbo, fun _ h => absurd h hsel⟩
  · rw [if_neg hsel]
    by_cases ht : s.fTotalTime + e * (12 / 10) > 5 / 10
    · rw [if_pos ht]
      exact ⟨true, rfl, fun h => absurd h hsel, fun _ _ => rfl⟩
    · rw [if_neg ht]
      exact ⟨b, rfl, hbo, fun h => absurd h ht⟩

/-- Ticks that stay in `ANIMATE_FIRST`: the accumulated time is 1.2 times the elapsed
time, it is at most 1.0 after a tick that stayed, and only the `faceUp` flag of the
selected card may have changed. -/
theorem AnimateFirstState.stay_spec (es : List ℚ) (g0 g g1 : Globals)
    (s s1 : AnimateFirstState)
    (h : AnimateFirstState.stay es (g, s) = some (g1, s1))
    (hT : s.fTotalTime ≤ 1)
    (hinv : ∀ (n : Nat) (c : Card), g0.the_cards[n]? = some c →
      ∃ b, g.the_cards[n]? = some { c with faceUp := b } ∧
        ((n : Int) ≠ g.first_card → b = c.faceUp)) :
    s1.fTotalTime = s.fTotalTime + es.sum * (12 / 10) ∧ s1.fTotalTime ≤ 1 ∧
    g1 = { g with the_cards := g1.the_cards } ∧
    g1.the_cards.length = g.the_cards.length ∧
    ∀ (n : Nat) (c : Card), g0.the_cards[n]? = some c →
      ∃ b, g1.the_cards[n]? = some { c with faceUp := b } ∧
        ((n : Int) ≠ g1.first_card → b = c.faceUp) := by
  induction es generalizing g s with
  | nil =>
    simp only [AnimateFirstState.stay, Option.some.injEq, Prod.mk.injEq] at h
    obtain ⟨hg, hs⟩ := h
    subst hg hs
    exact ⟨by simp, hT, rfl, rfl, hinv⟩
  | cons e es ih =>
    obtain ⟨t1, t2, t3, t4, t5⟩ := AnimateFirstState.tick_spec e g0 g s hinv
    simp only [AnimateFirstState.stay] at h
    split at h
    · rename_i g2 s2 heq
      rw [heq] at t1 t2 t3 t4 t5
      simp only at t1 t2 t3 t4 t5
      have hT2 : s2.fTotalTime ≤ 1 := by
        by_contra hcon
        rw [t1] at hcon
        rw [if_pos (not_le.mp hcon)] at t2
        exact absurd t2 (by decide)
      have hfc : g2.first_card = g.first_card := by rw [t3]
      obtain ⟨a1, a2, a3, a4, a5⟩ := ih g2 s2 h hT2 (by
        intro n c hc
        obtain ⟨b, hb, hbo, _⟩ := t5 n c hc
        exact ⟨b, hb, by rw [hfc]; exact hbo⟩)
      refine ⟨?_, a2, ?_, a4.trans t4, a5⟩
      · rw [a1, t1, List.sum_cons]; ring
      · rw [a3, t3]
    · exact absurd h (by simp)

/-- Ticks with positive elapsed time whose accumulated scaled time stays at most 1.0
all return `ANIMATE_FIRST`. -/
theorem AnimateFirstState.stay_some (es : List ℚ) (g : Globals) (s : AnimateFirstState)
    (hpos : ∀ x ∈ es, 0 < x) (hle : s.fTotalTime + es.sum * (12 / 10) ≤ 1) :
    ∃ g1 s1, AnimateFirstState.stay es (g, s) = some (g1, s1) := by
  induction es generalizing g s with
  | nil => exact ⟨g, s, rfl⟩
  | cons e es ih =>
    have hs : 0 ≤ es.sum :=
      List.sum_nonneg (fun x hx => le_of_lt (hpos x (List.mem_cons_of_mem _ hx)))
    rw [List.sum_cons] at hle
    have hnot : ¬ (s.fTotalTime + e * (12 / 10) > 1) := by
      intro hcon
      nlinarith
    have hnext : AnimateFirstState.OnUserUpdate e g s =
        ((AnimateFirstState.OnUserUpdate e g s).1, (AnimateFirstState.OnUserUpdate e g s).2.1,
          GameState.ANIMATE_FIRST) := by
      unfold AnimateFirstState.OnUserUpdate
      simp only
      rw [if_neg hnot]
    simp only [AnimateFirstState.stay]
    rw [hnext]
    simp only
    apply ih
    · intro x hx
      exact hpos x (List.mem_cons_of_mem _ hx)
    · show s.fTotalTime + e * (12 / 10) + es.sum * (12 / 10) ≤ 1
      linarith

/-- C17: after `EnterState`, ticks with positive elapsed times `es` whose scaled sum
is at most 1.0 all return `ANIMATE_FIRST` and leave the accumulated time at
1.2 times their sum; the next tick `e`, the first to bring the scaled sum above 1.0,
returns `SELECT_SECOND` with the accumulated time 1.2 times the whole sum. At that
transition no global other than the board has changed, the board has its length, and
every card is the card of the entry board with `faceUp` set to true on the selected
card and every other field of every card as it was. -/
theorem AnimateFirstState.flip_first (g : Globals) (s0 : AnimateFirstState) (i : Nat)
    (c : Card) (es : List ℚ) (e : ℚ)
    (hfirst : g.first_card = (i : Int)) (_hc : g.the_cards[i]? = some c)
    (hpos : ∀ x ∈ es, 0 < x)
    (hle : es.sum * (12 / 10) ≤ 1) (hgt : 1 < (es.sum + e) * (12 / 10)) :
    ∃ g1 s1 g2 s2,
      AnimateFirstState.stay es (g, AnimateFirstState.EnterState s0) = some (g1, s1) ∧
      s1.fTotalTime = es.sum * (12 / 10) ∧
      AnimateFirstState.OnUserUpdate e g1 s1 = (g2, s2, GameState.SELECT_SECOND) ∧
      s2.fTotalTime = (es.sum + e) * (12 / 10) ∧
      g2 = { g with the_cards := g2.the_cards } ∧
      g2.the_cards.length = g.the_cards.length ∧
      ∀ (n : Nat) (d : Card), g.the_cards[n]? = some d →
        g2.the_cards[n]? = some { d with faceUp := if n = i then true else d.faceUp } := by
  have hT0 : (AnimateFirstState.EnterState s0).fTotalTime = 0 := rfl
  obtain ⟨g1, s1, hstay⟩ := AnimateFirstState.stay_some es g (AnimateFirstState.EnterState s0)
    hpos (by rw [hT0]; linarith)
  obtain ⟨a1, _, a3, a4, a5⟩ := AnimateFirstState.stay_spec es g g g1
    (AnimateFirstState.EnterState s0) s1 hstay
    (by rw [hT0]; norm_num) (by
      intro n d hd
      exact ⟨d.faceUp, hd, fun _ => rfl⟩)
  rw [hT0, zero_add] at a1
  obtain ⟨t1, t2, t3, t4, t5⟩ := AnimateFirstState.tick_spec e g g1 s1 a5
  have hfc : g1.first_card = (i : Int) := by rw [a3]; exact hfirst
  have hT : s1.fTotalTime + e * (12 / 10) = (es.sum + e) * (12 / 10) := by rw [a1]; ring
  have hbig : s1.fTotalTime + e * (12 / 10) > 1 := by rw [hT]; exact hgt
  rw [if_pos hbig] at t2
  refine ⟨g1, s1, (AnimateFirstState.OnUserUpdate e g1 s1).1,
    (AnimateFirstState.OnUserUpdate e g1 s1).2.1, hstay, a1, ?_, t1.trans hT, ?_,
    t4.trans a4, ?_⟩
  · rw [← t2]
  · rw [t3, a3]
  · intro n d hd
    obtain ⟨b, hb, hb1, hb2⟩ := t5 n d hd
    rw [hb]
    by_cases hn : n = i
    · rw [if_pos hn]
      rw [hb2 (by linarith) (by rw [hfc, hn])]
    · rw [if_neg hn]
      rw [hb1 (by rw [hfc]; exact fun h => hn (Int.ofNat.inj h))]

/-- At the four-card face-down board with card 0 selected, a tick of 1/2 stays in
`ANIMATE_FIRST` and the next tick of 1/2 leaves it. -/
theorem AnimateFirstState.flip_first_witness :
    ∃ g1 s1 g2 s2,
      AnimateFirstState.stay [1 / 2]
        (exHidden GameState.ANIMATE_FIRST 1 0 (-1),
          AnimateFirstState.EnterState { fTotalTime := 7 }) = some (g1, s1) ∧
      s1.fTotalTime = ([1 / 2] : List ℚ).sum * (12 / 10) ∧
      AnimateFirstState.OnUserUpdate (1 / 2) g1 s1 = (g2, s2, GameState.SELECT_SECOND) ∧
      s2.fTotalTime = (([1 / 2] : List ℚ).sum + 1 / 2) * (12 / 10) ∧
      g2 = { exHidden GameState.ANIMATE_FIRST 1 0 (-1) with the_cards := g2.the_cards } ∧
      g2.the_cards.length = (exHidden GameState.ANIMATE_FIRST 1 0 (-1)).the_cards.length ∧
      ∀ (n : Nat) (d : Card),
        (exHidden GameState.ANIMATE_FIRST 1 0 (-1)).the_cards[n]? = some d →
        g2.the_cards[n]? = some { d with faceUp := if n = 0 then true else d.faceUp } :=
  AnimateFirstState.flip_first (exHidden GameState.ANIMATE_FIRST 1 0 (-1))
    { fTotalTime := 7 } 0 { exCard olc.GREY 0 with faceUp := false } [1 / 2] (1 / 2)
    rfl rfl (by
      intro x hx
      rw [List.mem_singleton] at hx
      rw [hx]
      norm_num) (by norm_num) (by norm_num)

/-- The `card_size` that `RoundStartState::EnterState` stores in its exact-arithmetic
model: the size chosen from the two bounds for the screen, the field of the round and
the gap of the round. -/
theorem RoundStartState.layout_card_size (m : Libm) (rand : Nat → ℚ) (σ : List Nat)
    (g g1 : Globals) (s s1 : RoundStartState)
    (h : RoundStartState.EnterState m rand σ g s = some (g1, s1)) :
    s1.card_size =
      (if (ScreenHeight - ((g1.field_height : ℚ) + 1) *
              (8 - min 7 (m.sqrtf g1.round_number - 1))) / g1.field_height *
            ((25 / 10) / (35 / 10)) ≤
          (ScreenWidth - ((g1.field_width : ℚ) + 1) *
              (8 - min 7 (m.sqrtf g1.round_number - 1))) / g1.field_width then
        ⟨(ScreenHeight - ((g1.field_height : ℚ) + 1) *
              (8 - min 7 (m.sqrtf g1.round_number - 1))) / g1.field_height *
            ((25 / 10) / (35 / 10)),
         (ScreenHeight - ((g1.field_height : ℚ) + 1) *
              (8 - min 7 (m.sqrtf g1.round_number - 1))) / g1.field_height⟩
      else
        ⟨(ScreenWidth - ((g1.field_width : ℚ) + 1) *
              (8 - min 7 (m.sqrtf g1.round_number - 1))) / g1.field_width,
         (ScreenWidth - ((g1.field_width : ℚ) + 1) *
              (8 - min 7 (m.sqrtf g1.round_number - 1))) / g1.field_width /
            ((25 / 10) / (35 / 10))⟩) := by
  unfold RoundStartState.EnterState at h
  simp only at h
  by_cases hneg : (7 + (g.round_number + 1)) * 2 < 0
  · rw [if_pos hneg] at h
    exact absurd h (by simp)
  · rw [if_neg hneg] at h
    split at h
    · exact absurd h (by simp)
    · split at h
      · exact absurd h (by simp)
      · simp only [Option.some.injEq, Prod.mk.injEq] at h
        obtain ⟨hg, hs⟩ := h
        subst hg hs
        rfl

/-- The index `x * H + y` determines the column `x` and the row `y < H`. -/
theorem slot_inj (H x y x1 y1 : Nat) (hy : y < H) (hy1 : y1 < H)
    (h : x * H + y = x1 * H + y1) : x = x1 ∧ y = y1 := by
  rcases lt_trichotomy x x1 with hlt | heq | hgt
  · have := Nat.mul_le_mul_right H (Nat.succ_le_of_lt hlt)
    rw [Nat.succ_mul] at this
    omega
  · subst heq
    exact ⟨rfl, by omega⟩
  · have := Nat.mul_le_mul_right H (Nat.succ_le_of_lt hgt)
    rw [Nat.succ_mul] at this
    omega

/-- After the inner loop over the rows `ys` of column `x`, the card of each slot
`(x, y)` with `y` in `ys` has the position of that slot, and every other card is as it
was. -/
theorem RoundStartState.placeColumn_pos (card_size gap : Vf2d) (H x : Nat)
    (ys : List Nat) (cs cs1 : List Card)
    (h : RoundStartState.placeColumn card_size gap (H : Int) x ys cs = some cs1) :
    (∀ y ∈ ys, ∃ c, cs1[x * H + y]? = some c ∧
      c.pos = RoundStartState.slotPos card_size gap x y) ∧
    ∀ n : Nat, (∀ y ∈ ys, n ≠ x * H + y) → cs1[n]? = cs[n]? := by
  induction ys generalizing cs with
  | nil =>
    simp only [RoundStartState.placeColumn, Option.some.injEq] at h
    subst h
    exact ⟨fun y hy => absurd hy (List.not_mem_nil _), fun _ _ => rfl⟩
  | cons y ys ih =>
    simp only [RoundStartState.placeColumn] at h
    split at h
    · exact absurd h (by simp)
    · rename_i cs2 h2
      have hcast : (x : Int) * (H : Int) + (y : Int) = ((x * H + y : Nat) : Int) := by
        push_cast; ring
      rw [hcast] at h2
      obtain ⟨⟨c, hc, hcp⟩, hoth⟩ := setPos_spec _ _ _ _ h2
      rw [cardAt_natCast] at hc
      obtain ⟨b1, b2⟩ := ih cs2 h
      constructor
      · intro y1 hy1
        by_cases hmem : y1 ∈ ys
        · exact b1 y1 hmem
        · have hy : y1 = y := by
            rcases List.mem_cons.mp hy1 with h0 | h0
            · exact h0
            · exact absurd h0 hmem
          subst hy
          refine ⟨c, ?_, hcp⟩
          rw [b2 (x * H + y1) (fun y2 hy2 heq => hmem (by
            have : y1 = y2 := by omega
            rw [this]; exact hy2))]
          exact hc
      · intro n hn
        rw [b2 n (fun y1 hy1 => hn y1 (List.mem_cons_of_mem _ hy1))]
        have hne : (n : Int) ≠ ((x * H + y : Nat) : Int) := by
          have := hn y (List.mem_cons_self _ _)
          exact_mod_cast this
        have := hoth (n : Int) hne
        rw [cardAt_natCast, cardAt_natCast] at this
        exact this

/-- After the outer loop over the columns `xs`, the card of each slot `(x, y)` with `x`
in `xs` and `y < H` has the position of that slot, and every other card is as it
was. -/
theorem RoundStartState.placeAll_pos (card_size gap : Vf2d) (H : Nat)
    (xs : List Nat) (cs cs1 : List Card)
    (h : RoundStartState.placeAll card_size gap (H : Int) xs cs = some cs1) :
    (∀ x ∈ xs, ∀ y < H, ∃ c, cs1[x * H + y]? = some c ∧
      c.pos = RoundStartState.slotPos card_size gap x y) ∧
    ∀ n : Nat, (∀ x ∈ xs, ∀ y < H, n ≠ x * H + y) → cs1[n]? = cs[n]? := by
  induction xs generalizing cs with
  | nil =>
    simp only [RoundStartState.placeAll, Option.some.injEq] at h
    subst h
    exact ⟨fun x hx => absurd hx (List.not_mem_nil _), fun _ _ => rfl⟩
  | cons x xs ih =>
    simp only [RoundStartState.placeAll] at h
    split at h
    · exact absurd h (by simp)
    · rename_i cs2 h2
      rw [Int.toNat_ofNat] at h2
      obtain ⟨a1, a2⟩ := RoundStartState.placeColumn_pos _ _ _ _ _ _ _ h2
      obtain ⟨b1, b2⟩ := ih cs2 h
      constructor
      · intro x1 hx1 y hy
        by_cases hmem : x1 ∈ xs
        · exact b1 x1 hmem y hy
        · have hx : x1 = x := by
            rcases List.mem_cons.mp hx1 with h0 | h0
            · exact h0
            · exact absurd h0 hmem
          subst hx
          obtain ⟨c, hc, hcp⟩ := a1 y (List.mem_range.mpr hy)
          refine ⟨c, ?_, hcp⟩
          rw [b2 (x1 * H + y) (fun x2 hx2 y2 hy2 heq => hmem (by
            rw [(slot_inj H x1 y x2 y2 hy hy2 heq).1]; exact hx2))]
          exact hc
      · intro n hn
        rw [b2 n (fun x1 hx1 => hn x1 (List.mem_cons_of_mem _ hx1))]
        exact a2 n (fun y hy => hn x (List.mem_cons_self _ _) y (List.mem_range.mp hy))

/-- The board that `RoundStartState::EnterState` leaves is the result of the
position-assignment loop on a board of the same length. -/
theorem RoundStartState.layout_placed (m : Libm) (rand : Nat → ℚ) (σ : List Nat)
    (g g1 : Globals) (s s1 : RoundStartState)
    (h : RoundStartState.EnterState m rand σ g s = some (g1, s1)) :
    ∃ shuffled, RoundStartState.placeAll s1.card_size (RoundStartState.gapOf s1)
      g1.field_height (List.range g1.field_width.toNat) shuffled = some g1.the_cards := by
  unfold RoundStartState.EnterState at h
  simp only at h
  by_cases hneg : (7 + (g.round_number + 1)) * 2 < 0
  · rw [if_pos hneg] at h
    exact absurd h (by simp)
  · rw [if_neg hneg] at h
    split at h
    · exact absurd h (by simp)
    · rename_i shuffled hsh
      split at h
      · exact absurd h (by simp)
      · rename_i placed hpl
        simp only [Option.some.injEq, Prod.mk.injEq] at h
        obtain ⟨hg, hs⟩ := h
        subst hg hs
        exact ⟨shuffled, hpl⟩

/-- C19: for every round `r ≥ 1` (the value of `round_number` after the increment) and
every permutation the shuffle can produce, `RoundStartState::EnterState` has a result,
so no write of the position loop is out of range. The grid `W × H` has an even number
of slots, the number of cards generated `2 * ((W * H) / 2)` is `W * H`, every index
`x * H + y` with `x < W`, `y < H` is below the number of cards, every card index is
`x * H + y` for exactly one such `(x, y)`, and the card at `x * H + y` holds the
position computed for slot `(x, y)`. -/
theorem RoundStartState.positions_assigned (m : Libm) (rand : Nat → ℚ) (σ : List Nat)
    (g : Globals) (s : RoundStartState) (hr : 1 ≤ g.round_number + 1)
    (hσ : σ.Perm (List.range (2 * (Int.tdiv (ceilSqrt ((7 + (g.round_number + 1)) * 2) *
      floorSqrt ((7 + (g.round_number + 1)) * 2)) 2).toNat))) :
    ∃ (g1 : Globals) (s1 : RoundStartState) (W H : Nat),
      RoundStartState.EnterState m rand σ g s = some (g1, s1) ∧
      g1.field_width = (W : Int) ∧ g1.field_height = (H : Int) ∧
      Even (g1.field_width * g1.field_height) ∧
      2 * Int.tdiv (g1.field_width * g1.field_height) 2 =
        g1.field_width * g1.field_height ∧
      (g1.the_cards.length : Int) = g1.field_width * g1.field_height ∧
      (∀ x y : Nat, x < W → y < H → x * H + y < g1.the_cards.length) ∧
      (∀ n : Nat, n < g1.the_cards.length →
        ∃ x y : Nat, x < W ∧ y < H ∧ x * H + y = n ∧
          ∀ x1 y1 : Nat, x1 < W → y1 < H → x1 * H + y1 = n → x1 = x ∧ y1 = y) ∧
      (∀ x y : Nat, x < W → y < H →
        ∃ c, g1.the_cards[x * H + y]? = some c ∧
          c.pos = RoundStartState.slotPos s1.card_size (RoundStartState.gapOf s1) x y) := by
  obtain ⟨g1, s1, h⟩ := RoundStartState.layout_some m rand σ g s hr hσ
  obtain ⟨_, _, a3, a4, _, _, _, _, a9, _⟩ :=
    RoundStartState.layout_spec m rand σ g g1 s s1 h
  obtain ⟨N, hN⟩ : ∃ N : Nat, (7 + (g.round_number + 1)) * 2 = ((2 * N : Nat) : Int) :=
    ⟨(7 + (g.round_number + 1)).toNat, by
      have : 0 ≤ 7 + (g.round_number + 1) := by omega
      push_cast
      rw [Int.toNat_of_nonneg this]; ring⟩
  obtain ⟨W, p, hw, _, hwp, hdiv⟩ := ceilSqrt_mul_floorSqrt_even (2 * N) ⟨N, by ring⟩
  have hH4 : 4 ≤ floorSqrt ((2 * N : Nat) : Int) :=
    floorSqrt_ge_four _ (by rw [← hN]; omega)
  rw [hN] at a3 a4
  have hk : floorSqrt ((2 * N : Nat) : Int) = ((Nat.sqrt (2 * N) : Nat) : Int) :=
    floorSqrt_natCast _
  rw [hw] at a3
  rw [hk] at a4 hH4
  have hHpos : 0 < Nat.sqrt (2 * N) := by omega
  have hprod : g1.field_width * g1.field_height = ((2 * p : Nat) : Int) := by
    rw [a3, a4, ← hwp]; push_cast; ring
  have htd : Int.tdiv (g1.field_width * g1.field_height) 2 = (p : Int) := by
    rw [a3, a4, ← hw, ← hk]; exact hdiv
  have hlen : g1.the_cards.length = W * Nat.sqrt (2 * N) := by
    rw [a9, htd, Int.toNat_ofNat, hwp]
  obtain ⟨shuffled, hpl⟩ := RoundStartState.layout_placed m rand σ g g1 s s1 h
  rw [a3, a4, Int.toNat_ofNat] at hpl
  obtain ⟨c1, _⟩ := RoundStartState.placeAll_pos _ _ _ _ _ _ hpl
  have hbound : ∀ x y : Nat, x < W → y < Nat.sqrt (2 * N) →
      x * Nat.sqrt (2 * N) + y < W * Nat.sqrt (2 * N) := by
    intro x y hx hy
    have := Nat.mul_le_mul_right (Nat.sqrt (2 * N)) (Nat.succ_le_of_lt hx)
    rw [Nat.succ_mul] at this
    omega
  refine ⟨g1, s1, W, Nat.sqrt (2 * N), h, a3, a4, ?_, ?_, ?_, ?_, ?_, ?_⟩
  · rw [hprod]
    exact ⟨(p : Int), by push_cast; ring⟩
  · rw [htd, hprod]; push_cast; ring
  · rw [hlen, a3, a4]; push_cast; ring
  · intro x y hx hy
    rw [hlen]
    exact hbound x y hx hy
  · intro n hn
    rw [hlen] at hn
    refine ⟨n / Nat.sqrt (2 * N), n % Nat.sqrt (2 * N), ?_, Nat.mod_lt _ hHpos,
      Nat.div_add_mod' n _, ?_⟩
    · exact Nat.div_lt_of_lt_mul (by rw [Nat.mul_comm]; exact hn)
    · intro x1 y1 _ hy1 heq
      exact slot_inj _ x1 y1 _ _ hy1 (Nat.mod_lt _ hHpos)
        (heq.trans (Nat.div_add_mod' n _).symm)
  · intro x y hx hy
    exact c1 x (List.mem_range.mpr hx) y hy

/-- Round 1 from the initial globals, with the identity as the outcome of the
shuffle. -/
theorem RoundStartState.positions_assigned_witness :
    ∃ (g1 : Globals) (s1 : RoundStartState) (W H : Nat),
      RoundStartState.EnterState exLibm (fun _ => 0) (List.range 16) Globals.init
        { card_size := ⟨0, 0⟩, field_dim := ⟨0, 0⟩ } = some (g1, s1) ∧
      g1.field_width = (W : Int) ∧ g1.field_height = (H : Int) ∧
      Even (g1.field_width * g1.field_height) ∧
      2 * Int.tdiv (g1.field_width * g1.field_height) 2 =
        g1.field_width * g1.field_height ∧
      (g1.the_cards.length : Int) = g1.field_width * g1.field_height ∧
      (∀ x y : Nat, x < W → y < H → x * H + y < g1.the_cards.length) ∧
      (∀ n : Nat, n < g1.the_cards.length →
        ∃ x y : Nat, x < W ∧ y < H ∧ x * H + y = n ∧
          ∀ x1 y1 : Nat, x1 < W → y1 < H → x1 * H + y1 = n → x1 = x ∧ y1 = y) ∧
      (∀ x y : Nat, x < W → y < H →
        ∃ c, g1.the_cards[x * H + y]? = some c ∧
          c.pos = RoundStartState.slotPos s1.card_size (RoundStartState.gapOf s1) x y) :=
  RoundStartState.positions_assigned exLibm (fun _ => 0) (List.range 16) Globals.init
    { card_size := ⟨0, 0⟩, field_dim := ⟨0, 0⟩ } (by decide)
    (by
      have e : (7 + (Globals.init.round_number + 1)) * 2 = ((16 : Nat) : Int) := by decide
      rw [e, ceilSqrt_natCast, floorSqrt_natCast, sqrt_sixteen]
      exact List.Perm.refl _)

theorem usesSecond_usesFirst (st : GameState) (h : usesSecond st) : usesFirst st := by
  rcases h with h | h
  · exact Or.inr (Or.inr (Or.inl h))
  · exact Or.inr (Or.inr (Or.inr h))

/-- A state that does not read the selection puts no condition on it. -/
theorem SelectionValid_of_unused (st : GameState) (g : Globals) (h : ¬ usesFirst st) :
    SelectionValid st g :=
  ⟨fun h1 => absurd h1 h, fun h2 => absurd (usesSecond_usesFirst st h2) h⟩

/-- Validity of the selection depends on the selection and the board length only, and
carries over to a state that reads no more of the selection. -/
theorem SelectionValid_same (st st1 : GameState) (g g1 : Globals)
    (hf : g1.first_card = g.first_card) (hs : g1.second_card = g.second_card)
    (hl : g1.the_cards.length = g.the_cards.length)
    (h1 : usesFirst st1 → usesFirst st) (h2 : usesSecond st1 → usesSecond st)
    (h : SelectionValid st g) : SelectionValid st1 g1 := by
  unfold SelectionValid
  rw [hf, hs, hl]
  exact ⟨fun a => h.1 (h1 a), fun a => h.2 (h2 a)⟩

/-- The index found by the search of `SelectFirstState::OnUserUpdate` is in range. -/
theorem SelectFirstState.search_bound (mouse : Vf2d) (cs : List Card) (k i : Nat)
    (h : SelectFirstState.search mouse cs k = some i) : k ≤ i ∧ i < k + cs.length := by
  induction cs generalizing k with
  | nil => simp [SelectFirstState.search] at h
  | cons c cs ih =>
    simp only [SelectFirstState.search] at h
    by_cases hc : PointInRect mouse c.pos c.size = true
    · rw [if_pos hc] at h
      simp only [Option.some.injEq] at h
      simp only [List.length_cons]
      omega
    · rw [if_neg hc] at h
      have := ih (k + 1) h
      simp only [List.length_cons]
      omega

/-- The state returned by `TurnEndState::OnUserUpdate` is `TURN_END` or a state that
does not read the selection; the board keeps its length on a tick that stays. -/
theorem TurnEndState.turn_end_next (e : ℚ) (g g1 : Globals) (s s1 : TurnEndState)
    (next : GameState) (h : TurnEndState.OnUserUpdate e g s = some (g1, s1, next)) :
    (next = GameState.TURN_END ∧ g1.the_cards.length = g.the_cards.length) ∨
    ¬ usesFirst next := by
  have hres : ∀ g2 : Globals, ¬ usesFirst (TurnEndState.nextAfterResolve g2) := by
    intro g2
    unfold TurnEndState.nextAfterResolve usesFirst
    split_ifs <;> decide
  unfold TurnEndState.OnUserUpdate at h
  simp only at h
  by_cases ht : s.fTotalTime + e * (12 / 10) > 1
  · rw [if_pos ht] at h
    by_cases hm : s.did_match = true
    · rw [if_pos hm] at h
      split at h
      · exact absurd h (by simp)
      · split at h
        · exact absurd h (by simp)
        · simp only [Option.some.injEq, Prod.mk.injEq] at h
          rw [← h.2.2]
          exact Or.inr (hres _)
    · rw [if_neg hm] at h
      simp only [Option.some.injEq, Prod.mk.injEq] at h
      rw [← h.2.2]
      exact Or.inr (hres _)
  · rw [if_neg ht] at h
    simp only [Option.some.injEq, Prod.mk.injEq] at h
    rw [← h.2.2, ← h.1]
    exact Or.inl ⟨rfl, TurnEndState.cardLoop_length _ _ _⟩

/-- The state returned by `MixupState::OnUserUpdate` does not read the selection. -/
theorem MixupState.mixup_next (m : Libm) (e : ℚ) (d1 : Nat) (ds : List Nat)
    (g g1 : Globals) (s s1 : MixupState) (next : GameState)
    (h : MixupState.OnUserUpdate m e d1 ds g s = some (g1, s1, next)) :
    ¬ usesFirst next := by
  unfold MixupState.OnUserUpdate at h
  split at h
  · split at h
    · exact absurd h (by simp)
    · simp only [Option.some.injEq, Prod.mk.injEq] at h
      rw [← h.2.2]; unfold usesFirst; decide
  · split at h
    · exact absurd h (by simp)
    · split_ifs at h <;>
        (simp only [Option.some.injEq, Prod.mk.injEq] at h
         rw [← h.2.2]; unfold usesFirst; decide)
  · simp only [Option.some.injEq, Prod.mk.injEq] at h
    rw [← h.2.2]; unfold usesFirst; decide

/-- The state returned by `ShuffleState::OnUserUpdate` does not read the selection. -/
theorem ShuffleState.shuffle_next (m : Libm) (e : ℚ) (g g1 : Globals)
    (s s1 : ShuffleState) (next : GameState)
    (h : ShuffleState.OnUserUpdate m e g s = some (g1, s1, next)) :
    ¬ usesFirst next := by
  unfold ShuffleState.OnUserUpdate at h
  simp only at h
  split at h
  · exact absurd h (by simp)
  · simp only [Option.some.injEq, Prod.mk.injEq] at h
    rw [← h.2.2]
    unfold usesFirst
    split_ifs <;> decide

/-- `MixupState::OnUserUpdate` writes to no global other than the board. -/
theorem MixupState.mixup_update_globals (m : Libm) (e : ℚ) (d1 : Nat) (ds : List Nat)
    (g g2 : Globals) (s s2 : MixupState) (next : GameState)
    (h : MixupState.OnUserUpdate m e d1 ds g s = some (g2, s2, next)) :
    g2 = { g with the_cards := g2.the_cards } := by
  unfold MixupState.OnUserUpdate at h
  split at h
  · split at h
    · exact absurd h (by simp)
    · simp only [Option.some.injEq, Prod.mk.injEq] at h
      rw [← h.1]
  · split at h
    · exact absurd h (by simp)
    · rename_i g1 s1 ha
      have hl : g1 = { g with the_cards := g1.the_cards } := by
        unfold MixupState.Animate at ha
        simp only at ha
        split at ha
        · split at ha
          · exact absurd ha (by simp)
          · split at ha
            · exact absurd ha (by simp)
            · simp only [Option.some.injEq, Prod.mk.injEq] at ha
              rw [← ha.1]
        · exact absurd ha (by simp)
      split_ifs at h <;>
        · simp only [Option.some.injEq, Prod.mk.injEq] at h
          rw [← h.1]
          exact hl
  · simp only [Option.some.injEq, Prod.mk.injEq] at h
    rw [← h.1]

/-- `ShuffleState::OnUserUpdate` writes to no global other than the board. -/
theorem ShuffleState.shuffle_update_globals (m : Libm) (e : ℚ) (g g2 : Globals)
    (s s2 : ShuffleState) (next : GameState)
    (h : ShuffleState.OnUserUpdate m e g s = some (g2, s2, next)) :
    g2 = { g with the_cards := g2.the_cards } := by
  unfold ShuffleState.OnUserUpdate at h
  simp only at h
  split at h
  · exact absurd h (by simp)
  · simp only [Option.some.injEq, Prod.mk.injEq] at h
    rw [← h.1]

/-- `EnterState` of the current state keeps the selection valid. -/
theorem MemoryGame.EnterState_selection (m : Libm) (inp : Input) (G G1 : MemoryGame)
    (h : MemoryGame.EnterState m inp G = some G1)
    (hv : SelectionValid G.g.current_state G.g) :
    SelectionValid G1.g.current_state G1.g ∧ G1.g.current_state = G.g.current_state := by
  unfold MemoryGame.EnterState at h
  split at h
  · exact absurd h (by simp)
  · simp only [Option.some.injEq] at h; subst h; exact ⟨hv, rfl⟩
  · rename_i hst
    split at h
    · exact absurd h (by simp)
    · rename_i g1 s1 he
      simp only [Option.some.injEq] at h
      subst h
      obtain ⟨_, _, _, _, _, _, _, a8, _, _⟩ :=
        RoundStartState.layout_spec _ _ _ _ _ _ _ he
      have hcur : g1.current_state = GameState.ROUND_START := a8.trans hst
      refine ⟨?_, a8⟩
      apply SelectionValid_of_unused
      show ¬ usesFirst g1.current_state
      rw [hcur]; unfold usesFirst; decide
  · simp only [Option.some.injEq] at h; subst h; exact ⟨hv, rfl⟩
  · simp only [Option.some.injEq] at h; subst h; exact ⟨hv, rfl⟩
  · simp only [Option.some.injEq] at h; subst h; exact ⟨hv, rfl⟩
  · simp only [Option.some.injEq] at h; subst h; exact ⟨hv, rfl⟩
  · split at h
    · exact absurd h (by simp)
    · simp only [Option.some.injEq] at h; subst h; exact ⟨hv, rfl⟩
  · split at h
    · exact absurd h (by simp)
    · simp only [Option.some.injEq] at h; subst h; exact ⟨hv, rfl⟩
  · split at h
    · exact absurd h (by simp)
    · simp only [Option.some.injEq] at h; subst h; exact ⟨hv, rfl⟩

/-- `OnUserUpdate` of the current state leaves a selection that is valid for the state
it returns; after `TURN_END` that state is `TURN_END` or reads no selection. -/
theorem MemoryGame.UpdateState_selection (m : Libm) (inp : Input) (G G1 : MemoryGame)
    (next : GameState) (h : MemoryGame.UpdateState m inp G = some (G1, next))
    (hv : SelectionValid G.g.current_state G.g) :
    SelectionValid next G1.g ∧ G1.g.current_state = G.g.current_state ∧
    (G.g.current_state = GameState.TURN_END → next ≠ GameState.TURN_END →
      ¬ usesFirst next) := by
  unfold MemoryGame.UpdateState at h
  split at h
  · exact absurd h (by simp)
  · -- START_SCREEN
    rename_i hst
    simp only [Option.some.injEq, Prod.mk.injEq] at h
    obtain ⟨hG, hn⟩ := h
    subst hG
    have hnx : ¬ usesFirst next := by
      rw [← hn]
      unfold StartScreenState.OnUserUpdate usesFirst
      simp only
      split_ifs <;> decide
    exact ⟨SelectionValid_of_unused _ _ hnx, rfl, fun _ _ => hnx⟩
  · -- ROUND_START
    simp only [Option.some.injEq, Prod.mk.injEq] at h
    obtain ⟨hG, hn⟩ := h
    subst hG
    have hnx : ¬ usesFirst next := by
      rw [← hn]
      unfold RoundStartState.OnUserUpdate usesFirst
      decide
    exact ⟨SelectionValid_of_unused _ _ hnx, rfl, fun _ _ => hnx⟩
  · -- SELECT_FIRST
    rename_i hst
    simp only [Option.some.injEq, Prod.mk.injEq] at h
    obtain ⟨hG, hn⟩ := h
    subst hG hn
    refine ⟨?_, ?_, fun h0 => absurd (hst.symm.trans h0) (by decide)⟩
    · unfold SelectFirstState.OnUserUpdate
      by_cases hb : inp.bPressed = true
      · rw [if_pos hb]
        split
        · rename_i i hi
          obtain ⟨_, hlt⟩ := SelectFirstState.search_bound _ _ _ _ hi
          refine ⟨fun _ => ?_, fun h2 => ?_⟩
          · show 0 ≤ (i : Int) ∧ (i : Int) < (G.g.the_cards.length : Int)
            omega
          · unfold usesSecond at h2
            simp only at h2
            rcases h2 with h2 | h2 <;> exact absurd h2 (by decide)
        · exact SelectionValid_of_unused GameState.SELECT_FIRST G.g
            (by unfold usesFirst; decide)
      · rw [if_neg hb]
        exact SelectionValid_of_unused GameState.SELECT_FIRST G.g
          (by unfold usesFirst; decide)
    · unfold SelectFirstState.OnUserUpdate
      by_cases hb : inp.bPressed = true
      · rw [if_pos hb]
        split <;> rfl
      · rw [if_neg hb]
  · -- ANIMATE_FIRST
    rename_i hst
    simp only [Option.some.injEq, Prod.mk.injEq] at h
    obtain ⟨hG, hn⟩ := h
    subst hG hn
    refine ⟨?_, rfl, fun h0 => absurd (hst.symm.trans h0) (by decide)⟩
    rw [hst] at hv
    refine SelectionValid_same GameState.ANIMATE_FIRST _ G.g _ rfl rfl
      (forCards_length _ _ _) (fun _ => by unfold usesFirst; decide) ?_ hv
    unfold AnimateFirstState.OnUserUpdate usesSecond
    simp only
    split_ifs <;> decide
  · -- SELECT_SECOND
    rename_i hst
    simp only [Option.some.injEq, Prod.mk.injEq] at h
    obtain ⟨hG, hn⟩ := h
    subst hG hn
    rw [hst] at hv
    have hf := hv.1 (by unfold usesFirst; decide)
    refine ⟨?_, ?_, fun h0 => absurd (hst.symm.trans h0) (by decide)⟩
    · unfold SelectSecondState.OnUserUpdate
      by_cases hb : inp.bPressed = true
      · rw [if_pos hb]
        split
        · rename_i i hi
          obtain ⟨n, c, hin, hc, hne, _, _⟩ := SelectSecondState.search_some _ _ _ _ _ hi
          have hlt := (List.getElem?_eq_some_iff.mp hc).1
          rw [Nat.zero_add] at hin hne
          subst hin
          refine ⟨fun _ => hf, fun _ => ?_⟩
          show 0 ≤ (i : Int) ∧ (i : Int) < (G.g.the_cards.length : Int) ∧
            (i : Int) ≠ G.g.first_card
          exact ⟨by omega, by omega, fun h0 => hne h0.symm⟩
        · show SelectionValid GameState.SELECT_SECOND G.g
          exact ⟨fun _ => hf, fun h2 => by
            rcases h2 with h2 | h2 <;> exact absurd h2 (by decide)⟩
      · rw [if_neg hb]
        show SelectionValid GameState.SELECT_SECOND G.g
        exact ⟨fun _ => hf, fun h2 => by
          rcases h2 with h2 | h2 <;> exact absurd h2 (by decide)⟩
    · unfold SelectSecondState.OnUserUpdate
      by_cases hb : inp.bPressed = true
      · rw [if_pos hb]
        split <;> rfl
      · rw [if_neg hb]
  · -- ANIMATE_SECOND
    rename_i hst
    simp only [Option.some.injEq, Prod.mk.injEq] at h
    obtain ⟨hG, hn⟩ := h
    subst hG hn
    refine ⟨?_, rfl, fun h0 => absurd (hst.symm.trans h0) (by decide)⟩
    rw [hst] at hv
    exact SelectionValid_same GameState.ANIMATE_SECOND _ G.g _ rfl rfl
      (forCards_length _ _ _) (fun _ => by unfold usesFirst; decide)
      (fun _ => by unfold usesSecond; decide) hv
  · -- TURN_END
    rename_i hst
    split at h
    · exact absurd h (by simp)
    · rename_i g1 s1 nx hu
      simp only [Option.some.injEq, Prod.mk.injEq] at h
      obtain ⟨hG, hn⟩ := h
      subst hG hn
      obtain ⟨a1, a2, _, a4, _⟩ := TurnEndState.turn_end_frame _ _ _ _ _ _ hu
      rw [hst] at hv
      rcases TurnEndState.turn_end_next _ _ _ _ _ _ hu with ⟨hn, hl⟩ | hn
      · refine ⟨?_, a4, fun _ h1 => absurd hn h1⟩
        rw [hn]
        exact SelectionValid_same GameState.TURN_END _ G.g g1 a1 a2 hl
          (fun a => a) (fun a => a) hv
      · exact ⟨SelectionValid_of_unused _ _ hn, a4, fun _ _ => hn⟩
  · -- MIXUP
    rename_i hst
    split at h
    · exact absurd h (by simp)
    · rename_i g1 s1 nx hu
      simp only [Option.some.injEq, Prod.mk.injEq] at h
      obtain ⟨hG, hn⟩ := h
      subst hG hn
      have hnx := MixupState.mixup_next _ _ _ _ _ _ _ _ _ hu
      refine ⟨SelectionValid_of_unused _ _ hnx, ?_, fun _ _ => hnx⟩
      show g1.current_state = G.g.current_state
      rw [MixupState.mixup_update_globals _ _ _ _ _ _ _ _ _ hu]
  · -- SHUFFLE
    rename_i hst
    split at h
    · exact absurd h (by simp)
    · rename_i g1 s1 nx hu
      simp only [Option.some.injEq, Prod.mk.injEq] at h
      obtain ⟨hG, hn⟩ := h
      subst hG hn
      have hnx := ShuffleState.shuffle_next _ _ _ _ _ _ _ hu
      refine ⟨SelectionValid_of_unused _ _ hnx, ?_, fun _ _ => hnx⟩
      show g1.current_state = G.g.current_state
      rw [ShuffleState.shuffle_update_globals _ _ _ _ _ _ _ hu]

/-- One frame of the controller leaves a selection that is valid for the state the
next frame runs. -/
theorem MemoryGame.frame_selection (m : Libm) (inp : Input) (G G1 : MemoryGame)
    (h : MemoryGame.OnUserUpdate m inp G = some G1)
    (hv : SelectionValid G.g.current_state G.g) :
    SelectionValid G1.g.current_state G1.g := by
  unfold MemoryGame.OnUserUpdate at h
  split at h
  · exact absurd h (by simp)
  · rename_i Ga hGa
    have hva : SelectionValid Ga.g.current_state Ga.g := by
      split_ifs at hGa
      · exact (MemoryGame.EnterState_selection m inp G Ga hGa hv).1
      · simp only [Option.some.injEq] at hGa
        rw [← hGa]; exact hv
    split at h
    · exact absurd h (by simp)
    · rename_i Gb next hGb
      obtain ⟨b1, b2, b3⟩ := MemoryGame.UpdateState_selection m inp Ga Gb next hGb hva
      have hexit : SelectionValid next
          (if next ≠ Gb.g.current_state then MemoryGame.ExitState Gb else Gb).g := by
        by_cases hne : next ≠ Gb.g.current_state
        · rw [if_pos hne]
          by_cases hte : Gb.g.current_state = GameState.TURN_END
          · exact SelectionValid_of_unused _ _
              (b3 (b2.symm.trans hte) (fun h0 => hne (h0.trans hte.symm)))
          · have hsame : MemoryGame.ExitState Gb = Gb := by
              unfold MemoryGame.ExitState
              split
              · rename_i h0
                exact absurd h0 hte
              · rfl
            rw [hsame]; exact b1
        · rw [if_neg hne]; exact b1
      simp only [Option.some.injEq] at h
      rw [← h]
      generalize (if next ≠ Gb.g.current_state then MemoryGame.ExitState Gb else Gb) = G3
        at hexit
      simp only
      split_ifs <;>
        first
          | exact SelectionValid_same next next G3.g _ rfl rfl (MessWithColors_length _ _)
              (fun a => a) (fun a => a) hexit
          | exact SelectionValid_same next next G3.g _ rfl rfl rfl
              (fun a => a) (fun a => a) hexit

/-- With a valid selection `TurnEndState::EnterState` and `TurnEndState::OnUserUpdate`
have a result: the two reads and the two erase calls are in range. -/
theorem TurnEndState.turn_end_some (e : ℚ) (g : Globals) (s : TurnEndState)
    (hv : SelectionValid GameState.TURN_END g) :
    (∃ s1, TurnEndState.EnterState g s = some s1) ∧
    ∃ r, TurnEndState.OnUserUpdate e g s = some r := by
  obtain ⟨hf0, hf1⟩ := hv.1 (by unfold usesFirst; decide)
  obtain ⟨hs0, hs1, hne⟩ := hv.2 (by unfold usesSecond; decide)
  obtain ⟨i, hi⟩ := Int.eq_ofNat_of_zero_le hf0
  obtain ⟨j, hj⟩ := Int.eq_ofNat_of_zero_le hs0
  rw [hi] at hf1 hne
  rw [hj] at hs1 hne
  have hil : i < g.the_cards.length := by omega
  have hjl : j < g.the_cards.length := by omega
  have hij : i ≠ j := fun h0 => hne (by rw [h0])
  constructor
  · unfold TurnEndState.EnterState
    rw [hi, hj, cardAt_natCast, cardAt_natCast, List.getElem?_eq_getElem hil,
      List.getElem?_eq_getElem hjl]
    exact ⟨_, rfl⟩
  · unfold TurnEndState.OnUserUpdate
    simp only
    have hlen := TurnEndState.cardLoop_length g s (s.fTotalTime + e * (12 / 10))
    obtain ⟨e1, e2, _⟩ := eraseAt_max_min
      (TurnEndState.cardLoop g s (s.fTotalTime + e * (12 / 10))) i j
      (by rw [hlen]; exact hil) (by rw [hlen]; exact hjl) hij
    rw [hi, hj, e1]
    simp only
    rw [e2]
    split_ifs <;> exact ⟨_, rfl⟩

/-- A frame of the controller that starts in `TURN_END` with a valid selection has a
result. -/
theorem MemoryGame.turn_end_progress (m : Libm) (inp : Input) (G : MemoryGame)
    (hst : G.g.current_state = GameState.TURN_END)
    (hv : SelectionValid GameState.TURN_END G.g) :
    ∃ G1, MemoryGame.OnUserUpdate m inp G = some G1 := by
  have henter : ∃ Ga, (if G.g.current_state ≠ G.prev_state then MemoryGame.EnterState m inp G
      else some G) = some Ga ∧ Ga.g = G.g := by
    by_cases hp : G.g.current_state ≠ G.prev_state
    · rw [if_pos hp]
      obtain ⟨s1, hs1⟩ := (TurnEndState.turn_end_some 0 G.g G.turnEnd hv).1
      unfold MemoryGame.EnterState
      rw [hst]
      simp only
      rw [hs1]
      exact ⟨_, rfl, rfl⟩
    · rw [if_neg hp]
      exact ⟨G, rfl, rfl⟩
  obtain ⟨Ga, hGa, hga⟩ := henter
  obtain ⟨⟨g1, s1, nx⟩, hr⟩ :=
    (TurnEndState.turn_end_some inp.fElapsedTime Ga.g Ga.turnEnd (by rw [hga]; exact hv)).2
  have hup : MemoryGame.UpdateState m inp Ga =
      some ({ Ga with g := g1, turnEnd := s1 }, nx) := by
    unfold MemoryGame.UpdateState
    rw [hga, hst]
    simp only
    rw [← hga, hr]
  unfold MemoryGame.OnUserUpdate
  rw [hGa]
  simp only
  rw [hup]
  exact ⟨_, rfl⟩

/-- A press inside some card makes the search of `SelectFirstState::OnUserUpdate` find
a card. -/
theorem SelectFirstState.search_hit (mouse : Vf2d) (cs : List Card) (k n : Nat) (c : Card)
    (hc : cs[n]? = some c) (hp : PointInRect mouse c.pos c.size = true) :
    ∃ i, SelectFirstState.search mouse cs k = some i := by
  induction cs generalizing k n with
  | nil => simp at hc
  | cons d ds ih =>
    simp only [SelectFirstState.search]
    by_cases hd : PointInRect mouse d.pos d.size = true
    · rw [if_pos hd]
      exact ⟨k, rfl⟩
    · rw [if_neg hd]
      cases n with
      | zero =>
        simp only [List.getElem?_cons_zero, Option.some.injEq] at hc
        rw [hc] at hd
        exact absurd hp hd
      | succ n1 =>
        rw [List.getElem?_cons_succ] at hc
        exact ih (k + 1) n1 hc

/-- Writing a position leaves the sizes of the cards. -/
theorem setPos_size (cs cs1 : List Card) (idx : Int) (p : Vf2d)
    (h : setPos cs idx p = some cs1) : cs1.map Card.size = cs.map Card.size := by
  unfold setPos at h
  split_ifs at h with h0
  split at h
  · rename_i c hc
    simp only [Option.some.injEq] at h
    subst h
    apply List.ext_getElem?
    intro n
    simp only [List.getElem?_map, List.getElem?_set]
    by_cases hn : idx.toNat = n
    · subst hn
      rw [if_pos rfl, hc]
      have := (List.getElem?_eq_some_iff.mp hc).1
      rw [if_pos this]
      rfl
    · rw [if_neg hn]
  · exact absurd h (by simp)

theorem RoundStartState.placeColumn_size (card_size gap : Vf2d) (field_height : Int)
    (x : Nat) (ys : List Nat) (cs cs1 : List Card)
    (h : RoundStartState.placeColumn card_size gap field_height x ys cs = some cs1) :
    cs1.map Card.size = cs.map Card.size := by
  induction ys generalizing cs with
  | nil =>
    simp only [RoundStartState.placeColumn, Option.some.injEq] at h
    subst h
    rfl
  | cons y ys ih =>
    simp only [RoundStartState.placeColumn] at h
    split at h
    · exact absurd h (by simp)
    · rename_i cs2 h2
      exact (ih cs2 h).trans (setPos_size _ _ _ _ h2)

theorem RoundStartState.placeAll_size (card_size gap : Vf2d) (field_height : Int)
    (xs : List Nat) (cs cs1 : List Card)
    (h : RoundStartState.placeAll card_size gap field_height xs cs = some cs1) :
    cs1.map Card.size = cs.map Card.size := by
  induction xs generalizing cs with
  | nil =>
    simp only [RoundStartState.placeAll, Option.some.injEq] at h
    subst h
    rfl
  | cons x xs ih =>
    simp only [RoundStartState.placeAll] at h
    split at h
    · exact absurd h (by simp)
    · rename_i cs2 h2
      exact (ih cs2 h).trans (RoundStartState.placeColumn_size _ _ _ _ _ _ _ h2)

theorem RoundStartState.makeCards_size (rand : Nat → ℚ) (card_size : Vf2d) (n : Nat) :
    ∀ c ∈ RoundStartState.makeCards rand card_size n, c.size = card_size := by
  induction n with
  | zero => intro c hc; simp [RoundStartState.makeCards] at hc
  | succ n ih =>
    intro c hc
    simp only [RoundStartState.makeCards, List.mem_append, List.mem_cons,
      List.mem_singleton, List.not_mem_nil, or_false] at hc
    rcases hc with hc | hc | hc
    · exact ih c hc
    · rw [hc]; rfl
    · rw [hc]; rfl

/-- Every card that `RoundStartState::EnterState` leaves on the board has the card size
of the round. -/
theorem RoundStartState.layout_sizes (m : Libm) (rand : Nat → ℚ) (σ : List Nat)
    (g g1 : Globals) (s s1 : RoundStartState)
    (h : RoundStartState.EnterState m rand σ g s = some (g1, s1)) :
    ∀ c ∈ g1.the_cards, c.size = s1.card_size := by
  unfold RoundStartState.EnterState at h
  simp only at h
  by_cases hneg : (7 + (g.round_number + 1)) * 2 < 0
  · rw [if_pos hneg] at h
    exact absurd h (by simp)
  · rw [if_neg hneg] at h
    split at h
    · exact absurd h (by simp)
    · rename_i shuffled hsh
      split at h
      · exact absurd h (by simp)
      · rename_i placed hpl
        simp only [Option.some.injEq, Prod.mk.injEq] at h
        obtain ⟨hg, hs⟩ := h
        subst hg hs
        have hperm := stdShuffle_perm _ _ _ hsh
        have hsz := RoundStartState.placeAll_size _ _ _ _ _ _ hpl
        intro c hc
        have hmem : c.size ∈ placed.map Card.size := List.mem_map_of_mem _ hc
        rw [hsz] at hmem
        obtain ⟨d, hd, hdc⟩ := List.mem_map.mp hmem
        rw [← hdc]
        exact RoundStartState.makeCards_size _ _ _ d (hperm.mem_iff.mp hd)

/-- After a press on the start button and the layout of round 1 the controller is in
`SELECT_FIRST`, with the board that `RoundStartState::EnterState` produced. -/
theorem MemoryGame.reach_select_first :
    ∃ g1 s1,
      RoundStartState.EnterState exLibm exPress.randFloat exPress.shuffle1
        { Globals.init with current_state := GameState.ROUND_START }
        MemoryGame.init.roundStart = some (g1, s1) ∧
      MemoryGame.Reachable exLibm
        { MemoryGame.init with
          g := { g1 with current_state := GameState.SELECT_FIRST },
          roundStart := s1,
          next_state := GameState.SELECT_FIRST, prev_state := GameState.ROUND_START } := by
  have h1 : MemoryGame.OnUserUpdate exLibm exPress MemoryGame.init =
      some { MemoryGame.init with
        g := { Globals.init with current_state := GameState.ROUND_START },
        next_state := GameState.ROUND_START, prev_state := GameState.START_SCREEN } := by
    norm_num [MemoryGame.OnUserUpdate, MemoryGame.EnterState, MemoryGame.UpdateState,
      MemoryGame.ExitState, MemoryGame.init, Globals.init, StartScreenState.OnUserUpdate,
      PointInRect, exPress, ScreenWidth, ScreenHeight]
  have e : (7 + (({ Globals.init with current_state := GameState.ROUND_START } :
      Globals).round_number + 1)) * 2 = ((16 : Nat) : Int) := by decide
  obtain ⟨g1, s1, he⟩ := RoundStartState.layout_some exLibm exPress.randFloat
    exPress.shuffle1 { Globals.init with current_state := GameState.ROUND_START }
    MemoryGame.init.roundStart (by decide)
    (by
      rw [e, ceilSqrt_natCast, floorSqrt_natCast, sqrt_sixteen]
      exact List.Perm.refl _)
  obtain ⟨a1, _, _, _, _, _, _, a8, _, _⟩ :=
    RoundStartState.layout_spec _ _ _ _ _ _ _ he
  have hround : ¬ g1.round_number > 1 := by rw [a1]; decide
  have h2 : MemoryGame.OnUserUpdate exLibm exPress
      { MemoryGame.init with
        g := { Globals.init with current_state := GameState.ROUND_START },
        next_state := GameState.ROUND_START, prev_state := GameState.START_SCREEN } =
      some { MemoryGame.init with
        g := { g1 with current_state := GameState.SELECT_FIRST },
        roundStart := s1,
        next_state := GameState.SELECT_FIRST, prev_state := GameState.ROUND_START } := by
    have he1 : RoundStartState.EnterState exLibm exPress.randFloat exPress.shuffle1
        { the_cards := [], current_state := GameState.ROUND_START, round_number := 0,
          turn_number := 1, field_width := 0, field_height := 0, first_card := -1,
          second_card := -1, score := 0 }
        { card_size := ⟨0, 0⟩, field_dim := ⟨0, 0⟩ } = some (g1, s1) := he
    have a8' : g1.current_state = GameState.ROUND_START := a8
    simp [MemoryGame.OnUserUpdate, MemoryGame.EnterState, MemoryGame.UpdateState,
      MemoryGame.ExitState, MemoryGame.init, Globals.init, RoundStartState.OnUserUpdate,
      he1, a8', hround]
  exact ⟨g1, s1, he, MemoryGame.Reachable.step exPress _ _
    (MemoryGame.Reachable.step exPress _ _ MemoryGame.Reachable.init (by norm_num [exPress])
      h1) (by norm_num [exPress]) h2⟩

/-- After a press on the start button, the layout of round 1 and a press on a card the
controller is in `ANIMATE_FIRST`. -/
theorem MemoryGame.reach_animate_first :
    ∃ G, MemoryGame.Reachable exLibm G ∧ G.g.current_state = GameState.ANIMATE_FIRST := by
  obtain ⟨g1, s1, he, hreach⟩ := MemoryGame.reach_select_first
  obtain ⟨a1, _, a3, a4, _, _, _, _, a9, _⟩ :=
    RoundStartState.layout_spec _ _ _ _ _ _ _ he
  have e : (7 + (({ Globals.init with current_state := GameState.ROUND_START } :
      Globals).round_number + 1)) * 2 = ((16 : Nat) : Int) := by decide
  rw [e, ceilSqrt_natCast, sqrt_sixteen] at a3
  rw [e, floorSqrt_natCast, sqrt_sixteen] at a4
  have hlen : g1.the_cards.length = 16 := by rw [a9, a3, a4]; decide
  have hround : ¬ g1.round_number > 1 := by rw [a1]; decide
  have hr1 : g1.round_number = 1 := by rw [a1]; decide
  -- the card at index 0 and its size
  have h0 : 0 < g1.the_cards.length := by omega
  have hc : g1.the_cards[0]? = some (g1.the_cards[0]) := List.getElem?_eq_getElem h0
  have hsize : (g1.the_cards[0]).size = s1.card_size :=
    RoundStartState.layout_sizes _ _ _ _ _ _ _ he _ (List.getElem_mem _)
  have hcs : s1.card_size = ⟨250 / 7, 50⟩ := by
    rw [RoundStartState.layout_card_size _ _ _ _ _ _ _ he, a3, a4, hr1]
    norm_num [ScreenWidth, ScreenHeight, exLibm]
  have hin : PointInRect (g1.the_cards[0]).pos (g1.the_cards[0]).pos
      (g1.the_cards[0]).size = true := by
    rw [hsize, hcs]
    unfold PointInRect
    rw [if_pos]
    refine ⟨le_refl _, le_refl _, ?_, ?_⟩
    · show (g1.the_cards[0]).pos.x < (g1.the_cards[0]).pos.x + 250 / 7
      linarith
    · show (g1.the_cards[0]).pos.y < (g1.the_cards[0]).pos.y + 50
      linarith
  obtain ⟨i, hi⟩ := SelectFirstState.search_hit (g1.the_cards[0]).pos g1.the_cards 0 0 _ hc hin
  have h3 : MemoryGame.OnUserUpdate exLibm (exClick (g1.the_cards[0]).pos)
      { MemoryGame.init with
        g := { g1 with current_state := GameState.SELECT_FIRST },
        roundStart := s1,
        next_state := GameState.SELECT_FIRST, prev_state := GameState.ROUND_START } =
      some { MemoryGame.init with
        g := { g1 with current_state := GameState.ANIMATE_FIRST, first_card := (i : Int) },
        roundStart := s1,
        next_state := GameState.ANIMATE_FIRST, prev_state := GameState.SELECT_FIRST } := by
    simp [MemoryGame.OnUserUpdate, MemoryGame.EnterState, MemoryGame.UpdateState,
      MemoryGame.ExitState, MemoryGame.init, SelectFirstState.OnUserUpdate, exClick,
      hi, hround]
  exact ⟨_, MemoryGame.Reachable.step _ _ _ hreach (by norm_num [exClick]) h3, rfl⟩

/-- C20: in every state reachable from the initial state by controller ticks, if the
active state is `ANIMATE_FIRST`, `SELECT_SECOND`, `ANIMATE_SECOND` or `TURN_END` then
`0 ≤ first_card < the_cards.size()`; if it is `ANIMATE_SECOND` or `TURN_END` then also
`0 ≤ second_card < the_cards.size()` and `second_card ≠ first_card`. Hence in
`TURN_END` the reads `the_cards[first_card]`, `the_cards[second_card]` of `EnterState`
and the two erase calls of `OnUserUpdate` are in range: both functions, and the whole
controller frame, have a result whatever the input. -/
theorem MemoryGame.selection_valid (m : Libm) (G : MemoryGame)
    (h : MemoryGame.Reachable m G) :
    ((G.g.current_state = GameState.ANIMATE_FIRST ∨
      G.g.current_state = GameState.SELECT_SECOND ∨
      G.g.current_state = GameState.ANIMATE_SECOND ∨
      G.g.current_state = GameState.TURN_END) →
      0 ≤ G.g.first_card ∧ G.g.first_card < G.g.the_cards.length) ∧
    ((G.g.current_state = GameState.ANIMATE_SECOND ∨
      G.g.current_state = GameState.TURN_END) →
      0 ≤ G.g.second_card ∧ G.g.second_card < G.g.the_cards.length ∧
      G.g.second_card ≠ G.g.first_card) ∧
    (G.g.current_state = GameState.TURN_END →
      (∀ s : TurnEndState, ∃ s1, TurnEndState.EnterState G.g s = some s1) ∧
      (∀ (e : ℚ) (s : TurnEndState), ∃ r, TurnEndState.OnUserUpdate e G.g s = some r) ∧
      ∀ inp : Input, ∃ G1, MemoryGame.OnUserUpdate m inp G = some G1) := by
  have hv : SelectionValid G.g.current_state G.g := by
    induction h with
    | init =>
      apply SelectionValid_of_unused
      unfold usesFirst
      decide
    | step inp G G1 _ _ hstep ih => exact MemoryGame.frame_selection m inp G G1 hstep ih
  refine ⟨hv.1, hv.2, fun hte => ?_⟩
  rw [hte] at hv
  exact ⟨fun s => (TurnEndState.turn_end_some 0 G.g s hv).1,
    fun e s => (TurnEndState.turn_end_some e G.g s hv).2,
    fun inp => MemoryGame.turn_end_progress m inp G hte hv⟩

/-- A reachable state in `ANIMATE_FIRST`: the start button, the layout of round 1 and a
press on a card. -/
theorem MemoryGame.selection_valid_witness :
    ∃ G, MemoryGame.Reachable exLibm G ∧ G.g.current_state = GameState.ANIMATE_FIRST ∧
    ((G.g.current_state = GameState.ANIMATE_FIRST ∨
      G.g.current_state = GameState.SELECT_SECOND ∨
      G.g.current_state = GameState.ANIMATE_SECOND ∨
      G.g.current_state = GameState.TURN_END) →
      0 ≤ G.g.first_card ∧ G.g.first_card < G.g.the_cards.length) ∧
    ((G.g.current_state = GameState.ANIMATE_SECOND ∨
      G.g.current_state = GameState.TURN_END) →
      0 ≤ G.g.second_card ∧ G.g.second_card < G.g.the_cards.length ∧
      G.g.second_card ≠ G.g.first_card) ∧
    (G.g.current_state = GameState.TURN_END →
      (∀ s : TurnEndState, ∃ s1, TurnEndState.EnterState G.g s = some s1) ∧
      (∀ (e : ℚ) (s : TurnEndState), ∃ r, TurnEndState.OnUserUpdate e G.g s = some r) ∧
      ∀ inp : Input, ∃ G1, MemoryGame.OnUserUpdate exLibm inp G = some G1) := by
  obtain ⟨G, hreach, hst⟩ := MemoryGame.reach_animate_first
  exact ⟨G, hreach, hst, MemoryGame.selection_valid exLibm G hreach⟩

/-- The second draw that the loop of `Pick` accepts is a valid index other than the
first card. -/
theorem MixupState.drawTwo_spec (c n : Nat) (ds : List Nat) (d : Nat)
    (h : MixupState.drawTwo c n ds = some d) : d < n ∧ c ≠ d := by
  induction ds with
  | nil => simp [MixupState.drawTwo] at h
  | cons x xs ih =>
    simp only [MixupState.drawTwo] at h
    by_cases hx : x < n
    · rw [if_pos hx] at h
      by_cases hc : c = x
      · rw [if_pos hc] at h
        exact ih h
      · rw [if_neg hc] at h
        simp only [Option.some.injEq] at h
        subst h
        exact ⟨hx, hc⟩
    · rw [if_neg hx] at h
      exact absurd h (by simp)

/-- With valid draws `Pick` has a result, which records the two drawn cards. -/
theorem MixupState.Pick_some (d1 d2 : Nat) (ds : List Nat) (g : Globals) (s : MixupState)
    (h1 : d1 < g.the_cards.length)
    (h2 : MixupState.drawTwo d1 g.the_cards.length ds = some d2) :
    ∃ s1, MixupState.Pick d1 ds g s = some s1 ∧ s1.card_one = (d1 : Int) ∧
      s1.card_two = (d2 : Int) := by
  obtain ⟨hd2, _⟩ := MixupState.drawTwo_spec _ _ _ _ h2
  unfold MixupState.Pick
  rw [if_pos h1, h2]
  simp only
  rw [List.getElem?_eq_getElem h1, List.getElem?_eq_getElem hd2]
  exact ⟨_, rfl, rfl, rfl⟩

/-- With valid draws, a frame of `MixupState::OnUserUpdate` has a result; it returns
`MIXUP` or `SELECT_FIRST`, keeps the board length and keeps the swap valid. -/
theorem MixupState.update_some (m : Libm) (e : ℚ) (d1 : Nat) (ds : List Nat)
    (g : Globals) (s : MixupState) (hv : MixupState.SwapValid g s)
    (h1 : d1 < g.the_cards.length)
    (h2 : ∃ d2, MixupState.drawTwo d1 g.the_cards.length ds = some d2) :
    ∃ g1 s1 next, MixupState.OnUserUpdate m e d1 ds g s = some (g1, s1, next) ∧
      (next = GameState.MIXUP ∨ next = GameState.SELECT_FIRST) ∧
      g1.the_cards.length = g.the_cards.length ∧ MixupState.SwapValid g1 s1 := by
  obtain ⟨d2, hd2⟩ := h2
  cases hs : s.inner_state with
  | PICK =>
    obtain ⟨sp, hp, c1, c2⟩ := MixupState.Pick_some d1 d2 ds g s h1 hd2
    obtain ⟨b1, b2⟩ := MixupState.drawTwo_spec _ _ _ _ hd2
    refine ⟨g, { sp with inner_state := MixupState.InnerState.ANIMATE }, GameState.MIXUP,
      ?_, Or.inl rfl, rfl, fun _ => ⟨d1, d2, c1, c2, b2, h1, b1⟩⟩
    unfold MixupState.OnUserUpdate
    rw [hs]
    simp only
    rw [hp]
  | ANIMATE =>
    obtain ⟨i, j, hi, hj, hij, hil, hjl⟩ := hv hs
    have ha := MixupState.Animate_spec m e g s i j _ _ _ _ hi hj hij
      (List.getElem?_eq_getElem hil) (List.getElem?_eq_getElem hjl) rfl rfl
    have hA : ∃ g1 s1, MixupState.Animate m e g s = some (g1, s1) ∧
        g1.the_cards.length = g.the_cards.length ∧ s1.card_one = s.card_one ∧
        s1.card_two = s.card_two := by
      rw [ha]
      exact ⟨_, _, rfl, by simp only [List.length_set], rfl, rfl⟩
    obtain ⟨g1, s1, hA1, hlen, hc1, hc2⟩ := hA
    have hvalid : ∀ s2 : MixupState, s2.card_one = s1.card_one →
        s2.card_two = s1.card_two → MixupState.SwapValid g1 s2 := by
      intro s2 e1 e2 _
      exact ⟨i, j, (e1.trans hc1).trans hi, (e2.trans hc2).trans hj, hij,
        by rw [hlen]; exact hil, by rw [hlen]; exact hjl⟩
    unfold MixupState.OnUserUpdate
    rw [hs]
    simp only
    rw [hA1]
    simp only
    by_cases hcount : s1.mixup_count ≠ 0
    · rw [if_pos hcount]
      by_cases hT : s1.fTotalTime > 1
      · rw [if_pos hT]
        exact ⟨_, _, _, rfl, Or.inl rfl, hlen, fun h0 => absurd h0 (by simp)⟩
      · rw [if_neg hT]
        exact ⟨_, _, _, rfl, Or.inl rfl, hlen, hvalid _ rfl rfl⟩
    · rw [if_neg hcount]
      exact ⟨_, _, _, rfl, Or.inr rfl, hlen, hvalid _ rfl rfl⟩
  | SKIP =>
    refine ⟨g, s, GameState.SELECT_FIRST, ?_, Or.inr rfl, rfl, hv⟩
    unfold MixupState.OnUserUpdate
    rw [hs]

/-- With valid draws in every frame a Mixup run has a result, and it ends in `MIXUP`
(the frames are used up) or `SELECT_FIRST`. -/
theorem MixupState.trace_some (m : Libm) (inputs : List Input) :
    ∀ (g : Globals) (s : MixupState), MixupState.SwapValid g s →
      (∀ inp ∈ inputs, inp.pickOne < g.the_cards.length ∧
        ∃ d2, MixupState.drawTwo inp.pickOne g.the_cards.length inp.pickTwo = some d2) →
      ∃ tr g1 s1 next, MixupState.trace m inputs (g, s) = some (tr, g1, s1, next) ∧
        (next = GameState.MIXUP ∨ next = GameState.SELECT_FIRST) := by
  induction inputs with
  | nil =>
    intro g s _ _
    exact ⟨[], g, s, GameState.MIXUP, rfl, Or.inl rfl⟩
  | cons inp rest ih =>
    intro g s hv hd
    obtain ⟨hd1, hd2⟩ := hd inp (List.mem_cons_self _ _)
    obtain ⟨g1, s1, next, hu, hnext, hlen, hv1⟩ :=
      MixupState.update_some m inp.fElapsedTime inp.pickOne inp.pickTwo g s hv hd1 hd2
    simp only [MixupState.trace]
    rw [hu]
    rcases hnext with hn | hn
    · subst hn
      obtain ⟨tr, g2, s2, nx, hr, hnx⟩ := ih g1 s1 hv1 (by
        intro i hi
        rw [hlen]
        exact hd i (List.mem_cons_of_mem _ hi))
      simp only
      rw [hr]
      exact ⟨_, _, _, _, rfl, hnx⟩
    · subst hn
      exact ⟨_, _, _, _, rfl, Or.inr rfl⟩

/-- The invariant of a Mixup run that is still going on: with `k` pairs picked so far
out of `n`, a run that ends in `MIXUP` has swaps remaining, is about to pick or is in an
animation whose accumulated time is at most 1.0, and has picked a pair for every swap
completed or in progress. -/
theorem MixupState.trace_running (m : Libm) (n : Int) (inputs : List Input) :
    ∀ (g g1 : Globals) (s s1 : MixupState) (tr : List MixupState) (k : Int),
      ((s.inner_state = MixupState.InnerState.PICK ∧ 0 < s.mixup_count ∧
          k + s.mixup_count = n) ∨
        (s.inner_state = MixupState.InnerState.ANIMATE ∧ 0 < s.mixup_count ∧
          k + s.mixup_count = n + 1 ∧ s.fTotalTime ≤ 1)) →
      MixupState.trace m inputs (g, s) = some (tr, g1, s1, GameState.MIXUP) →
      ((s1.inner_state = MixupState.InnerState.PICK ∧ 0 < s1.mixup_count ∧
          k + ((tr.filter (fun t =>
            decide (t.inner_state = MixupState.InnerState.PICK))).length : Int) +
            s1.mixup_count = n) ∨
        (s1.inner_state = MixupState.InnerState.ANIMATE ∧ 0 < s1.mixup_count ∧
          k + ((tr.filter (fun t =>
            decide (t.inner_state = MixupState.InnerState.PICK))).length : Int) +
            s1.mixup_count = n + 1 ∧ s1.fTotalTime ≤ 1)) := by
  induction inputs with
  | nil =>
    intro g g1 s s1 tr k hinv h
    simp only [MixupState.trace, Option.some.injEq, Prod.mk.injEq] at h
    obtain ⟨htr, _, hs, _⟩ := h
    subst htr hs
    simpa using hinv
  | cons inp rest ih =>
    intro g g1 s s1 tr k hinv h
    simp only [MixupState.trace] at h
    cases hu : MixupState.OnUserUpdate m inp.fElapsedTime inp.pickOne inp.pickTwo g s with
    | none =>
      rw [hu] at h
      exact absurd h (by simp)
    | some r =>
      obtain ⟨g2, s2, nx⟩ := r
      rw [hu] at h
      have hnx : nx = GameState.MIXUP := by
        by_contra hne
        cases nx <;> first
          | exact hne rfl
          | (simp only [Option.some.injEq, Prod.mk.injEq] at h
             exact absurd h.2.2.2 (by decide))
      subst hnx
      simp only at h
      cases hr : MixupState.trace m rest (g2, s2) with
      | none =>
        rw [hr] at h
        exact absurd h (by simp)
      | some r2 =>
        obtain ⟨tr2, g3, s3, nx3⟩ := r2
        rw [hr] at h
        simp only [Option.some.injEq, Prod.mk.injEq] at h
        obtain ⟨htr, hg, hs, hn⟩ := h
        subst htr hg hs hn
        rcases hinv with ⟨hp, hc, hk⟩ | ⟨ha, hc, hk, ht⟩
        · obtain ⟨_, _, e3, e4, e5⟩ := MixupState.update_pick _ _ _ _ _ _ _ _ _ hp hu
          have := ih g2 g3 s2 s3 tr2 (k + 1)
            (Or.inr ⟨e3, by rw [e4]; exact hc, by rw [e4]; omega, by rw [e5]; norm_num⟩) hr
          rw [List.filter_cons_of_pos (by simp [hp])]
          simp only [List.length_cons]
          push_cast
          rcases this with ⟨a, b, c⟩ | ⟨a, b, c, d⟩
          · exact Or.inl ⟨a, b, by omega⟩
          · exact Or.inr ⟨a, b, by omega, d⟩
        · obtain ⟨e1, e2, e3, e4⟩ := MixupState.update_animate _ _ _ _ _ _ _ _ _ ha hu
          have hcount : s2.mixup_count ≠ 0 := by
            intro h0
            exact absurd (e4 h0) (by decide)
          obtain ⟨_, e5⟩ := e3 hcount
          have hinv2 : (s2.inner_state = MixupState.InnerState.PICK ∧ 0 < s2.mixup_count ∧
              k + s2.mixup_count = n) ∨
              (s2.inner_state = MixupState.InnerState.ANIMATE ∧ 0 < s2.mixup_count ∧
                k + s2.mixup_count = n + 1 ∧ s2.fTotalTime ≤ 1) := by
            by_cases hT : s2.fTotalTime > 1
            · rw [if_pos hT] at e2 e5
              exact Or.inl ⟨e5, by omega, by omega⟩
            · rw [if_neg hT] at e2 e5
              exact Or.inr ⟨e5, by omega, by omega, not_lt.mp hT⟩
          have := ih g2 g3 s2 s3 tr2 k hinv2 hr
          rw [List.filter_cons_of_neg (by simp [ha])]
          exact this

/-- Claim C15: when MIXUP is entered with `mixup_count = n > 0` on a board of at least
two cards, a run of frames with valid draws has a result and ends in MIXUP (frames used
up) or SELECT_FIRST. While it is in MIXUP swaps remain, and the pairs picked so far are
the swaps completed plus the one in progress, whose accumulated time is at most 1.0.
When it returns SELECT_FIRST exactly `n` frames were PICK frames (`Pick` ran exactly `n`
times), the count has gone from `n` to 0, and SELECT_FIRST is returned by the ANIMATE
frame of the last swap on which the accumulated time, at most 1.0 before the frame,
first exceeds 1.0. -/
theorem MixupState.picks_exactly (m : Libm) (inputs : List Input) (g : Globals)
    (s0 s : MixupState) (n : Int)
    (henter : MixupState.EnterState g s0 = some s) (hn : s.mixup_count = n) (hpos : 0 < n)
    (_hboard : 2 ≤ g.the_cards.length)
    (hdraws : ∀ inp ∈ inputs, inp.pickOne < g.the_cards.length ∧
      ∃ d2, MixupState.drawTwo inp.pickOne g.the_cards.length inp.pickTwo = some d2) :
    ∃ tr g1 s1 next, MixupState.trace m inputs (g, s) = some (tr, g1, s1, next) ∧
      (next = GameState.MIXUP ∨ next = GameState.SELECT_FIRST) ∧
      (next = GameState.MIXUP →
        (s1.inner_state = MixupState.InnerState.PICK ∧ 0 < s1.mixup_count ∧
          ((tr.filter (fun t =>
            decide (t.inner_state = MixupState.InnerState.PICK))).length : Int) +
            s1.mixup_count = n) ∨
        (s1.inner_state = MixupState.InnerState.ANIMATE ∧ 0 < s1.mixup_count ∧
          ((tr.filter (fun t =>
            decide (t.inner_state = MixupState.InnerState.PICK))).length : Int) +
            s1.mixup_count = n + 1 ∧ s1.fTotalTime ≤ 1)) ∧
      (next = GameState.SELECT_FIRST →
        ((tr.filter (fun t =>
          decide (t.inner_state = MixupState.InnerState.PICK))).length : Int) = n ∧
        s1.mixup_count = 0 ∧ 1 < s1.fTotalTime ∧
        ∃ sl, tr.getLast? = some sl ∧ sl.inner_state = MixupState.InnerState.ANIMATE ∧
          sl.fTotalTime ≤ 1 ∧ sl.mixup_count = 1) := by
  obtain ⟨_, _, _, hpick, _⟩ := MixupState.mixup_enter_spec g s0 s henter
  have hp : s.inner_state = MixupState.InnerState.PICK := hpick (by omega)
  obtain ⟨tr, g1, s1, next, hrun, hnext⟩ := MixupState.trace_some m inputs g s
    (fun h0 => absurd (hp.symm.trans h0) (by decide)) hdraws
  refine ⟨tr, g1, s1, next, hrun, hnext, ?_, ?_⟩
  · intro h0
    subst h0
    have h := MixupState.trace_running m n inputs g g1 s s1 tr 0
      (Or.inl ⟨hp, by omega, by omega⟩) hrun
    simpa using h
  · intro h0
    subst h0
    have h := MixupState.trace_picks m n inputs g g1 s s1 tr 0
      (Or.inl ⟨hp, by omega, by omega⟩) hrun
    simpa using h

/-- Two cards, one swap to make: a PICK frame and two ANIMATE frames of 3/4 time units;
the second ANIMATE frame returns SELECT_FIRST. -/
theorem MixupState.picks_exactly_witness :
    MixupState.EnterState exTwo MemoryGame.init.mixup =
      some { MemoryGame.init.mixup with
        mixup_count := 1, pick_new := true, inner_state := MixupState.InnerState.PICK } ∧
    (∃ g1 s1, MixupState.run exLibmHalf [exInput (3 / 4), exInput (3 / 4), exInput (3 / 4)]
      (exTwo, { MemoryGame.init.mixup with
        mixup_count := 1, pick_new := true, inner_state := MixupState.InnerState.PICK }) =
      some (g1, s1, GameState.SELECT_FIRST)) ∧
    ∃ tr g1 s1 next,
      MixupState.trace exLibmHalf [exInput (3 / 4), exInput (3 / 4), exInput (3 / 4)]
        (exTwo, { MemoryGame.init.mixup with
          mixup_count := 1, pick_new := true, inner_state := MixupState.InnerState.PICK }) =
        some (tr, g1, s1, next) ∧
      (next = GameState.MIXUP ∨ next = GameState.SELECT_FIRST) ∧
      (next = GameState.MIXUP →
        (s1.inner_state = MixupState.InnerState.PICK ∧ 0 < s1.mixup_count ∧
          ((tr.filter (fun t =>
            decide (t.inner_state = MixupState.InnerState.PICK))).length : Int) +
            s1.mixup_count = 1) ∨
        (s1.inner_state = MixupState.InnerState.ANIMATE ∧ 0 < s1.mixup_count ∧
          ((tr.filter (fun t =>
            decide (t.inner_state = MixupState.InnerState.PICK))).length : Int) +
            s1.mixup_count = 1 + 1 ∧ s1.fTotalTime ≤ 1)) ∧
      (next = GameState.SELECT_FIRST →
        ((tr.filter (fun t =>
          decide (t.inner_state = MixupState.InnerState.PICK))).length : Int) = 1 ∧
        s1.mixup_count = 0 ∧ 1 < s1.fTotalTime ∧
        ∃ sl, tr.getLast? = some sl ∧ sl.inner_state = MixupState.InnerState.ANIMATE ∧
          sl.fTotalTime ≤ 1 ∧ sl.mixup_count = 1) := by
  have henter : MixupState.EnterState exTwo MemoryGame.init.mixup =
      some { MemoryGame.init.mixup with
        mixup_count := 1, pick_new := true, inner_state := MixupState.InnerState.PICK } := by
    norm_num [MixupState.EnterState, exTwo, MemoryGame.init, floorSqrt]
  refine ⟨henter, ?_, MixupState.picks_exactly exLibmHalf _ exTwo MemoryGame.init.mixup _ 1
    henter rfl (by decide) (by decide) ?_⟩
  · norm_num [MixupState.run, MixupState.OnUserUpdate, MixupState.Pick,
      MixupState.drawTwo, MixupState.Animate, exInput, exCard, exTwo, MemoryGame.init,
      timeScale, cardAt, setPos]
  · intro inp hinp
    simp only [List.mem_cons, List.mem_singleton, List.not_mem_nil, or_false, or_self]
      at hinp
    subst hinp
    exact ⟨by decide, 1, by decide⟩


/-- The integer square root is 0 for the argument 0 only. -/
theorem floorSqrt_eq_zero_iff (n : Int) (hn : 0 ≤ n) : floorSqrt n = 0 ↔ n = 0 := by
  unfold floorSqrt
  constructor
  · intro h
    have h1 : Nat.sqrt n.toNat = 0 := by exact_mod_cast h
    have h2 : n.toNat = 0 := Nat.sqrt_eq_zero.mp h1
    omega
  · intro h
    rw [h]
    rfl

/-- Claim C21: for every `round_number >= 1` and every integer `turn_number`, the
argument `round_number + max(-1, turn_number - 5)` of the square root in
`MixupState::EnterState` is non-negative, so `EnterState` has a result whose
`mixup_count` is the floor of the square root and is non-negative; `mixup_count = 0`
exactly when `round_number = 1` and `turn_number <= 4`, and `mixup_count >= 1` in every
other case. -/
theorem MixupState.mixup_count_zero_iff (g : Globals) (s0 : MixupState)
    (hr : 1 ≤ g.round_number) :
    0 ≤ g.round_number + max (-1) (g.turn_number - 5) ∧
    ∃ s, MixupState.EnterState g s0 = some s ∧
      s.mixup_count = floorSqrt (g.round_number + max (-1) (g.turn_number - 5)) ∧
      0 ≤ s.mixup_count ∧
      (s.mixup_count = 0 ↔ g.round_number = 1 ∧ g.turn_number ≤ 4) ∧
      (¬ (g.round_number = 1 ∧ g.turn_number ≤ 4) → 1 ≤ s.mixup_count) := by
  have hmax : -1 ≤ max (-1) (g.turn_number - 5) := le_max_left _ _
  have harg : 0 ≤ g.round_number + max (-1) (g.turn_number - 5) := by omega
  have hzero : g.round_number + max (-1) (g.turn_number - 5) = 0 ↔
      g.round_number = 1 ∧ g.turn_number ≤ 4 := by
    rcases le_total (g.turn_number - 5) (-1) with h | h
    · rw [max_eq_left h]; omega
    · rw [max_eq_right h]; omega
  have hsome : ∃ s, MixupState.EnterState g s0 = some s := by
    unfold MixupState.EnterState
    simp only
    rw [if_neg (not_lt.mpr harg)]
    split_ifs <;> exact ⟨_, rfl⟩
  obtain ⟨s, hs⟩ := hsome
  obtain ⟨_, hcount, _, _, _⟩ := MixupState.mixup_enter_spec g s0 s hs
  have hnn : 0 ≤ s.mixup_count := by
    rw [hcount]; unfold floorSqrt; positivity
  have hiff : s.mixup_count = 0 ↔ g.round_number = 1 ∧ g.turn_number ≤ 4 := by
    rw [hcount, floorSqrt_eq_zero_iff _ harg]
    exact hzero
  refine ⟨harg, s, hs, hcount, hnn, hiff, fun hne => ?_⟩
  have : s.mixup_count ≠ 0 := fun h0 => hne (hiff.mp h0)
  omega

/-- Round 1, turn 5 on the two-card board: the argument is 1 and one swap is made. -/
theorem MixupState.mixup_count_zero_iff_witness :
    0 ≤ exTwo.round_number + max (-1) (exTwo.turn_number - 5) ∧
    ∃ s, MixupState.EnterState exTwo MemoryGame.init.mixup = some s ∧
      s.mixup_count = floorSqrt (exTwo.round_number + max (-1) (exTwo.turn_number - 5)) ∧
      0 ≤ s.mixup_count ∧
      (s.mixup_count = 0 ↔ exTwo.round_number = 1 ∧ exTwo.turn_number ≤ 4) ∧
      (¬ (exTwo.round_number = 1 ∧ exTwo.turn_number ≤ 4) → 1 ≤ s.mixup_count) :=
  MixupState.mixup_count_zero_iff exTwo MemoryGame.init.mixup (by decide)

theorem roundEven_floor_or (x : ℚ) : roundEven x = ⌊x⌋ ∨ roundEven x = ⌊x⌋ + 1 := by
  unfold roundEven
  simp only
  split_ifs
  · exact Or.inl rfl
  · exact Or.inr rfl
  · exact Or.inl rfl
  · exact Or.inr rfl

/-- The rounded value is at most half a unit away. -/
theorem roundEven_abs_le (x : ℚ) : |(roundEven x : ℚ) - x| ≤ 1 / 2 := by
  have h1 := Int.floor_le x
  have h2 := Int.lt_floor_add_one x
  unfold roundEven
  simp only
  split_ifs with a b c
  · rw [abs_le]; constructor <;> linarith
  · rw [abs_le]; push_cast; constructor <;> linarith
  · rw [abs_le]; constructor <;> linarith
  · rw [abs_le]; push_cast; constructor <;> linarith

/-- No integer is nearer to `x` than `roundEven x`. -/
theorem roundEven_nearest (x : ℚ) (j : Int) : |(roundEven x : ℚ) - x| ≤ |(j : ℚ) - x| := by
  have h1 := Int.floor_le x
  have h2 := Int.lt_floor_add_one x
  have hj : j ≤ ⌊x⌋ ∨ ⌊x⌋ + 1 ≤ j := by omega
  have hjx : ((j : ℚ) ≤ (⌊x⌋ : ℚ)) ∨ ((⌊x⌋ : ℚ) + 1 ≤ (j : ℚ)) := by
    rcases hj with h | h
    · exact Or.inl (by exact_mod_cast h)
    · exact Or.inr (by exact_mod_cast h)
  have e1 := le_abs_self ((j : ℚ) - x)
  have e2 := neg_abs_le ((j : ℚ) - x)
  unfold roundEven
  simp only
  split_ifs with a b c
  · rw [abs_le]
    constructor <;> rcases hjx with h | h <;> linarith
  · rw [abs_le]; push_cast
    constructor <;> rcases hjx with h | h <;> linarith
  · rw [abs_le]
    have hr : x - (⌊x⌋ : ℚ) = 1 / 2 := le_antisymm (not_lt.mp b) (not_lt.mp a)
    constructor <;> rcases hjx with h | h <;> linarith
  · rw [abs_le]; push_cast
    have hr : x - (⌊x⌋ : ℚ) = 1 / 2 := le_antisymm (not_lt.mp b) (not_lt.mp a)
    constructor <;> rcases hjx with h | h <;> linarith

theorem roundEven_intCast (n : Int) : roundEven (n : ℚ) = n := by
  have h := roundEven_nearest (n : ℚ) n
  rw [sub_self, abs_zero] at h
  have h0 : (roundEven (n : ℚ) : ℚ) - n = 0 := abs_eq_zero.mp (le_antisymm h (abs_nonneg _))
  have : (roundEven (n : ℚ) : ℚ) = n := by linarith
  exact_mod_cast this

/-- Rounding does not cross an integer. -/
theorem roundEven_le_of_le (x : ℚ) (j : Int) (h : x ≤ j) : roundEven x ≤ j := by
  by_contra hcon
  have h1 : j + 1 ≤ roundEven x := by omega
  have h1q : (j : ℚ) + 1 ≤ (roundEven x : ℚ) := by exact_mod_cast h1
  have h2 := roundEven_nearest x j
  rw [abs_of_nonneg (by linarith), abs_of_nonneg (by linarith)] at h2
  linarith

theorem roundEven_ge_of_ge (x : ℚ) (j : Int) (h : (j : ℚ) ≤ x) : j ≤ roundEven x := by
  by_contra hcon
  have h1 : roundEven x + 1 ≤ j := by omega
  have h1q : (roundEven x : ℚ) + 1 ≤ (j : ℚ) := by exact_mod_cast h1
  have h2 := roundEven_nearest x j
  rw [abs_of_nonpos (by linarith), abs_of_nonpos (by linarith)] at h2
  linarith

/-- An integer less than half a unit away from `x` is the rounded value. -/
theorem roundEven_eq_of_abs_lt (x : ℚ) (n : Int) (h : |x - n| < 1 / 2) : roundEven x = n := by
  have h1 := roundEven_abs_le x
  rw [abs_lt] at h
  rw [abs_le] at h1
  have h2 : ((roundEven x : ℚ) - n) < 1 := by linarith
  have h3 : -1 < ((roundEven x : ℚ) - n) := by linarith
  have h4 : (roundEven x - n : Int) < 1 := by exact_mod_cast h2
  have h5 : (-1 : Int) < (roundEven x - n : Int) := by exact_mod_cast h3
  omega


theorem f32exp_ge (q : ℚ) : -126 ≤ f32exp q := le_max_right _ _

theorem two_zpow_pos (e : Int) : (0 : ℚ) < 2 ^ e := zpow_pos (by norm_num) e

/-- Every rational lies below the upper end of its binade. -/
theorem abs_lt_zpow_f32exp (q : ℚ) : |q| < 2 ^ (f32exp q + 1) := by
  have h := Int.lt_zpow_succ_log_self (R := ℚ) (b := 2) (by norm_num) |q|
  have h2 : ((2 : ℕ) : ℚ) ^ (Int.log 2 |q| + 1) ≤ (2 : ℚ) ^ (f32exp q + 1) := by
    rw [Nat.cast_ofNat]
    apply zpow_le_zpow_right₀ (by norm_num)
    unfold f32exp
    have := le_max_left (Int.log 2 |q|) (-126)
    omega
  exact lt_of_lt_of_le h h2

/-- Above the subnormal range a non-zero rational lies above the lower end of its
binade. -/
theorem zpow_f32exp_le (q : ℚ) (hq : q ≠ 0) (hE : -126 < f32exp q) :
    (2 : ℚ) ^ f32exp q ≤ |q| := by
  have hlog : f32exp q = Int.log 2 |q| := by
    unfold f32exp at hE ⊢
    rcases le_total (Int.log 2 |q|) (-126) with h | h
    · rw [max_eq_right h] at hE
      omega
    · exact max_eq_left h
  rw [hlog]
  have h := Int.zpow_log_le_self (R := ℚ) (b := 2) (by norm_num) (abs_pos.mpr hq)
  rwa [Nat.cast_ofNat] at h

/-- The binade of a rational is determined by the powers of two around it. -/
theorem f32exp_eq (q : ℚ) (E : Int) (hE : -126 ≤ E) (hlo : (2 : ℚ) ^ E ≤ |q|)
    (hhi : |q| < 2 ^ (E + 1)) : f32exp q = E := by
  have hpos : 0 < |q| := lt_of_lt_of_le (two_zpow_pos E) hlo
  have h1 : E ≤ Int.log 2 |q| := by
    apply (Int.zpow_le_iff_le_log (R := ℚ) (b := 2) (by norm_num) hpos).mp
    rwa [Nat.cast_ofNat]
  have h2 : Int.log 2 |q| < E + 1 := by
    apply (Int.lt_zpow_iff_log_lt (R := ℚ) (b := 2) (by norm_num) hpos).mp
    rwa [Nat.cast_ofNat]
  unfold f32exp
  rw [max_eq_left (by omega)]
  omega

/-- Evaluation of the rounding on a rational whose binade and nearest multiple of the
spacing are known. -/
theorem f32_eval (q : ℚ) (E n : Int) (hE : -126 ≤ E) (hlo : (2 : ℚ) ^ E ≤ |q|)
    (hhi : |q| < 2 ^ (E + 1)) (hn : |q / 2 ^ (E - 23) - n| < 1 / 2) :
    f32 q = (n : ℚ) * 2 ^ (E - 23) := by
  unfold f32
  rw [f32exp_eq q E hE hlo hhi, roundEven_eq_of_abs_lt _ n hn]

theorem f32_zero : f32 0 = 0 := by
  unfold f32
  rw [zero_div]
  have : roundEven 0 = 0 := by
    have := roundEven_intCast 0
    simpa using this
  rw [this]
  simp

/-- A rounded value is a `float`. -/
theorem isF32_f32 (q : ℚ) : IsF32 (f32 q) := by
  have hu := two_zpow_pos (f32exp q - 23)
  have hlt := abs_lt_zpow_f32exp q
  have hE := f32exp_ge q
  have hsplit : (2 : ℚ) ^ (f32exp q + 1) = 2 ^ (24 : Int) * 2 ^ (f32exp q - 23) := by
    rw [← zpow_add₀ (by norm_num)]
    congr 1
    ring
  have hq : |q / 2 ^ (f32exp q - 23)| < 2 ^ (24 : Int) := by
    rw [abs_div, abs_of_pos hu, div_lt_iff₀ hu, ← hsplit]
    exact hlt
  rw [abs_lt] at hq
  have h24 : ((2 : ℚ) ^ (24 : Int)) = (((2 : Int) ^ 24 : Int) : ℚ) := by norm_num
  have hle : roundEven (q / 2 ^ (f32exp q - 23)) ≤ 2 ^ 24 :=
    roundEven_le_of_le _ _ (by rw [← h24]; exact le_of_lt hq.2)
  have hge : -(2 ^ 24) ≤ roundEven (q / 2 ^ (f32exp q - 23)) :=
    roundEven_ge_of_ge _ _ (by
      have := hq.1
      norm_num at this ⊢
      exact le_of_lt this)
  unfold f32
  rcases lt_or_eq_of_le hle with h1 | h1
  · rcases lt_or_eq_of_le hge with h2 | h2
    · exact ⟨roundEven (q / 2 ^ (f32exp q - 23)), f32exp q - 23,
        abs_lt.mpr ⟨h2, h1⟩, by omega, rfl⟩
    · refine ⟨-1, f32exp q + 1, by norm_num, by omega, ?_⟩
      rw [← h2, hsplit]
      push_cast
      norm_num
  · refine ⟨1, f32exp q + 1, by norm_num, by omega, ?_⟩
    rw [h1, hsplit]
    push_cast
    norm_num

/-- A `float` of magnitude at least `2 ^ E` is a multiple of the spacing
`2 ^ (E - 23)` of that binade. -/
theorem IsF32.multiple (v : ℚ) (hv : IsF32 v) (E : Int) (h : (2 : ℚ) ^ E ≤ |v|) :
    ∃ n : Int, v = (n : ℚ) * 2 ^ (E - 23) := by
  obtain ⟨k, e, hk, _, rfl⟩ := hv
  have hkq : |(k : ℚ)| < 2 ^ (24 : Int) := by
    have : ((|k| : Int) : ℚ) < ((2 ^ 24 : Int) : ℚ) := by exact_mod_cast hk
    rw [Int.cast_abs] at this
    norm_num at this ⊢
    exact this
  have hlt : (2 : ℚ) ^ E < 2 ^ (e + 24) := by
    calc (2 : ℚ) ^ E ≤ |(k : ℚ) * 2 ^ e| := h
      _ = |(k : ℚ)| * 2 ^ e := by rw [abs_mul, abs_of_pos (two_zpow_pos e)]
      _ < 2 ^ (24 : Int) * 2 ^ e := by
        exact mul_lt_mul_of_pos_right hkq (two_zpow_pos e)
      _ = 2 ^ (e + 24) := by rw [← zpow_add₀ (by norm_num)]; congr 1; ring
  have hEe : E < e + 24 := (zpow_lt_zpow_iff_right₀ (by norm_num : (1 : ℚ) < 2)).mp hlt
  obtain ⟨d, hd⟩ := Int.eq_ofNat_of_zero_le (show 0 ≤ e - (E - 23) by omega)
  refine ⟨k * 2 ^ d, ?_⟩
  have he : e = (d : Int) + (E - 23) := by omega
  rw [he, zpow_add₀ (by norm_num), zpow_natCast]
  push_cast
  ring

/-- Every `float` is a multiple of the smallest subnormal number. -/
theorem IsF32.multiple_min (v : ℚ) (hv : IsF32 v) :
    ∃ n : Int, v = (n : ℚ) * 2 ^ (-149 : Int) := by
  obtain ⟨k, e, _, he, rfl⟩ := hv
  obtain ⟨d, hd⟩ := Int.eq_ofNat_of_zero_le (show 0 ≤ e - (-149) by omega)
  refine ⟨k * 2 ^ d, ?_⟩
  have he : e = (d : Int) + (-149) := by omega
  rw [he, zpow_add₀ (by norm_num), zpow_natCast]
  push_cast
  ring

/-- No multiple of the spacing of the binade of `z` is nearer to `z` than `f32 z`. -/
theorem f32_nearest_multiple (z : ℚ) (j : Int) :
    |f32 z - z| ≤ |(j : ℚ) * 2 ^ (f32exp z - 23) - z| := by
  have hu := two_zpow_pos (f32exp z - 23)
  have h := roundEven_nearest (z / 2 ^ (f32exp z - 23)) j
  have e1 : f32 z - z =
      ((roundEven (z / 2 ^ (f32exp z - 23)) : ℚ) - z / 2 ^ (f32exp z - 23)) *
        2 ^ (f32exp z - 23) := by
    unfold f32
    field_simp
  have e2 : (j : ℚ) * 2 ^ (f32exp z - 23) - z =
      ((j : ℚ) - z / 2 ^ (f32exp z - 23)) * 2 ^ (f32exp z - 23) := by
    field_simp
  rw [e1, e2, abs_mul, abs_mul, abs_of_pos hu]
  exact mul_le_mul_of_nonneg_right h (le_of_lt hu)


/-- A `float` is a multiple of the spacing of its own binade. -/
theorem IsF32.multiple_self (v : ℚ) (hv : IsF32 v) :
    ∃ n : Int, v = (n : ℚ) * 2 ^ (f32exp v - 23) := by
  by_cases h0 : v = 0
  · exact ⟨0, by rw [h0]; simp⟩
  · rcases eq_or_lt_of_le (f32exp_ge v) with hE | hE
    · obtain ⟨n, hn⟩ := IsF32.multiple_min v hv
      refine ⟨n, ?_⟩
      rw [← hE]
      exact hn
    · exact IsF32.multiple v hv _ (zpow_f32exp_le v h0 hE)

/-- Rounding leaves a `float` as it is. -/
theorem f32_of_isF32 (v : ℚ) (hv : IsF32 v) : f32 v = v := by
  obtain ⟨n, hn⟩ := IsF32.multiple_self v hv
  have h := f32_nearest_multiple v n
  rw [← hn, sub_self, abs_zero] at h
  have h0 : f32 v - v = 0 := abs_eq_zero.mp (le_antisymm h (abs_nonneg _))
  linarith

/-- No `float` is nearer to `z` than `f32 z`. -/
theorem f32_nearest (z h : ℚ) (hh : IsF32 h) : |f32 z - z| ≤ |h - z| := by
  by_cases h0 : z = 0
  · rw [h0, f32_zero]
    simp
  · rcases eq_or_lt_of_le (f32exp_ge z) with hE | hE
    · obtain ⟨n, hn⟩ := IsF32.multiple_min h hh
      have := f32_nearest_multiple z n
      rw [← hE] at this
      rw [hn]
      exact this
    · by_cases hbig : (2 : ℚ) ^ f32exp z ≤ |h|
      · obtain ⟨n, hn⟩ := IsF32.multiple h hh _ hbig
        rw [hn]
        exact f32_nearest_multiple z n
      · have hlo := zpow_f32exp_le z h0 hE
        have hsmall := not_le.mp hbig
        have hsplit : (2 : ℚ) ^ f32exp z = 2 ^ (23 : Int) * 2 ^ (f32exp z - 23) := by
          rw [← zpow_add₀ (by norm_num)]
          congr 1
          ring
        have h23 : ((2 : ℚ) ^ (23 : Int)) = (((2 : Int) ^ 23 : Int) : ℚ) := by norm_num
        have e1 := le_abs_self (h - z)
        have e2 := neg_abs_le (h - z)
        have e3 := le_abs_self h
        have e4 := neg_abs_le h
        rcases le_or_lt 0 z with hz | hz
        · have := f32_nearest_multiple z (2 ^ 23)
          rw [← h23, ← hsplit] at this
          rw [abs_of_nonneg hz] at hlo
          rw [abs_of_nonpos (by linarith : (2 : ℚ) ^ f32exp z - z ≤ 0)] at this
          linarith
        · have := f32_nearest_multiple z (-(2 ^ 23))
          rw [Int.cast_neg, ← h23, neg_mul, ← hsplit] at this
          rw [abs_of_neg hz] at hlo
          rw [abs_of_nonneg (by linarith : 0 ≤ -(2 : ℚ) ^ f32exp z - z)] at this
          linarith

/-- Rounding does not cross a `float`. -/
theorem f32_le_of_le (z h : ℚ) (hh : IsF32 h) (hle : z ≤ h) : f32 z ≤ h := by
  by_contra hcon
  have h1 := f32_nearest z h hh
  rw [abs_of_nonneg (by linarith [not_le.mp hcon]), abs_of_nonneg (by linarith)] at h1
  linarith [not_le.mp hcon]

theorem f32_ge_of_ge (z h : ℚ) (hh : IsF32 h) (hle : h ≤ z) : h ≤ f32 z := by
  by_contra hcon
  have h1 := f32_nearest z h hh
  rw [abs_of_nonpos (by linarith [not_le.mp hcon]), abs_of_nonpos (by linarith)] at h1
  linarith [not_le.mp hcon]

/-- An integer of fewer than 24 bits is a `float`. -/
theorem isF32_intCast (n : Int) (h : |n| < 2 ^ 24) : IsF32 (n : ℚ) :=
  ⟨n, 0, h, by norm_num, by simp⟩

/-- The only `float` less than `2 ^ -24` away from 1 or from -1 is that number. -/
theorem IsF32.eq_of_near_one (v c : ℚ) (hv : IsF32 v) (hc : c = 1 ∨ c = -1)
    (h : |v - c| < 1 / 2 ^ 24) : v = c := by
  have hbig : (2 : ℚ) ^ (-1 : Int) ≤ |v| := by
    have e1 := le_abs_self v
    have e2 := neg_abs_le v
    rw [abs_lt] at h
    norm_num at h ⊢
    rcases hc with hc | hc <;> rw [hc] at h <;> linarith [h.1, h.2]
  obtain ⟨n, hn⟩ := IsF32.multiple v hv (-1) hbig
  have hu : (2 : ℚ) ^ ((-1 : Int) - 23) = 1 / 2 ^ 24 := by norm_num
  rw [hu] at hn
  have hcn : ∃ cn : Int, c = (cn : ℚ) * (1 / 2 ^ 24) := by
    rcases hc with hc | hc
    · exact ⟨2 ^ 24, by rw [hc]; norm_num⟩
    · exact ⟨-(2 ^ 24), by rw [hc]; norm_num⟩
  obtain ⟨cn, hcn⟩ := hcn
  rw [hn, hcn, ← sub_mul, abs_mul, abs_of_pos (by norm_num : (0 : ℚ) < 1 / 2 ^ 24)] at h
  have h1 : |((n : ℚ) - (cn : ℚ))| < 1 := by
    have hpos : (0 : ℚ) < 1 / 2 ^ 24 := by norm_num
    by_contra hcon
    have := mul_le_mul_of_nonneg_right (not_lt.mp hcon) (le_of_lt hpos)
    linarith
  have h2 : |n - cn| < 1 := by
    have : ((|n - cn| : Int) : ℚ) < ((1 : Int) : ℚ) := by
      rw [Int.cast_abs]; push_cast; exact h1
    exact_mod_cast this
  have h3 : n = cn := by
    have := abs_lt.mp h2
    omega
  rw [hn, hcn, h3]


/-- The error of `cosIter j` on arguments of magnitude at most `2 ^ j / 2 ^ 20`. -/
theorem cosIter_bound (j : Nat) (hj : j ≤ 22) :
    ∀ y : ℚ, |(y : ℝ)| ≤ 2 ^ j / 2 ^ 20 →
      |((cosIter j y : ℚ) : ℝ) - Real.cos (y : ℝ)| ≤
        6 ^ j * (5 / 96) * (|(y : ℝ)| / 2 ^ j) ^ 4 := by
  induction j with
  | zero =>
    intro y hy
    have h1 : |(y : ℝ)| ≤ 1 := le_trans hy (by norm_num)
    have := Real.cos_bound h1
    rw [abs_sub_comm] at this
    simp only [cosIter]
    push_cast
    simpa [mul_comm] using this
  | succ j ih =>
    intro y hy
    have hy2 : |((y / 2 : ℚ) : ℝ)| ≤ 2 ^ j / 2 ^ 20 := by
      push_cast
      rw [abs_div, abs_of_pos (by norm_num : (0 : ℝ) < 2)]
      rw [pow_succ] at hy
      linarith
    have h := ih (by omega) (y / 2) hy2
    have hratio : |((y / 2 : ℚ) : ℝ)| / 2 ^ j = |(y : ℝ)| / 2 ^ (j + 1) := by
      push_cast
      rw [abs_div, abs_of_pos (by norm_num : (0 : ℝ) < 2), pow_succ, div_div]
      congr 1
      ring
    rw [hratio] at h
    have hr0 : 0 ≤ |(y : ℝ)| / 2 ^ (j + 1) := by positivity
    have hr1 : |(y : ℝ)| / 2 ^ (j + 1) ≤ 1 / 2 ^ 20 := by
      rw [div_le_iff₀ (by positivity)]
      calc |(y : ℝ)| ≤ 2 ^ (j + 1) / 2 ^ 20 := hy
        _ = 1 / 2 ^ 20 * 2 ^ (j + 1) := by ring
    have hr4 : (|(y : ℝ)| / 2 ^ (j + 1)) ^ 4 ≤ (1 / 2 ^ 20) ^ 4 :=
      pow_le_pow_left₀ hr0 hr1 4
    have h6 : (6 : ℝ) ^ j ≤ 6 ^ 22 := pow_le_pow_right₀ (by norm_num) (by omega)
    have he0 : 0 ≤ (6 : ℝ) ^ j * (5 / 96) * (|(y : ℝ)| / 2 ^ (j + 1)) ^ 4 := by positivity
    have he1 : (6 : ℝ) ^ j * (5 / 96) * (|(y : ℝ)| / 2 ^ (j + 1)) ^ 4 ≤ 1 := by
      calc (6 : ℝ) ^ j * (5 / 96) * (|(y : ℝ)| / 2 ^ (j + 1)) ^ 4
          ≤ 6 ^ 22 * (5 / 96) * (1 / 2 ^ 20) ^ 4 := by
            apply mul_le_mul (by linarith) hr4 (by positivity) (by positivity)
        _ ≤ 1 := by norm_num
    have hcos : Real.cos (y : ℝ) = 2 * Real.cos (((y / 2 : ℚ) : ℝ)) ^ 2 - 1 := by
      rw [← Real.cos_two_mul]
      congr 1
      push_cast
      ring
    have hc1 : |Real.cos (((y / 2 : ℚ) : ℝ))| ≤ 1 := Real.abs_cos_le_one _
    have hpow : (6 : ℝ) ^ (j + 1) * (5 / 96) * (|(y : ℝ)| / 2 ^ (j + 1)) ^ 4 =
        6 * ((6 : ℝ) ^ j * (5 / 96) * (|(y : ℝ)| / 2 ^ (j + 1)) ^ 4) := by
      rw [pow_succ (6 : ℝ) j]
      ring
    rw [hpow]
    simp only [cosIter]
    push_cast at hcos h hc1 ⊢
    rw [hcos]
    generalize Real.cos ((y : ℝ) / 2) = c at h hc1
    generalize ((cosIter j (y / 2) : ℚ) : ℝ) = c' at h
    generalize (6 : ℝ) ^ j * (5 / 96) * (|(y : ℝ)| / 2 ^ (j + 1)) ^ 4 = e at h he0 he1
    have hfact : 2 * c' ^ 2 - 1 - (2 * c ^ 2 - 1) = 2 * (c' - c) * (c' + c) := by ring
    have hsum : |c' + c| ≤ 3 := by
      have : c' + c = (c' - c) + 2 * c := by ring
      rw [this]
      calc |(c' - c) + 2 * c| ≤ |c' - c| + |2 * c| := abs_add _ _
        _ ≤ e + 2 := by
          rw [abs_mul, abs_of_pos (by norm_num : (0 : ℝ) < 2)]
          linarith
        _ ≤ 3 := by linarith
    rw [hfact, abs_mul, abs_mul, abs_of_pos (by norm_num : (0 : ℝ) < 2)]
    have h1 : |c' - c| * |c' + c| ≤ e * 3 :=
      mul_le_mul h hsum (abs_nonneg _) he0
    linarith


/-- The library `exLibmCos` has the accuracy `Libm.cosAccurate`. -/
theorem exLibmCos_accurate : exLibmCos.cosAccurate := by
  intro x hx0 hx4
  show IsF32 (cosF x) ∧ |((cosF x : ℚ) : ℝ) - Real.cos (x : ℝ)| ≤ 3 / 2 ^ 26
  unfold cosF
  have hxr : |(x : ℝ)| ≤ 2 ^ 22 / 2 ^ 20 := by
    have h0 : (0 : ℝ) ≤ (x : ℝ) := by exact_mod_cast hx0
    have h4 : (x : ℝ) ≤ 4 := by exact_mod_cast hx4
    rw [abs_of_nonneg h0]
    norm_num
    exact h4
  have hb := cosIter_bound 22 (le_refl _) x hxr
  have hb2 : |((cosIter 22 x : ℚ) : ℝ) - Real.cos (x : ℝ)| ≤ 1 / 2 ^ 27 := by
    refine le_trans hb ?_
    have hr0 : 0 ≤ |(x : ℝ)| / 2 ^ 22 := by positivity
    have hr1 : |(x : ℝ)| / 2 ^ 22 ≤ 1 / 2 ^ 20 := by
      rw [div_le_iff₀ (by positivity)]
      calc |(x : ℝ)| ≤ 2 ^ 22 / 2 ^ 20 := hxr
        _ = 1 / 2 ^ 20 * 2 ^ 22 := by ring
    have hr4 : (|(x : ℝ)| / 2 ^ 22) ^ 4 ≤ (1 / 2 ^ 20) ^ 4 := pow_le_pow_left₀ hr0 hr1 4
    calc (6 : ℝ) ^ 22 * (5 / 96) * (|(x : ℝ)| / 2 ^ 22) ^ 4
        ≤ 6 ^ 22 * (5 / 96) * (1 / 2 ^ 20) ^ 4 :=
          mul_le_mul_of_nonneg_left hr4 (by positivity)
      _ ≤ 1 / 2 ^ 27 := by norm_num
  -- keeping the value within [-1, 1] does not move it away from the cosine
  have hcl : |((max (-1) (min 1 (cosIter 22 x)) : ℚ) : ℝ) - Real.cos (x : ℝ)| ≤ 1 / 2 ^ 27 := by
    have hc1 := Real.cos_le_one (x : ℝ)
    have hc2 := Real.neg_one_le_cos (x : ℝ)
    rw [abs_le] at hb2 ⊢
    push_cast
    rcases le_total (1 : ℝ) ((cosIter 22 x : ℚ) : ℝ) with h1 | h1
    · rw [min_eq_left h1, max_eq_right (by norm_num)]
      constructor <;> linarith [hb2.1, hb2.2]
    · rw [min_eq_right h1]
      rcases le_total (-1 : ℝ) ((cosIter 22 x : ℚ) : ℝ) with h2 | h2
      · rw [max_eq_right h2]
        exact hb2
      · rw [max_eq_left h2]
        constructor <;> linarith [hb2.1, hb2.2]
  have hrange : |max (-1) (min 1 (cosIter 22 x))| ≤ (1 : ℚ) := by
    rw [abs_le]
    exact ⟨le_max_left _ _, max_le (by norm_num) (min_le_left _ _)⟩
  generalize max (-1) (min 1 (cosIter 22 x)) = c at hcl hrange ⊢
  have hround := abs_sub_round (c * 2 ^ 24)
  have hq : |(round (c * 2 ^ 24) : ℚ) / 2 ^ 24 - c| ≤ 1 / 2 ^ 25 := by
    have e : (round (c * 2 ^ 24) : ℚ) / 2 ^ 24 - c =
        -(c * 2 ^ 24 - (round (c * 2 ^ 24) : ℚ)) / 2 ^ 24 := by
      field_simp
      ring
    rw [e, abs_div, abs_neg, abs_of_pos (by norm_num : (0 : ℚ) < 2 ^ 24),
      div_le_iff₀ (by norm_num)]
    refine le_trans hround ?_
    norm_num
  have hn : |round (c * 2 ^ 24)| ≤ 2 ^ 24 := by
    have h1 : |(round (c * 2 ^ 24) : ℚ)| ≤ 2 ^ 24 + 1 / 2 := by
      have e1 : |c * 2 ^ 24| ≤ 2 ^ 24 := by
        rw [abs_mul, abs_of_pos (by norm_num : (0 : ℚ) < 2 ^ 24)]
        have := mul_le_mul_of_nonneg_right hrange (by norm_num : (0 : ℚ) ≤ 2 ^ 24)
        linarith
      rw [abs_le] at hround e1 ⊢
      constructor <;> linarith [hround.1, hround.2, e1.1, e1.2]
    have h2 : ((|round (c * 2 ^ 24)| : Int) : ℚ) < ((2 ^ 24 + 1 : Int) : ℚ) := by
      rw [Int.cast_abs]
      push_cast
      norm_num at h1 ⊢
      linarith
    have h3 : |round (c * 2 ^ 24)| < 2 ^ 24 + 1 := by exact_mod_cast h2
    omega
  constructor
  · rcases lt_or_eq_of_le hn with h1 | h1
    · exact ⟨round (c * 2 ^ 24), -24, h1, by norm_num, by
        rw [div_eq_mul_inv]
        norm_num⟩
    · rcases abs_eq (by norm_num : (0 : Int) ≤ 2 ^ 24) |>.mp h1 with h2 | h2
      · exact ⟨1, 0, by norm_num, by norm_num, by rw [h2]; norm_num⟩
      · exact ⟨-1, 0, by norm_num, by norm_num, by rw [h2]; norm_num⟩
  · have hqr : |(((round (c * 2 ^ 24) : ℚ) / 2 ^ 24 : ℚ) : ℝ) - (c : ℝ)| ≤ 1 / 2 ^ 25 := by
      have h2 : ((|(round (c * 2 ^ 24) : ℚ) / 2 ^ 24 - c| : ℚ) : ℝ) ≤
          ((1 / 2 ^ 25 : ℚ) : ℝ) := by exact_mod_cast hq
      rw [Rat.cast_abs] at h2
      push_cast at h2 ⊢
      exact h2
    rw [abs_le] at hqr hcl ⊢
    constructor <;> norm_num at hqr hcl ⊢ <;> linarith [hqr.1, hqr.2, hcl.1, hcl.2]


/-- The literal `3.1415926f` is 6588397 / 2097152 = 3.14159250259... -/
theorem piF_eq : piF = 6588397 / 2097152 := by
  unfold piF
  rw [f32_eval piLit 1 13176794 (by norm_num) (by norm_num [piLit, abs_of_pos])
    (by norm_num [piLit, abs_of_pos]) (by
      rw [abs_lt]
      norm_num [piLit])]
  norm_num

/-- An accurate library cosine returns exactly 1 at 0 and exactly -1 at `3.1415926f`. -/
theorem Libm.cosAccurate.values (m : Libm) (hm : m.cosAccurate) :
    m.cos 0 = 1 ∧ m.cos piF = -1 := by
  constructor
  · obtain ⟨hf, ha⟩ := hm 0 (le_refl _) (by norm_num)
    apply IsF32.eq_of_near_one _ _ hf (Or.inl rfl)
    have h1 : |((m.cos 0 : ℚ) : ℝ) - 1| < 1 / 2 ^ 24 := by
      rw [Rat.cast_zero, Real.cos_zero] at ha
      exact lt_of_le_of_lt ha (by norm_num)
    have h2 : ((|m.cos 0 - 1| : ℚ) : ℝ) < ((1 / 2 ^ 24 : ℚ) : ℝ) := by
      rw [Rat.cast_abs]
      push_cast
      exact h1
    exact_mod_cast h2
  · obtain ⟨hf, ha⟩ := hm piF (by rw [piF_eq]; norm_num) (by rw [piF_eq]; norm_num)
    apply IsF32.eq_of_near_one _ _ hf (Or.inr rfl)
    have hnear := cos_near_piLit ((piF : ℚ) : ℝ) (by
      rw [piF_eq, abs_le]
      push_cast
      constructor <;> norm_num)
    have h1 : |((m.cos piF : ℚ) : ℝ) - (-1)| < 1 / 2 ^ 24 := by
      rw [abs_lt] at hnear ⊢
      rw [abs_le] at ha
      constructor <;> norm_num at ha hnear ⊢ <;> linarith [ha.1, ha.2, hnear.1, hnear.2]
    have h2 : ((|m.cos piF - (-1)| : ℚ) : ℝ) < ((1 / 2 ^ 24 : ℚ) : ℝ) := by
      rw [Rat.cast_abs]
      push_cast
      push_cast at h1
      exact h1
    exact_mod_cast h2

/-- Claim C13: in single-precision arithmetic, with a library cosine that is accurate to
three quarters of a unit in the last place on `[0, 4]`, `Ease(0) = 0` and `Ease(1) = 1`,
so that for all `float` start and end values `a`, `b`, `lerp(a, b, Ease(0)) = a` and
`lerp(a, b, Ease(1)) = b` exactly. -/
theorem EaseF_endpoints (m : Libm) (hm : m.cosAccurate) :
    EaseF m 0 = 0 ∧ EaseF m 1 = 1 ∧
    ∀ a b : Vf2d, IsF32 a.x → IsF32 a.y → IsF32 b.x → IsF32 b.y →
      lerpF a b (EaseF m 0) = a ∧ lerpF a b (EaseF m 1) = b := by
  obtain ⟨hc0, hc1⟩ := Libm.cosAccurate.values m hm
  have hpi : IsF32 piF := isF32_f32 piLit
  have f1 : f32 1 = 1 := f32_of_isF32 1 (by
    have := isF32_intCast 1 (by norm_num)
    simpa using this)
  have fm2 : f32 (-2) = -2 := f32_of_isF32 (-2) (by
    have := isF32_intCast (-2) (by norm_num)
    simpa using this)
  have e0 : EaseF m 0 = 0 := by
    unfold EaseF
    rw [mul_zero, f32_zero, hc0, sub_self, f32_zero, neg_zero, zero_div, f32_zero]
  have e1 : EaseF m 1 = 1 := by
    unfold EaseF
    rw [mul_one, f32_of_isF32 piF hpi, hc1]
    norm_num
    rw [fm2]
    norm_num
    exact f1
  refine ⟨e0, e1, fun a b hax hay hbx hby => ?_⟩
  rw [e0, e1]
  unfold lerpF
  constructor
  · simp only [sub_zero, f1, one_mul, zero_mul, f32_zero, add_zero, f32_of_isF32 _ hax,
      f32_of_isF32 _ hay]
  · simp only [sub_self, f32_zero, zero_mul, one_mul, zero_add, f32_of_isF32 _ hbx,
      f32_of_isF32 _ hby]

/-- The library `exLibmCos`, whose cosine is within `3 / 2 ^ 26` of the real cosine on
`[0, 4]`. -/
theorem EaseF_endpoints_witness :
    EaseF exLibmCos 0 = 0 ∧ EaseF exLibmCos 1 = 1 ∧
    ∀ a b : Vf2d, IsF32 a.x → IsF32 a.y → IsF32 b.x → IsF32 b.y →
      lerpF a b (EaseF exLibmCos 0) = a ∧ lerpF a b (EaseF exLibmCos 1) = b :=
  EaseF_endpoints exLibmCos exLibmCos_accurate


/-- A value half-way between two integers is rounded to the even one. -/
theorem roundEven_eq_of_tie (x : ℚ) (n : Int) (hx : x = n + 1 / 2 ∨ x = n - 1 / 2)
    (he : n % 2 = 0) : roundEven x = n := by
  rcases hx with hx | hx
  · have hf : ⌊x⌋ = n := by
      rw [Int.floor_eq_iff, hx]
      constructor <;> linarith
    unfold roundEven
    simp only
    rw [hf, hx]
    norm_num
    omega
  · have hf : ⌊x⌋ = n - 1 := by
      rw [Int.floor_eq_iff, hx]
      push_cast
      constructor <;> linarith
    unfold roundEven
    simp only
    rw [hf, hx]
    push_cast
    norm_num
    omega

/-- Evaluation of the rounding on a rational half-way between two multiples of the
spacing of its binade. -/
theorem f32_eval_tie (q : ℚ) (E n : Int) (hE : -126 ≤ E) (hlo : (2 : ℚ) ^ E ≤ |q|)
    (hhi : |q| < 2 ^ (E + 1))
    (hn : q / 2 ^ (E - 23) = n + 1 / 2 ∨ q / 2 ^ (E - 23) = n - 1 / 2) (he : n % 2 = 0) :
    f32 q = (n : ℚ) * 2 ^ (E - 23) := by
  unfold f32
  rw [f32exp_eq q E hE hlo hhi, roundEven_eq_of_tie _ n hn he]


/-- The `float` ratio is 5991863 / 8388608 = 0.71428573..., the `float` nearest to
2.5 / 3.5. -/
theorem RoundStartState.ratioF_eq : RoundStartState.ratioF = 5991863 / 8388608 := by
  have h25 : f32 (25 / 10) = 25 / 10 :=
    f32_of_isF32 _ ⟨5, -1, by norm_num, by norm_num, by norm_num⟩
  have h35 : f32 (35 / 10) = 35 / 10 :=
    f32_of_isF32 _ ⟨7, -1, by norm_num, by norm_num, by norm_num⟩
  unfold RoundStartState.ratioF
  rw [h25, h35]
  rw [f32_eval (25 / 10 / (35 / 10)) (-1) 11983726 (by norm_num) (by norm_num [abs_of_pos])
    (by norm_num [abs_of_pos]) (by
      rw [abs_lt]
      norm_num)]
  norm_num


/-- The rounding error is at most `2 ^ -24` of the magnitude, or half the smallest
subnormal number. -/
theorem f32_error (z : ℚ) : |f32 z - z| ≤ |z| / 2 ^ 24 + 1 / 2 ^ 150 := by
  have hu := two_zpow_pos (f32exp z - 23)
  have hr := roundEven_abs_le (z / 2 ^ (f32exp z - 23))
  have e1 : f32 z - z =
      ((roundEven (z / 2 ^ (f32exp z - 23)) : ℚ) - z / 2 ^ (f32exp z - 23)) *
        2 ^ (f32exp z - 23) := by
    unfold f32
    field_simp
  have hhalf : |f32 z - z| ≤ 2 ^ (f32exp z - 23) / 2 := by
    rw [e1, abs_mul, abs_of_pos hu]
    have := mul_le_mul_of_nonneg_right hr (le_of_lt hu)
    linarith
  have hz0 := abs_nonneg z
  by_cases h0 : z = 0
  · rw [h0, f32_zero]
    norm_num
  · rcases eq_or_lt_of_le (f32exp_ge z) with hE | hE
    · rw [← hE] at hhalf
      have : (2 : ℚ) ^ ((-126 : Int) - 23) / 2 = 1 / 2 ^ 150 := by norm_num
      rw [this] at hhalf
      have : 0 ≤ |z| / 2 ^ 24 := by positivity
      linarith
    · have hlo := zpow_f32exp_le z h0 hE
      have hsplit : (2 : ℚ) ^ (f32exp z - 23) = 2 ^ f32exp z / 2 ^ 23 := by
        rw [zpow_sub₀ (by norm_num)]
        norm_num
      rw [hsplit] at hhalf
      have h4 : (2 : ℚ) ^ f32exp z / 2 ^ 23 / 2 ≤ |z| / 2 ^ 24 := by
        have := div_le_div_of_nonneg_right hlo (by norm_num : (0 : ℚ) ≤ 2 ^ 24)
        calc (2 : ℚ) ^ f32exp z / 2 ^ 23 / 2 = 2 ^ f32exp z / 2 ^ 24 := by ring
          _ ≤ |z| / 2 ^ 24 := this
      have : (0 : ℚ) ≤ 1 / 2 ^ 150 := by positivity
      linarith

/-- C18: for a grid of at least one column and one row the card size chosen from the
`float`s `maxCardWidth` and `maxCardHeight` has width at most `maxCardWidth` and height
at most `maxCardHeight`, and attains one of the two bounds. Its aspect ratio is
2.5 / 3.5 up to rounding: with `r` the `float` nearest to 2.5 / 3.5, the width is the
`float` nearest to height times `r` when the height is the binding axis, and the height
is the `float` nearest to width divided by `r` when the width is; in both cases the
width differs from height times 2.5 / 3.5 by at most `(|width| + |height|) / 2 ^ 23`
plus the underflow term `2 ^ -149`. -/
theorem RoundStartState.card_sizeF_bounds
    (canvasWidth canvasHeight fieldWidth fieldHeight : Int) (min_gap : ℚ)
    (_hw : 1 ≤ fieldWidth) (_hh : 1 ≤ fieldHeight) :
    (((RoundStartState.cardSizeF canvasWidth canvasHeight fieldWidth fieldHeight min_gap).y =
        RoundStartState.maxCardF canvasHeight fieldHeight min_gap ∧
      (RoundStartState.cardSizeF canvasWidth canvasHeight fieldWidth fieldHeight min_gap).x =
        f32 ((RoundStartState.cardSizeF canvasWidth canvasHeight fieldWidth fieldHeight
          min_gap).y * RoundStartState.ratioF)) ∨
     ((RoundStartState.cardSizeF canvasWidth canvasHeight fieldWidth fieldHeight min_gap).x =
        RoundStartState.maxCardF canvasWidth fieldWidth min_gap ∧
      (RoundStartState.cardSizeF canvasWidth canvasHeight fieldWidth fieldHeight min_gap).y =
        f32 ((RoundStartState.cardSizeF canvasWidth canvasHeight fieldWidth fieldHeight
          min_gap).x / RoundStartState.ratioF))) ∧
    RoundStartState.ratioF = f32 ((25 / 10) / (35 / 10)) ∧
    |(RoundStartState.cardSizeF canvasWidth canvasHeight fieldWidth fieldHeight min_gap).x -
        (RoundStartState.cardSizeF canvasWidth canvasHeight fieldWidth fieldHeight min_gap).y *
          ((25 / 10) / (35 / 10))| ≤
      (|(RoundStartState.cardSizeF canvasWidth canvasHeight fieldWidth fieldHeight min_gap).x| +
        |(RoundStartState.cardSizeF canvasWidth canvasHeight fieldWidth fieldHeight
          min_gap).y|) / 2 ^ 23 + 1 / 2 ^ 149 ∧
    (RoundStartState.cardSizeF canvasWidth canvasHeight fieldWidth fieldHeight min_gap).x ≤
      RoundStartState.maxCardF canvasWidth fieldWidth min_gap ∧
    (RoundStartState.cardSizeF canvasWidth canvasHeight fieldWidth fieldHeight min_gap).y ≤
      RoundStartState.maxCardF canvasHeight fieldHeight min_gap ∧
    ((RoundStartState.cardSizeF canvasWidth canvasHeight fieldWidth fieldHeight min_gap).x =
        RoundStartState.maxCardF canvasWidth fieldWidth min_gap ∨
     (RoundStartState.cardSizeF canvasWidth canvasHeight fieldWidth fieldHeight min_gap).y =
        RoundStartState.maxCardF canvasHeight fieldHeight min_gap) := by
  have hmw : IsF32 (RoundStartState.maxCardF canvasWidth fieldWidth min_gap) := isF32_f32 _
  have hmh : IsF32 (RoundStartState.maxCardF canvasHeight fieldHeight min_gap) := isF32_f32 _
  have hr : (0 : ℚ) < RoundStartState.ratioF := by
    rw [RoundStartState.ratioF_eq]; norm_num
  have hratio : RoundStartState.ratioF = f32 ((25 / 10) / (35 / 10)) := by
    rw [RoundStartState.ratioF_eq]
    rw [f32_eval (25 / 10 / (35 / 10)) (-1) 11983726 (by norm_num)
      (by norm_num [abs_of_pos]) (by norm_num [abs_of_pos]) (by
        rw [abs_lt]
        norm_num)]
    norm_num
  unfold RoundStartState.cardSizeF
  generalize RoundStartState.maxCardF canvasWidth fieldWidth min_gap = mw at hmw ⊢
  generalize RoundStartState.maxCardF canvasHeight fieldHeight min_gap = mh at hmh ⊢
  unfold RoundStartState.chooseSizeF
  simp only
  by_cases hle : f32 (mh * RoundStartState.ratioF) ≤ mw
  · rw [if_pos hle]
    refine ⟨Or.inl ⟨rfl, rfl⟩, hratio, ?_, hle, le_refl _, Or.inr rfl⟩
    show |f32 (mh * RoundStartState.ratioF) - mh * ((25 / 10) / (35 / 10))| ≤
      (|f32 (mh * RoundStartState.ratioF)| + |mh|) / 2 ^ 23 + 1 / 2 ^ 149
    have herr := f32_error (mh * RoundStartState.ratioF)
    rw [RoundStartState.ratioF_eq] at herr ⊢
    have hz : |mh * (5991863 / 8388608)| = |mh| * (5991863 / 8388608) := by
      rw [abs_mul, abs_of_pos (by norm_num : (0 : ℚ) < 5991863 / 8388608)]
    rw [hz] at herr
    have hsplit : f32 (mh * (5991863 / 8388608)) - mh * ((25 / 10) / (35 / 10)) =
        (f32 (mh * (5991863 / 8388608)) - mh * (5991863 / 8388608)) +
          mh * (1 / 58720256) := by ring
    have hm : |mh * (1 / 58720256)| = |mh| * (1 / 58720256) := by
      rw [abs_mul, abs_of_pos (by norm_num : (0 : ℚ) < 1 / 58720256)]
    have h1 := abs_add (f32 (mh * (5991863 / 8388608)) - mh * (5991863 / 8388608))
      (mh * (1 / 58720256))
    rw [← hsplit, hm] at h1
    have h2 := abs_nonneg (f32 (mh * (5991863 / 8388608)))
    have h3 := abs_nonneg mh
    norm_num at herr h1 ⊢
    linarith
  · rw [if_neg hle]
    refine ⟨Or.inr ⟨rfl, rfl⟩, hratio, ?_, le_refl _, ?_, Or.inl rfl⟩
    · show |mw - f32 (mw / RoundStartState.ratioF) * ((25 / 10) / (35 / 10))| ≤
        (|mw| + |f32 (mw / RoundStartState.ratioF)|) / 2 ^ 23 + 1 / 2 ^ 149
      have herr := f32_error (mw / RoundStartState.ratioF)
      rw [RoundStartState.ratioF_eq] at herr ⊢
      have hz : |mw / (5991863 / 8388608)| = |mw| * (8388608 / 5991863) := by
        rw [abs_div, abs_of_pos (by norm_num : (0 : ℚ) < 5991863 / 8388608)]
        field_simp
      rw [hz] at herr
      have hsplit : mw - f32 (mw / (5991863 / 8388608)) * ((25 / 10) / (35 / 10)) =
          -((f32 (mw / (5991863 / 8388608)) - mw / (5991863 / 8388608)) * (5 / 7)) +
            mw * (1 / 41943041) := by
        field_simp
        ring
      have hm : |mw * (1 / 41943041)| = |mw| * (1 / 41943041) := by
        rw [abs_mul, abs_of_pos (by norm_num : (0 : ℚ) < 1 / 41943041)]
      have hf : |-((f32 (mw / (5991863 / 8388608)) - mw / (5991863 / 8388608)) * (5 / 7))| =
          |f32 (mw / (5991863 / 8388608)) - mw / (5991863 / 8388608)| * (5 / 7) := by
        rw [abs_neg, abs_mul, abs_of_pos (by norm_num : (0 : ℚ) < 5 / 7)]
      have h1 := abs_add
        (-((f32 (mw / (5991863 / 8388608)) - mw / (5991863 / 8388608)) * (5 / 7)))
        (mw * (1 / 41943041))
      rw [← hsplit, hm, hf] at h1
      have h2 := abs_nonneg (f32 (mw / (5991863 / 8388608)))
      have h3 := abs_nonneg mw
      norm_num at herr h1 ⊢
      linarith
    show f32 (mw / RoundStartState.ratioF) ≤ mh
    apply f32_le_of_le _ _ hmh
    have hlt : mw < mh * RoundStartState.ratioF := by
      by_contra hcon
      exact hle (f32_le_of_le _ _ hmw (not_lt.mp hcon))
    rw [div_le_iff₀ hr]
    exact le_of_lt hlt

/-- The screen of the game with the 4 by 4 field and gap 8 of round 1. -/
theorem RoundStartState.card_sizeF_bounds_witness :
    (((RoundStartState.cardSizeF 256 240 4 4 8).y = RoundStartState.maxCardF 240 4 8 ∧
      (RoundStartState.cardSizeF 256 240 4 4 8).x =
        f32 ((RoundStartState.cardSizeF 256 240 4 4 8).y * RoundStartState.ratioF)) ∨
     ((RoundStartState.cardSizeF 256 240 4 4 8).x = RoundStartState.maxCardF 256 4 8 ∧
      (RoundStartState.cardSizeF 256 240 4 4 8).y =
        f32 ((RoundStartState.cardSizeF 256 240 4 4 8).x / RoundStartState.ratioF))) ∧
    RoundStartState.ratioF = f32 ((25 / 10) / (35 / 10)) ∧
    |(RoundStartState.cardSizeF 256 240 4 4 8).x -
        (RoundStartState.cardSizeF 256 240 4 4 8).y * ((25 / 10) / (35 / 10))| ≤
      (|(RoundStartState.cardSizeF 256 240 4 4 8).x| +
        |(RoundStartState.cardSizeF 256 240 4 4 8).y|) / 2 ^ 23 + 1 / 2 ^ 149 ∧
    (RoundStartState.cardSizeF 256 240 4 4 8).x ≤ RoundStartState.maxCardF 256 4 8 ∧
    (RoundStartState.cardSizeF 256 240 4 4 8).y ≤ RoundStartState.maxCardF 240 4 8 ∧
    ((RoundStartState.cardSizeF 256 240 4 4 8).x = RoundStartState.maxCardF 256 4 8 ∨
     (RoundStartState.cardSizeF 256 240 4 4 8).y = RoundStartState.maxCardF 240 4 8) :=
  RoundStartState.card_sizeF_bounds 256 240 4 4 8 (by decide) (by decide)

/-- The screen of the game in round 34 (a 10 by 9 field; the gap comes from the `float`
square root of 34): the card is 16.532501 by 23.1455, bound by the height, and neither
the exact quotient width / height nor its `float` rounding is 2.5 / 3.5 or the `float`
ratio. -/
theorem RoundStartState.card_sizeF_counterexample :
    ceilSqrt ((7 + 34) * 2) = 10 ∧ floorSqrt ((7 + 34) * 2) = 9 ∧
    ((1528549 / 262144 - 1 / 2 ^ 22 : ℚ) ^ 2 < 34 ∧
      (34 : ℚ) < (1528549 / 262144 + 1 / 2 ^ 22) ^ 2) ∧
    RoundStartState.minGapF exLibm34 34 = 830747 / 262144 ∧
    RoundStartState.cardSizeF 256 240 10 9 (RoundStartState.minGapF exLibm34 34) =
      ⟨541737 / 32768, 3033727 / 131072⟩ ∧
    ¬ ((RoundStartState.cardSizeF 256 240 10 9 (RoundStartState.minGapF exLibm34 34)).x /
        (RoundStartState.cardSizeF 256 240 10 9 (RoundStartState.minGapF exLibm34 34)).y =
        (25 / 10) / (35 / 10)) ∧
    ¬ (f32 ((RoundStartState.cardSizeF 256 240 10 9
          (RoundStartState.minGapF exLibm34 34)).x /
        (RoundStartState.cardSizeF 256 240 10 9 (RoundStartState.minGapF exLibm34 34)).y) =
        RoundStartState.ratioF) := by
  have hs : Nat.sqrt 82 = 9 := by
    symm
    rw [Nat.eq_sqrt']
    norm_num
  have e1 : f32 (1266405 / 262144) = 1266405 / 262144 := by
    rw [f32_eval (1266405 / 262144) (2) 10131240 (by norm_num) (by norm_num [abs_of_pos])
      (by norm_num [abs_of_pos]) (by
        rw [abs_lt]
        norm_num)]
    norm_num
  have e2 : f32 (830747 / 262144) = 830747 / 262144 := by
    rw [f32_eval (830747 / 262144) (1) 13291952 (by norm_num) (by norm_num [abs_of_pos])
      (by norm_num [abs_of_pos]) (by
        rw [abs_lt]
        norm_num)]
    norm_num
  have e3 : f32 (256) = 256 := by
    rw [f32_eval (256) (8) 8388608 (by norm_num) (by norm_num [abs_of_pos])
      (by norm_num [abs_of_pos]) (by
        rw [abs_lt]
        norm_num)]
    norm_num
  have e4 : f32 (11) = 11 := by
    rw [f32_eval (11) (3) 11534336 (by norm_num) (by norm_num [abs_of_pos])
      (by norm_num [abs_of_pos]) (by
        rw [abs_lt]
        norm_num)]
    norm_num
  have e5 : f32 (10) = 10 := by
    rw [f32_eval (10) (3) 10485760 (by norm_num) (by norm_num [abs_of_pos])
      (by norm_num [abs_of_pos]) (by
        rw [abs_lt]
        norm_num)]
    norm_num
  have e6 : f32 (240) = 240 := by
    rw [f32_eval (240) (7) 15728640 (by norm_num) (by norm_num [abs_of_pos])
      (by norm_num [abs_of_pos]) (by
        rw [abs_lt]
        norm_num)]
    norm_num
  have e7 : f32 (9) = 9 := by
    rw [f32_eval (9) (3) 9437184 (by norm_num) (by norm_num [abs_of_pos])
      (by norm_num [abs_of_pos]) (by
        rw [abs_lt]
        norm_num)]
    norm_num
  have e8 : f32 (9138217 / 262144) = 9138217 / 262144 := by
    rw [f32_eval (9138217 / 262144) (5) 9138217 (by norm_num) (by norm_num [abs_of_pos])
      (by norm_num [abs_of_pos]) (by
        rw [abs_lt]
        norm_num)]
    norm_num
  have e9 : f32 (57970647 / 262144) = 7246331 / 32768 := by
    rw [f32_eval (57970647 / 262144) (7) 14492662 (by norm_num) (by norm_num [abs_of_pos])
      (by norm_num [abs_of_pos]) (by
        rw [abs_lt]
        norm_num)]
    norm_num
  have e10 : f32 (7246331 / 327680) = 5797065 / 262144 := by
    rw [f32_eval (7246331 / 327680) (4) 11594130 (by norm_num) (by norm_num [abs_of_pos])
      (by norm_num [abs_of_pos]) (by
        rw [abs_lt]
        norm_num)]
    norm_num
  have e11 : f32 (4153735 / 131072) = 4153735 / 131072 := by
    rw [f32_eval (4153735 / 131072) (4) 16614940 (by norm_num) (by norm_num [abs_of_pos])
      (by norm_num [abs_of_pos]) (by
        rw [abs_lt]
        norm_num)]
    norm_num
  have e12 : f32 (27303545 / 131072) = 3412943 / 16384 := by
    rw [f32_eval_tie (27303545 / 131072) (7) 13651772 (by norm_num) (by norm_num [abs_of_pos])
      (by norm_num [abs_of_pos]) (Or.inl (by norm_num)) (by decide)]
    norm_num
  have e13 : f32 (3412943 / 147456) = 3033727 / 131072 := by
    rw [f32_eval (3412943 / 147456) (4) 12134908 (by norm_num) (by norm_num [abs_of_pos])
      (by norm_num [abs_of_pos]) (by
        rw [abs_lt]
        norm_num)]
    norm_num
  have e14 : f32 (18177676563401 / 1099511627776) = 541737 / 32768 := by
    rw [f32_eval (18177676563401 / 1099511627776) (4) 8667792 (by norm_num) (by norm_num [abs_of_pos])
      (by norm_num [abs_of_pos]) (by
        rw [abs_lt]
        norm_num)]
    norm_num
  have e15 : f32 (2166948 / 3033727) = 11983727 / 16777216 := by
    rw [f32_eval (2166948 / 3033727) (-1) 11983727 (by norm_num) (by norm_num [abs_of_pos])
      (by norm_num [abs_of_pos]) (by
        rw [abs_lt]
        norm_num)]
    norm_num
  have hg : RoundStartState.minGapF exLibm34 34 = 830747 / 262144 := by
    unfold RoundStartState.minGapF
    simp only [exLibm34]
    norm_num [e1, e2]
  have hmw : RoundStartState.maxCardF 256 10 (830747 / 262144) = 5797065 / 262144 := by
    unfold RoundStartState.maxCardF
    norm_num [e3, e4, e5, e8, e9, e10]
  have hmh : RoundStartState.maxCardF 240 9 (830747 / 262144) = 3033727 / 131072 := by
    unfold RoundStartState.maxCardF
    norm_num [e5, e6, e7, e11, e12, e13]
  have hsz : RoundStartState.cardSizeF 256 240 10 9 (RoundStartState.minGapF exLibm34 34) =
      ⟨541737 / 32768, 3033727 / 131072⟩ := by
    rw [hg]
    unfold RoundStartState.cardSizeF RoundStartState.chooseSizeF
    rw [hmw, hmh, RoundStartState.ratioF_eq]
    norm_num [e14]
  refine ⟨?_, ?_, ⟨by norm_num, by norm_num⟩, hg, hsz, ?_, ?_⟩
  · have : ((7 + 34) * 2 : Int) = ((82 : Nat) : Int) := by norm_num
    rw [this, ceilSqrt_natCast, hs]
    norm_num
  · have : ((7 + 34) * 2 : Int) = ((82 : Nat) : Int) := by norm_num
    rw [this, floorSqrt_natCast, hs]
    norm_num
  · rw [hsz]
    norm_num
  · rw [hsz, RoundStartState.ratioF_eq]
    norm_num [e15]

end Memory
